import Mathlib

set_option linter.unusedSectionVars false
set_option linter.unusedVariables false

/-!
Silverware rate-mode PID core: a shallow embedding of `Silverware/src/pid.c`.

* C `float` values are modelled as elements of a linearly ordered field `K`
  (exact arithmetic, no rounding).  Every definition is computable and can be
  evaluated at `K = ℚ`; results that need an irrational input (an angle of one
  degree) are stated at `K = ℝ`.
* The file-scope and function-scope `static` variables of `pid.c` form the
  record `State`; the `extern` variables that `pid.c` only reads form `Ext`.
* Every `#ifdef` of `pid.c` is a field of `Config`; a block guarded by a
  switch becomes an `if` on that field, in source order.
* Axis indices are `Fin 3` (`PIDNUMBER` is 3: every array initialiser of the
  file lists three values).
-/

namespace Silverware

/-- The nine gain arrays a tuning pointer of `pid.c` can point to. -/
inductive GainArray where
  | pidkp | pidki | pidkd
  | pidkp1 | pidki1 | pidkd1
  | pidkp2 | pidki2 | pidkd2
  deriving DecidableEq, Repr

/-- Build configuration: the preprocessor switches and configuration values
`pid.c` takes from `config.h` / `defines.h`, together with the three switches
it sets itself (`ENABLE_SETPOINT_WEIGHTING`, `MIDPOINT_RULE_INTEGRAL` defined,
`ANTI_WINDUP_DISABLE` not defined). -/
structure Config (K : Type) where
  ENABLE_SETPOINT_WEIGHTING : Bool := true
  MIDPOINT_RULE_INTEGRAL : Bool := true
  RECTANGULAR_RULE_INTEGRAL : Bool := false
  SIMPSON_RULE_INTEGRAL : Bool := false
  ANTI_WINDUP_DISABLE : Bool := false
  TRANSIENT_WINDUP_PROTECTION : Bool := false
  ANALOG_AUX_PIDS : Bool := false
  ANALOG_R_P : Option Nat := none
  ANALOG_R_I : Option Nat := none
  ANALOG_R_D : Option Nat := none
  ANALOG_P_P : Option Nat := none
  ANALOG_P_I : Option Nat := none
  ANALOG_P_D : Option Nat := none
  ANALOG_Y_P : Option Nat := none
  ANALOG_Y_I : Option Nat := none
  ANALOG_Y_D : Option Nat := none
  ANALOG_RP_P : Option Nat := none
  ANALOG_RP_I : Option Nat := none
  ANALOG_RP_D : Option Nat := none
  ANALOG_RP_PD : Option Nat := none
  NORMAL_DTERM : Bool := false
  NEW_DTERM : Bool := false
  MAX_FLAT_LPF_DIFF_DTERM : Bool := false
  DTERM_LPF_1ST_HZ : Option K := none
  DTERM_LPF_2ND_HZ : Option K := none
  ADVANCED_PID_CONTROLLER : Bool := false
  PID_VOLTAGE_COMPENSATION : Bool := false
  LEVELMODE_PID_ATTENUATION : Option K := none
  COMBINE_PITCH_ROLL_PID_TUNING : Bool := false
  ENABLE_DUAL_PIDS : Bool := false
  /-- Index of the level-mode flag in `aux`. -/
  LEVELMODE : Nat := 0
  /-- Index of the race-mode flag in `aux`. -/
  RACEMODE : Nat := 1
  /-- Index of the profile selector in `aux`. -/
  PIDPROFILE : Nat := 2
  /-- Index of the gain-set selector in `aux`. -/
  PID_SET_CHANGE : Nat := 3
  /-- The filter-coefficient macro `FILTERCALC(sampleperiod, filtertime)` of
  `defines.h`, which is not part of `pid.c`. -/
  FILTERCALC : K → K → K
  /-- The setpoint low-pass filter `splpf(in, num)` declared `extern` in
  `pid()`: it maps its memory, the input and the channel to the output and the
  new memory. -/
  splpf : List K → K → Fin 3 → K × List K
  PIDKP1 : Fin 3 → K
  PIDKI1 : Fin 3 → K
  PIDKD1 : Fin 3 → K
  PIDKP2 : Fin 3 → K
  PIDKI2 : Fin 3 → K
  PIDKD2 : Fin 3 → K

/-- The `extern` variables read by `pid.c` (written by other modules), and
`setpoint`, which `pid.c` defines but never writes. -/
structure Ext (K : Type) where
  error : Fin 3 → K
  setpoint : Fin 3 → K
  looptime : K
  gyro : Fin 3 → K
  onground : Int
  in_air : Int
  aux : Nat → Int
  aux_analog : Nat → K
  aux_analogchange : Nat → Int
  vbattfilt : K
  rxcopy : Fin 4 → K

/-- The variables owned by `pid.c`. -/
structure State (K : Type) where
  stickAcceleratorProfileA : Fin 3 → K
  stickTransitionProfileA : Fin 3 → K
  stickAcceleratorProfileB : Fin 3 → K
  stickTransitionProfileB : Fin 3 → K
  pidkp_init : Fin 3 → K
  pidki_init : Fin 3 → K
  pidkd_init : Fin 3 → K
  b : Fin 3 → K
  pidkp1 : Fin 3 → K
  pidki1 : Fin 3 → K
  pidkd1 : Fin 3 → K
  pidkp2 : Fin 3 → K
  pidki2 : Fin 3 → K
  pidkd2 : Fin 3 → K
  pidkp : Fin 3 → K
  pidki : Fin 3 → K
  pidkd : Fin 3 → K
  number_of_increments : Fin 3 → Fin 3 → Int
  current_pid_axis : Int
  current_pid_term : Int
  current_pid_term_pointer : GainArray
  current_pid_term_pointer1 : GainArray
  current_pid_term_pointer2 : GainArray
  ierror : Fin 3 → K
  pidoutput : Fin 3 → K
  v_compensation : K
  analog_aux_pids_adjusted : Int
  lasterror : Fin 3 → K
  /-- File-scope `lastrate` of `NORMAL_DTERM`. -/
  lastrate : Fin 3 → K
  lastratexx : Fin 3 → Fin 4 → K
  lasterror2 : Fin 3 → K
  timefactor : K
  /-- `static float avgSetpoint[3]` of `pid()`. -/
  avgSetpoint : Fin 3 → K
  /-- `static int count[3]` of `pid()`. -/
  count : Fin 3 → Int
  /-- Memory of the external filter `splpf`. -/
  splpf_mem : List K
  /-- Block-scope `static float lastrate[3]` of the filtered D-term blocks,
  which hides the file-scope `lastrate` there. -/
  lastrate_lpf : Fin 3 → K
  /-- Block-scope `static float lastsetpoint[3]`. -/
  lastsetpoint : Fin 3 → K
  /-- Block-scope `static float dlpf[3]`. -/
  dlpf : Fin 3 → K
  last_out : Fin 3 → K
  last_out2 : Fin 3 → K

variable {K : Type} [LinearOrderedField K]

/-- Output limit: `const float outlimit[PIDNUMBER] = { 0.6 , 0.6 , 0.3 }`. -/
def outlimit : Fin 3 → K := ![0.6, 0.6, 0.3]

/-- Limit of the integral term:
`const float integrallimit[PIDNUMBER] = { 0.6 , 0.6 , 0.3 }`. -/
def integrallimit : Fin 3 → K := ![0.6, 0.6, 0.3]

/-- Multiplier for pids at 3V: `#define PID_VC_FACTOR 1.33f`. -/
def PID_VC_FACTOR : K := 1.33

/-- The state given by the initialisers of `pid.c`; variables without an
initialiser have static storage and start at zero. -/
def initState (cfg : Config K) : State K where
  stickAcceleratorProfileA := ![0.0, 0.0, 0.0]
  stickTransitionProfileA := ![0.0, 0.0, 0.0]
  stickAcceleratorProfileB := ![1.0, 1.0, 1.0]
  stickTransitionProfileB := ![0.0, 0.0, 0.0]
  pidkp_init := ![0, 0, 0]
  pidki_init := ![0, 0, 0]
  pidkd_init := ![0, 0, 0]
  b := ![1.0, 1.0, 1.0]
  pidkp1 := cfg.PIDKP1
  pidki1 := cfg.PIDKI1
  pidkd1 := cfg.PIDKD1
  pidkp2 := cfg.PIDKP2
  pidki2 := cfg.PIDKI2
  pidkd2 := cfg.PIDKD2
  pidkp := ![0, 0, 0]
  pidki := ![0, 0, 0]
  pidkd := ![0, 0, 0]
  number_of_increments := fun _ _ => 0
  current_pid_axis := 0
  current_pid_term := 0
  current_pid_term_pointer := GainArray.pidkp
  current_pid_term_pointer1 := GainArray.pidkp1
  current_pid_term_pointer2 := GainArray.pidkp2
  ierror := ![0, 0, 0]
  pidoutput := fun _ => 0
  v_compensation := 1.00
  analog_aux_pids_adjusted := 0
  lasterror := fun _ => 0
  lastrate := fun _ => 0
  lastratexx := fun _ _ => 0
  lasterror2 := fun _ => 0
  timefactor := 0
  avgSetpoint := fun _ => 0
  count := fun _ => 0
  splpf_mem := []
  lastrate_lpf := fun _ => 0
  lastsetpoint := fun _ => 0
  dlpf := fun _ => 0
  last_out := fun _ => 0
  last_out2 := fun _ => 0

/-- Modelled from the spec: `limitf` of `util.c`, which is not part of
`pid.c`; the spec has it clamp the value to `±limit`. -/
def limitf (input limit : K) : K :=
  max (-limit) (min input limit)

/-- Modelled from the spec: `mapf` of `util.c`, which is not part of `pid.c`;
the spec has it map `x` linearly from `[in_min, in_max]` to
`[out_min, out_max]`. -/
def mapf (x in_min in_max out_min out_max : K) : K :=
  (x - in_min) * (out_max - out_min) / (in_max - in_min) + out_min

/-- Modelled from the spec: the first-order filter `lpf` of `util.c`, which is
not part of `pid.c`; the spec gives `y = y + alpha*(x - y)`, and the
coefficient handed over by `pid.c` is `FILTERCALC(..) = 1 - alpha`. -/
def lpf (out inp coeff : K) : K :=
  out + (1 - coeff) * (inp - out)

/-- One `#ifdef ANALOG_..` block of `apply_analog_aux_to_pids`: when the
channel is configured and flagged as changed, run the assignments `f` and set
`analog_aux_pids_adjusted`. -/
def analog_block (e : Ext K) (ch : Option Nat) (f : Nat → State K → State K)
    (s : State K) : State K :=
  match ch with
  | none => s
  | some c =>
    if e.aux_analogchange c ≠ 0 then
      { f c s with analog_aux_pids_adjusted := 1 }
    else s

/-- The C function `apply_analog_aux_to_pids`. -/
def apply_analog_aux_to_pids (cfg : Config K) (e : Ext K) (s : State K) : State K :=
  -- Roll PIDs
  let s := analog_block e cfg.ANALOG_R_P (fun c s =>
    { s with pidkp := Function.update s.pidkp 0 (s.pidkp_init 0 * (e.aux_analog c + 0.5)) }) s
  let s := analog_block e cfg.ANALOG_R_I (fun c s =>
    { s with pidki := Function.update s.pidki 0 (s.pidki_init 0 * (e.aux_analog c + 0.5)) }) s
  let s := analog_block e cfg.ANALOG_R_D (fun c s =>
    { s with pidkd := Function.update s.pidkd 0 (s.pidkd_init 0 * (e.aux_analog c + 0.5)) }) s
  -- Pitch PIDs
  let s := analog_block e cfg.ANALOG_P_P (fun c s =>
    { s with pidkp := Function.update s.pidkp 1 (s.pidkp_init 1 * (e.aux_analog c + 0.5)) }) s
  let s := analog_block e cfg.ANALOG_P_I (fun c s =>
    { s with pidki := Function.update s.pidki 1 (s.pidki_init 1 * (e.aux_analog c + 0.5)) }) s
  let s := analog_block e cfg.ANALOG_P_D (fun c s =>
    { s with pidkd := Function.update s.pidkd 1 (s.pidkd_init 1 * (e.aux_analog c + 0.5)) }) s
  -- Yaw PIDs
  let s := analog_block e cfg.ANALOG_Y_P (fun c s =>
    { s with pidkp := Function.update s.pidkp 2 (s.pidkp_init 2 * (e.aux_analog c + 0.5)) }) s
  let s := analog_block e cfg.ANALOG_Y_I (fun c s =>
    { s with pidki := Function.update s.pidki 2 (s.pidki_init 2 * (e.aux_analog c + 0.5)) }) s
  let s := analog_block e cfg.ANALOG_Y_D (fun c s =>
    { s with pidkd := Function.update s.pidkd 2 (s.pidkd_init 2 * (e.aux_analog c + 0.5)) }) s
  -- Combined Roll and Pitch PIDs
  let s := analog_block e cfg.ANALOG_RP_P (fun c s =>
    let s := { s with pidkp := Function.update s.pidkp 0 (s.pidkp_init 0 * (e.aux_analog c + 0.5)) }
    { s with pidkp := Function.update s.pidkp 1 (s.pidkp_init 1 * (e.aux_analog c + 0.5)) }) s
  let s := analog_block e cfg.ANALOG_RP_I (fun c s =>
    let s := { s with pidki := Function.update s.pidki 0 (s.pidki_init 0 * (e.aux_analog c + 0.5)) }
    { s with pidki := Function.update s.pidki 1 (s.pidki_init 1 * (e.aux_analog c + 0.5)) }) s
  let s := analog_block e cfg.ANALOG_RP_D (fun c s =>
    let s := { s with pidkd := Function.update s.pidkd 0 (s.pidkd_init 0 * (e.aux_analog c + 0.5)) }
    { s with pidkd := Function.update s.pidkd 1 (s.pidkd_init 1 * (e.aux_analog c + 0.5)) }) s
  -- Combined Roll and Pitch P and D
  let s := analog_block e cfg.ANALOG_RP_PD (fun c s =>
    let s := { s with pidkp := Function.update s.pidkp 0 (s.pidkp_init 0 * (e.aux_analog c + 0.5)) }
    let s := { s with pidkp := Function.update s.pidkp 1 (s.pidkp_init 1 * (e.aux_analog c + 0.5)) }
    let s := { s with pidkd := Function.update s.pidkd 0 (s.pidkd_init 0 * (e.aux_analog c + 0.5)) }
    { s with pidkd := Function.update s.pidkd 1 (s.pidkd_init 1 * (e.aux_analog c + 0.5)) }) s
  s

/-- The C function `lpf2` (lines 527-548).  `DTERM_LPF_2ND_HZ` falls back to 99
when the configuration does not define it; the three coefficients are the
file-scope constants `two_one_minus_alpha`, `one_minus_alpha_sqr` and
`alpha_sqr`. -/
def lpf2 (cfg : Config K) (s : State K) (inp : K) (num : Fin 3) : K × State K :=
  let hz : K := cfg.DTERM_LPF_2ND_HZ.getD 99
  let two_one_minus_alpha : K := 2 * cfg.FILTERCALC 0.001 (1.0 / hz)
  let one_minus_alpha_sqr : K :=
    cfg.FILTERCALC 0.001 (1.0 / hz) * cfg.FILTERCALC 0.001 (1.0 / hz)
  let alpha_sqr : K :=
    (1 - cfg.FILTERCALC 0.001 (1.0 / hz)) * (1 - cfg.FILTERCALC 0.001 (1.0 / hz))
  let ans := inp * alpha_sqr + two_one_minus_alpha * s.last_out num
    - one_minus_alpha_sqr * s.last_out2 num
  let s := { s with last_out2 := Function.update s.last_out2 num (s.last_out num) }
  let s := { s with last_out := Function.update s.last_out num ans }
  (ans, s)

/-- Lines 279-284 of `pid`: decay of the integral on the ground. -/
def pid_decay (cfg : Config K) (e : Ext K) (s : State K) (x : Fin 3) : State K :=
  if e.aux cfg.LEVELMODE ≠ 0 ∧ ¬ (e.aux cfg.RACEMODE ≠ 0) then
    if e.onground ≠ 0 ∨ e.in_air = 0 then
      { s with ierror := Function.update s.ierror x (s.ierror x * 0.98) }
    else s
  else
    if e.onground ≠ 0 then
      { s with ierror := Function.update s.ierror x (s.ierror x * 0.98) }
    else s

/-- Lines 287-291 of `pid`: pid tuning via analog aux channels. -/
def pid_analog (cfg : Config K) (e : Ext K) (s : State K) : State K :=
  if cfg.ANALOG_AUX_PIDS then apply_analog_aux_to_pids cfg e s else s

/-- Lines 293-301 of `pid`: every second call on roll and pitch refreshes the
averaged setpoint (`count[x]++` is evaluated only when `x < 2`). -/
def pid_transient (cfg : Config K) (e : Ext K) (s : State K) (x : Fin 3) : State K :=
  if cfg.TRANSIENT_WINDUP_PROTECTION then
    if x.val < 2 then
      let c := s.count x
      let s := { s with count := Function.update s.count x (c + 1) }
      if c % 2 = 0 then
        let r := cfg.splpf s.splpf_mem (e.setpoint x) x
        { s with avgSetpoint := Function.update s.avgSetpoint x r.1, splpf_mem := r.2 }
      else s
    else s
  else s

/-- Lines 303-324 of `pid`: the windup flag `iwindup`. -/
def pid_iwindup (cfg : Config K) (e : Ext K) (s : State K) (x : Fin 3) : Bool :=
  let iwindup := false
  let iwindup :=
    if s.pidoutput x = outlimit x ∧ e.error x > 0 then true else iwindup
  let iwindup :=
    if s.pidoutput x = -outlimit x ∧ e.error x < 0 then true else iwindup
  let iwindup := if cfg.ANTI_WINDUP_DISABLE then false else iwindup
  let iwindup :=
    if cfg.TRANSIENT_WINDUP_PROTECTION then
      if x.val < 2 ∧ |e.setpoint x - s.avgSetpoint x| > 0.1 then true else iwindup
    else iwindup
  iwindup

/-- Lines 328-344 of `pid`: the body of `if ( !iwindup )`, one block per
integration rule compiled in. -/
def pid_integrate (cfg : Config K) (e : Ext K) (s : State K) (x : Fin 3) : State K :=
  let s :=
    if cfg.MIDPOINT_RULE_INTEGRAL then
      -- trapezoidal rule instead of rectangular
      let s := { s with
        ierror := Function.update s.ierror x
          (s.ierror x + (e.error x + s.lasterror x) * 0.5 * s.pidki x * e.looptime) }
      { s with lasterror := Function.update s.lasterror x (e.error x) }
    else s
  let s :=
    if cfg.RECTANGULAR_RULE_INTEGRAL then
      let s := { s with
        ierror := Function.update s.ierror x (s.ierror x + e.error x * s.pidki x * e.looptime) }
      { s with lasterror := Function.update s.lasterror x (e.error x) }
    else s
  let s :=
    if cfg.SIMPSON_RULE_INTEGRAL then
      -- assuming similar time intervals
      let s := { s with
        ierror := Function.update s.ierror x
          (s.ierror x + 0.166666 * (s.lasterror2 x + 4 * s.lasterror x + e.error x)
            * s.pidki x * e.looptime) }
      let s := { s with lasterror2 := Function.update s.lasterror2 x (s.lasterror x) }
      { s with lasterror := Function.update s.lasterror x (e.error x) }
    else s
  s

/-- Lines 279-347 of `pid`: decay, analog tuning, windup flag, integral update
and the clamp of the integral. -/
def pid_integral (cfg : Config K) (e : Ext K) (s : State K) (x : Fin 3) : State K :=
  let s := pid_decay cfg e s x
  let s := pid_analog cfg e s
  let s := pid_transient cfg e s x
  let iwindup := pid_iwindup cfg e s x
  let s := if !iwindup then pid_integrate cfg e s x else s
  { s with ierror := Function.update s.ierror x (limitf (s.ierror x) (integrallimit x)) }

/-- Lines 350-358 of `pid`: the value of the P term. -/
def pid_pterm (cfg : Config K) (e : Ext K) (s : State K) (x : Fin 3) : K :=
  if cfg.ENABLE_SETPOINT_WEIGHTING then
    e.error x * s.b x * s.pidkp x + -(1.0 - s.b x) * s.pidkp x * e.gyro x
  else
    -- P term with b disabled
    e.error x * s.pidkp x

/-- Lines 350-361 of `pid`: P term and I term written to `pidoutput[x]`. -/
def pid_pi (cfg : Config K) (e : Ext K) (s : State K) (x : Fin 3) : State K :=
  let s := { s with pidoutput := Function.update s.pidoutput x (pid_pterm cfg e s x) }
  -- I term
  { s with pidoutput := Function.update s.pidoutput x (s.pidoutput x + s.ierror x) }

/-- Lines 410-421 (and 454-465) of `pid`: the stick accelerator of the active
profile and the transition setpoint weight, as the pair
`(stickAccelerator[x], transitionSetpointWeight[x])`. -/
def stick_weight (cfg : Config K) (e : Ext K) (s : State K) (x : Fin 3) : K × K :=
  let stickAccelerator :=
    if e.aux cfg.PIDPROFILE ≠ 0 then s.stickAcceleratorProfileB x
    else s.stickAcceleratorProfileA x
  let stickTransition :=
    if e.aux cfg.PIDPROFILE ≠ 0 then s.stickTransitionProfileB x
    else s.stickTransitionProfileA x
  let transitionSetpointWeight :=
    if stickAccelerator < 1 then
      (|e.rxcopy x.castSucc| * stickTransition) + (1 - stickTransition)
    else
      (|e.rxcopy x.castSucc| * (stickTransition / stickAccelerator)) + (1 - stickTransition)
  (stickAccelerator, transitionSetpointWeight)

/-- The raw D term of the ADVANCED_PID_CONTROLLER blocks (lines 426 and 470). -/
def advanced_dterm (cfg : Config K) (e : Ext K) (s : State K) (x : Fin 3) : K :=
  ((e.setpoint x - s.lastsetpoint x) * s.pidkd x * (stick_weight cfg e s x).1
      * (stick_weight cfg e s x).2 * s.timefactor)
    - ((e.gyro x - s.lastrate_lpf x) * s.pidkd x * s.timefactor)

/-- Lines 367-370 of `pid`: the `NORMAL_DTERM` block. -/
def dterm_normal (cfg : Config K) (e : Ext K) (s : State K) (x : Fin 3) : State K :=
  if cfg.NORMAL_DTERM then
    let s := { s with
      pidoutput := Function.update s.pidoutput x
        (s.pidoutput x - (e.gyro x - s.lastrate x) * s.pidkd x * s.timefactor) }
    { s with lastrate := Function.update s.lastrate x (e.gyro x) }
  else s

/-- Lines 372-378 of `pid`: the `NEW_DTERM` block. -/
def dterm_new (cfg : Config K) (e : Ext K) (s : State K) (x : Fin 3) : State K :=
  if cfg.NEW_DTERM then
    let s := { s with
      pidoutput := Function.update s.pidoutput x
        (s.pidoutput x - (0.5 * e.gyro x - 0.5 * s.lastratexx x 1) * s.pidkd x * s.timefactor) }
    let s := { s with
      lastratexx := Function.update s.lastratexx x
        (Function.update (s.lastratexx x) 1 (s.lastratexx x 0)) }
    { s with
      lastratexx := Function.update s.lastratexx x
        (Function.update (s.lastratexx x) 0 (e.gyro x)) }
  else s

/-- Lines 380-388 of `pid`: the `MAX_FLAT_LPF_DIFF_DTERM` block. -/
def dterm_max_flat (cfg : Config K) (e : Ext K) (s : State K) (x : Fin 3) : State K :=
  if cfg.MAX_FLAT_LPF_DIFF_DTERM then
    let s := { s with
      pidoutput := Function.update s.pidoutput x
        (s.pidoutput x - (0.125 * e.gyro x + 0.250 * s.lastratexx x 0
          - 0.250 * s.lastratexx x 2 - 0.125 * s.lastratexx x 3) * s.pidkd x * s.timefactor) }
    let s := { s with
      lastratexx := Function.update s.lastratexx x
        (Function.update (s.lastratexx x) 3 (s.lastratexx x 2)) }
    let s := { s with
      lastratexx := Function.update s.lastratexx x
        (Function.update (s.lastratexx x) 2 (s.lastratexx x 1)) }
    let s := { s with
      lastratexx := Function.update s.lastratexx x
        (Function.update (s.lastratexx x) 1 (s.lastratexx x 0)) }
    { s with
      lastratexx := Function.update s.lastratexx x
        (Function.update (s.lastratexx x) 0 (e.gyro x)) }
  else s

/-- Lines 391-431 of `pid`: the two `DTERM_LPF_1ST_HZ` blocks, without and
with `ADVANCED_PID_CONTROLLER`. -/
def dterm_lpf_1st (cfg : Config K) (e : Ext K) (s : State K) (x : Fin 3) : State K :=
  match cfg.DTERM_LPF_1ST_HZ with
  | none => s
  | some hz =>
    if !cfg.ADVANCED_PID_CONTROLLER then
      let dterm := -(e.gyro x - s.lastrate_lpf x) * s.pidkd x * s.timefactor
      let s := { s with lastrate_lpf := Function.update s.lastrate_lpf x (e.gyro x) }
      let s := { s with
        dlpf := Function.update s.dlpf x
          (lpf (s.dlpf x) dterm (cfg.FILTERCALC 0.001 (1.0 / hz))) }
      { s with pidoutput := Function.update s.pidoutput x (s.pidoutput x + s.dlpf x) }
    else
      if s.pidkd x > 0 then
        let dterm := advanced_dterm cfg e s x
        let s := { s with lastsetpoint := Function.update s.lastsetpoint x (e.setpoint x) }
        let s := { s with lastrate_lpf := Function.update s.lastrate_lpf x (e.gyro x) }
        let s := { s with
          dlpf := Function.update s.dlpf x
            (lpf (s.dlpf x) dterm (cfg.FILTERCALC 0.001 (1.0 / hz))) }
        { s with pidoutput := Function.update s.pidoutput x (s.pidoutput x + s.dlpf x) }
      else s

/-- Lines 435-475 of `pid`: the two `DTERM_LPF_2ND_HZ` blocks, without and
with `ADVANCED_PID_CONTROLLER`. -/
def dterm_lpf_2nd (cfg : Config K) (e : Ext K) (s : State K) (x : Fin 3) : State K :=
  match cfg.DTERM_LPF_2ND_HZ with
  | none => s
  | some _ =>
    if !cfg.ADVANCED_PID_CONTROLLER then
      if s.pidkd x > 0 then
        let dterm := -(e.gyro x - s.lastrate_lpf x) * s.pidkd x * s.timefactor
        let s := { s with lastrate_lpf := Function.update s.lastrate_lpf x (e.gyro x) }
        let r := lpf2 cfg s dterm x
        let dterm := r.1
        let s := r.2
        { s with pidoutput := Function.update s.pidoutput x (s.pidoutput x + dterm) }
      else s
    else
      if s.pidkd x > 0 then
        let dterm := advanced_dterm cfg e s x
        let s := { s with lastsetpoint := Function.update s.lastsetpoint x (e.setpoint x) }
        let s := { s with lastrate_lpf := Function.update s.lastrate_lpf x (e.gyro x) }
        let r := lpf2 cfg s dterm x
        let dterm := r.1
        let s := r.2
        { s with pidoutput := Function.update s.pidoutput x (s.pidoutput x + dterm) }
      else s

/-- Lines 367-475 of `pid`: the body of `if ( pidkd[x] > 0 )`, one block per
derivative formulation compiled in, in source order. -/
def pid_dterm (cfg : Config K) (e : Ext K) (s : State K) (x : Fin 3) : State K :=
  let s := dterm_normal cfg e s x
  let s := dterm_new cfg e s x
  let s := dterm_max_flat cfg e s x
  let s := dterm_lpf_1st cfg e s x
  let s := dterm_lpf_2nd cfg e s x
  s

/-- Lines 363-477 of `pid`: the D term, skipped when `pidkd[x]` is not
positive. -/
def pid_d (cfg : Config K) (e : Ext K) (s : State K) (x : Fin 3) : State K :=
  if s.pidkd x > 0 then pid_dterm cfg e s x else s

/-- Lines 481-485 of `pid`: the final limit and the voltage compensation. -/
def pid_limit (cfg : Config K) (s : State K) (x : Fin 3) : State K :=
  let s := { s with
    pidoutput := Function.update s.pidoutput x (limitf (s.pidoutput x) (outlimit x)) }
  if cfg.PID_VOLTAGE_COMPENSATION then
    { s with pidoutput := Function.update s.pidoutput x (s.pidoutput x * s.v_compensation) }
  else s

/-- The C function `pid` (pid calculation for acro / rate mode): the returned
value `pidoutput[x]` and the state it leaves. -/
def pid (cfg : Config K) (e : Ext K) (s : State K) (x : Fin 3) : K × State K :=
  let s := pid_integral cfg e s x
  let s := pid_pi cfg e s x
  let s := pid_d cfg e s x
  let s := pid_limit cfg s x
  (s.pidoutput x, s)

/-- The C function `pid_precalc`.  The quotient `0.0032f / looptime` is the
field quotient; it stands for the C value whenever `looptime` is not zero. -/
def pid_precalc (cfg : Config K) (e : Ext K) (s : State K) : State K :=
  let s := { s with timefactor := 0.0032 / e.looptime }
  if cfg.PID_VOLTAGE_COMPENSATION then
    let s := { s with v_compensation := mapf e.vbattfilt 3.00 4.00 PID_VC_FACTOR 1.00 }
    let s := if s.v_compensation > PID_VC_FACTOR then
      { s with v_compensation := PID_VC_FACTOR } else s
    let s := if s.v_compensation < 1.00 then { s with v_compensation := 1.00 } else s
    match cfg.LEVELMODE_PID_ATTENUATION with
    | none => s
    | some a =>
      if e.aux cfg.LEVELMODE ≠ 0 then { s with v_compensation := s.v_compensation * a }
      else s
  else s

/-- The C function `rotateErrors`. -/
def rotateErrors (e : Ext K) (s : State K) : State K :=
  -- rotation around x axis:
  let s := { s with
    ierror := Function.update s.ierror 1 (s.ierror 1 - s.ierror 2 * e.gyro 0 * e.looptime) }
  let s := { s with
    ierror := Function.update s.ierror 2 (s.ierror 2 + s.ierror 1 * e.gyro 0 * e.looptime) }
  -- rotation around y axis:
  let s := { s with
    ierror := Function.update s.ierror 2 (s.ierror 2 - s.ierror 0 * e.gyro 1 * e.looptime) }
  let s := { s with
    ierror := Function.update s.ierror 0 (s.ierror 0 + s.ierror 2 * e.gyro 1 * e.looptime) }
  -- rotation around z axis:
  let s := { s with
    ierror := Function.update s.ierror 0 (s.ierror 0 - s.ierror 1 * e.gyro 2 * e.looptime) }
  let s := { s with
    ierror := Function.update s.ierror 1 (s.ierror 1 + s.ierror 0 * e.gyro 2 * e.looptime) }
  s

/-- The decay condition of lines 279-284 of `pid`: in level mode without race
mode, on the ground or not in the air; otherwise, on the ground. -/
def decay_cond (cfg : Config K) (e : Ext K) : Bool :=
  if e.aux cfg.LEVELMODE ≠ 0 ∧ ¬ (e.aux cfg.RACEMODE ≠ 0) then
    decide (e.onground ≠ 0 ∨ e.in_air = 0)
  else
    decide (e.onground ≠ 0)

/-- The factor applied to `ierror[x]` by lines 279-284 of `pid`. -/
def decay_factor (cfg : Config K) (e : Ext K) : K :=
  if decay_cond cfg e then 0.98 else 1

/-- States that differ at most in the working gains and in
`analog_aux_pids_adjusted`. -/
def GainsOnly (s t : State K) : Prop :=
  ∃ kp ki kd adj,
    t = { s with pidkp := kp, pidki := ki, pidkd := kd, analog_aux_pids_adjusted := adj }

/-- States that differ at most in the variables written by lines 279-347 of
`pid`. -/
def IntegralOnly (s t : State K) : Prop :=
  ∃ kp ki kd adj ie le le2 av ct mem,
    t = { s with pidkp := kp, pidki := ki, pidkd := kd, analog_aux_pids_adjusted := adj,
                 ierror := ie, lasterror := le, lasterror2 := le2, avgSetpoint := av,
                 count := ct, splpf_mem := mem }

/-- The derivative history of a state replaced by that of another state:
`lastrate`, `lastratexx`, the block-scope `lastrate`, `lastsetpoint`, and the
filter states `dlpf`, `last_out`, `last_out2`. -/
def withDerivHistory (s d : State K) : State K :=
  { s with lastrate := d.lastrate, lastratexx := d.lastratexx,
           lastrate_lpf := d.lastrate_lpf, lastsetpoint := d.lastsetpoint,
           dlpf := d.dlpf, last_out := d.last_out, last_out2 := d.last_out2 }

/-- States that differ at most in `pidoutput` and the derivative history. -/
def DerivOnly (s t : State K) : Prop :=
  ∃ po lr lrx lrl lsp dl lo lo2,
    t = { s with pidoutput := po, lastrate := lr, lastratexx := lrx, lastrate_lpf := lrl,
                 lastsetpoint := lsp, dlpf := dl, last_out := lo, last_out2 := lo2 }

/-- A build with the switches as `pid.c` sets them and nothing else enabled. -/
def exampleConfig : Config ℚ :=
  { FILTERCALC := fun _ _ => 0, splpf := fun m v _ => (v, m),
    PIDKP1 := 0, PIDKI1 := 0, PIDKD1 := 0, PIDKP2 := 0, PIDKI2 := 0, PIDKD2 := 0 }

/-- The build `exampleConfig` with `PID_VOLTAGE_COMPENSATION` defined. -/
def exampleConfigVC : Config ℚ :=
  { exampleConfig with PID_VOLTAGE_COMPENSATION := true }

/-- In the air in acro mode, error 1 on roll and 0.5 on yaw, loop time 1 ms. -/
def exampleExt : Ext ℚ :=
  { error := ![1, 0, 0.5], setpoint := ![1, 0, 0.5], looptime := 0.001, gyro := 0,
    onground := 0, in_air := 1, aux := fun _ => 0, aux_analog := fun _ => 0,
    aux_analogchange := fun _ => 0, vbattfilt := 4.2, rxcopy := 0 }

/-- The initial state with roll gain `kp = 1.0`. -/
def exampleStateP : State ℚ :=
  { initState exampleConfig with pidkp := ![1, 0, 0] }

/-- The state `exampleStateP` at a battery voltage of 3 V or less:
`v_compensation = 1.33`. -/
def exampleStateVC : State ℚ :=
  { exampleStateP with v_compensation := 1.33 }

/-- Lines 279-301 of `pid`: the state in which the windup flag is computed. -/
def pid_pre (cfg : Config K) (e : Ext K) (s : State K) (x : Fin 3) : State K :=
  pid_transient cfg e (pid_analog cfg e (pid_decay cfg e s x)) x

/-- On the ground with the output saturated: `ierror[0] = 0.5`, and the previous
roll output equal to `outlimit[0]`. -/
def exampleStateSat : State ℚ :=
  { exampleStateP with ierror := ![0.5, 0, 0], pidoutput := ![0.6, 0, 0] }

/-- The inputs `exampleExt` with the craft on the ground. -/
def exampleExtGround : Ext ℚ :=
  { exampleExt with onground := 1 }

/-- Whether the level-mode attenuation of lines 500-502 of `pid_precalc` is applied:
`LEVELMODE_PID_ATTENUATION` is defined and `aux[LEVELMODE]` is set. -/
def attenuation_active (cfg : Config K) (e : Ext K) : Bool :=
  cfg.LEVELMODE_PID_ATTENUATION.isSome && decide (e.aux cfg.LEVELMODE ≠ 0)

/-- The integral at its limits on roll and pitch, within the limit on yaw. -/
def exampleStateRot : State ℚ :=
  { initState exampleConfig with ierror := ![0.6, 0.6, -0.3] }

/-- A roll rate of 1 rad/s over a loop time of 1 ms. -/
def exampleExtRot : Ext ℚ :=
  { exampleExt with gyro := ![1, 0, 0] }

/-- The inputs `exampleExt` with a negative loop time. -/
def exampleExtNeg : Ext ℚ :=
  { exampleExt with looptime := -0.001 }

/-- The inputs `exampleExt` at a battery voltage of 3.5 V. -/
def exampleExtHalf : Ext ℚ :=
  { exampleExt with vbattfilt := 3.5 }

/-- A build with the measurement D term and the second-order D-term filter compiled in,
and voltage compensation. -/
def exampleConfigD : Config ℚ :=
  { exampleConfigVC with NORMAL_DTERM := true, DTERM_LPF_2ND_HZ := some 100 }

/-- A state with roll gains `kp = 1`, `ki = 2`, no D gain, and a non-trivial
derivative history. -/
def exampleStatePI : State ℚ :=
  { initState exampleConfig with
    pidkp := ![1, 0, 0], pidki := ![2, 0, 0], ierror := ![0.1, 0, 0],
    lastrate := ![5, 0, 0], lastrate_lpf := ![7, 0, 0], last_out := ![3, 0, 0] }

/-- Whether an optional analog channel is configured and flagged as changed. -/
def channel_changed (e : Ext K) (ch : Option Nat) : Bool :=
  match ch with
  | none => false
  | some c => decide (e.aux_analogchange c ≠ 0)

/-- Whether the call of `apply_analog_aux_to_pids` at line 289 of `pid` rewrites a gain:
`ANALOG_AUX_PIDS` is defined and a configured analog channel is flagged as changed. -/
def analog_changed (cfg : Config K) (e : Ext K) : Bool :=
  cfg.ANALOG_AUX_PIDS &&
    (channel_changed e cfg.ANALOG_R_P || channel_changed e cfg.ANALOG_R_I
      || channel_changed e cfg.ANALOG_R_D || channel_changed e cfg.ANALOG_P_P
      || channel_changed e cfg.ANALOG_P_I || channel_changed e cfg.ANALOG_P_D
      || channel_changed e cfg.ANALOG_Y_P || channel_changed e cfg.ANALOG_Y_I
      || channel_changed e cfg.ANALOG_Y_D || channel_changed e cfg.ANALOG_RP_P
      || channel_changed e cfg.ANALOG_RP_I || channel_changed e cfg.ANALOG_RP_D
      || channel_changed e cfg.ANALOG_RP_PD)

/-- Consecutive calls of `pid(x)`, one per tick, the inputs of each tick taken from the
list; the result is the state after the last call. -/
def pid_run (cfg : Config K) (x : Fin 3) : List (Ext K) → State K → State K
  | [], s => s
  | e :: es, s => pid_run cfg x es (pid cfg e s x).2

/-- States that differ at most in the integrator variables: the integral, the error
history and the variables of the transient windup protection. -/
def IntegratorOnly (s t : State K) : Prop :=
  ∃ ie le le2 av ct mem,
    t = { s with ierror := ie, lasterror := le, lasterror2 := le2, avgSetpoint := av,
                 count := ct, splpf_mem := mem }

/-- The initial state with yaw gain `ki = 1.0`. -/
def exampleStateI : State ℚ :=
  { initState exampleConfig with pidki := ![0, 0, 1] }

/-- The state of axis `x` after `m` ticks of the I-only scenario with the midpoint rule,
for the per-tick increment `c = err * ki * dt`: no P and D gain, unit voltage
compensation, the previous output equal to the integral, the last error 0 (before the
first tick) or `err`, and the integral equal to `c * m` minus half an increment weighted
by the last error. -/
def MidpointInv (x : Fin 3) (err ki dt : K) (s : State K) (m : ℕ) : Prop :=
  s.pidkp x = 0 ∧ s.pidkd x = 0 ∧ s.pidki x = ki ∧ s.v_compensation = 1 ∧
  s.pidoutput x = s.ierror x ∧
  s.ierror x = err * ki * dt * m - s.lasterror x * ki * dt / 2 ∧
  |s.ierror x| ≤ |err * ki * dt| * m ∧
  (m = 0 → s.lasterror x = 0) ∧ (0 < m → s.lasterror x = err)

/-- One axis-pair update of `rotateErrors`, for instance lines 690-691: the first
component loses `theta` times the second, then the second gains `theta` times the new
first. -/
def rot_step (theta : K) (v : K × K) : K × K :=
  (v.1 - v.2 * theta, v.2 + (v.1 - v.2 * theta) * theta)

/-- The build `exampleConfig` over any field. -/
def exampleConfigK : Config K :=
  { FILTERCALC := fun _ _ => 0, splpf := fun m v _ => (v, m),
    PIDKP1 := 0, PIDKI1 := 0, PIDKD1 := 0, PIDKP2 := 0, PIDKI2 := 0, PIDKD2 := 0 }

/-- A roll rate of `theta` rad/s over a loop time of one second, no other input. -/
def exampleExtTurn (theta : K) : Ext K :=
  { error := 0, setpoint := 0, looptime := 1, gyro := ![theta, 0, 0],
    onground := 0, in_air := 1, aux := fun _ => 0, aux_analog := fun _ => 0,
    aux_analogchange := fun _ => 0, vbattfilt := 4, rxcopy := 0 }

/-- The initial state with the integral vector `(0.1, 0.2, 0.3)`. -/
def exampleStateTurn : State K :=
  { initState exampleConfigK with ierror := ![0.1, 0.2, 0.3] }

/-- The claimed matrix of the x-axis pair update of `rotateErrors` (lines 690-691) acting on
`(ierror[0], ierror[1], ierror[2])`, for the angle `theta = gyro[0] * looptime`. -/
def rot_x (theta : K) : Matrix (Fin 3) (Fin 3) K :=
  !![1, 0, 0; 0, 1, -theta; 0, theta, 1 - theta * theta]

/-- The claimed matrix of the y-axis pair update (lines 694-695), for
`theta = gyro[1] * looptime`. -/
def rot_y (theta : K) : Matrix (Fin 3) (Fin 3) K :=
  !![1 - theta * theta, 0, theta; 0, 1, 0; -theta, 0, 1]

/-- The claimed matrix of the z-axis pair update (lines 698-699), for
`theta = gyro[2] * looptime`. -/
def rot_z (theta : K) : Matrix (Fin 3) (Fin 3) K :=
  !![1, -theta, 0; theta, 1 - theta * theta, 0; 0, 0, 1]

/-- The claimed linear map of `rotateErrors`: the three axis-pair updates in sequence, the
x-axis update applied first. -/
def rotate_matrix (e : Ext K) : Matrix (Fin 3) (Fin 3) K :=
  rot_z (e.gyro 2 * e.looptime) * rot_y (e.gyro 1 * e.looptime) * rot_x (e.gyro 0 * e.looptime)

/-- A state with setpoint weight `b = 1` on roll, all three roll gains set, a nonzero
integral and a derivative history. -/
def exampleStatePID : State ℚ :=
  { initState exampleConfig with
    pidkp := ![1, 0, 0], pidki := ![2, 0, 0], pidkd := ![0.5, 0, 0], ierror := ![0.1, 0, 0],
    timefactor := 1, lastrate := ![5, 0, 0], lastrate_lpf := ![7, 0, 0],
    lastsetpoint := ![0.25, 0, 0], last_out := ![3, 0, 0] }

/-- A build with analog-aux tuning, the roll P gain mapped to analog channel 0. -/
def exampleConfigAnalog : Config ℚ :=
  { exampleConfig with ANALOG_AUX_PIDS := true, ANALOG_R_P := some 0 }

/-- Analog channel 0 flagged as changed, with the channel value `v`. -/
def exampleExtAnalog (v : ℚ) : Ext ℚ :=
  { exampleExt with aux_analog := fun _ => v, aux_analogchange := fun c => if c = 0 then 1 else 0 }

/-- The initial state with the saved initial roll P gain 1 and the working gain 1. -/
def exampleStateAnalog : State ℚ :=
  { initState exampleConfig with pidkp_init := ![1, 0, 0], pidkp := ![1, 0, 0] }

/-- The value of a C `int` (32 bits, two's complement) after an arithmetic result `n`. -/
def wrap_int (n : Int) : Int :=
  (n + 2147483648) % 4294967296 - 2147483648

/-- The C library function `abs` on `int`. -/
def c_abs (n : Int) : Int :=
  if n < 0 then wrap_int (-n) else n

/-- An `int` used as an index into an array of three elements; no value outside `0..2`. -/
def index3 (i : Int) : Option (Fin 3) :=
  if i = 0 then some 0 else if i = 1 then some 1 else if i = 2 then some 2 else none

/-- The array a tuning pointer points to. -/
def gain_array (s : State K) : GainArray → Fin 3 → K
  | GainArray.pidkp => s.pidkp
  | GainArray.pidki => s.pidki
  | GainArray.pidkd => s.pidkd
  | GainArray.pidkp1 => s.pidkp1
  | GainArray.pidki1 => s.pidki1
  | GainArray.pidkd1 => s.pidkd1
  | GainArray.pidkp2 => s.pidkp2
  | GainArray.pidki2 => s.pidki2
  | GainArray.pidkd2 => s.pidkd2

/-- The assignment `p[i] = v` through a tuning pointer `p`. -/
def gain_store (s : State K) (p : GainArray) (i : Fin 3) (v : K) : State K :=
  match p with
  | GainArray.pidkp => { s with pidkp := Function.update s.pidkp i v }
  | GainArray.pidki => { s with pidki := Function.update s.pidki i v }
  | GainArray.pidkd => { s with pidkd := Function.update s.pidkd i v }
  | GainArray.pidkp1 => { s with pidkp1 := Function.update s.pidkp1 i v }
  | GainArray.pidki1 => { s with pidki1 := Function.update s.pidki1 i v }
  | GainArray.pidkd1 => { s with pidkd1 := Function.update s.pidkd1 i v }
  | GainArray.pidkp2 => { s with pidkp2 := Function.update s.pidkp2 i v }
  | GainArray.pidki2 => { s with pidki2 := Function.update s.pidki2 i v }
  | GainArray.pidkd2 => { s with pidkd2 := Function.update s.pidkd2 i v }

/-- The gesture multiplier: `#define PID_GESTURES_MULTI 1.1f`. -/
def PID_GESTURES_MULTI : K := 1.1

/-- Lines 628-641 (and 648-661) of `change_pid_value`: the dual PIDs code, which copies the
tuned value at index `i` into the first or the second gain set. -/
def dual_pids_copy (cfg : Config K) (e : Ext K) (s : State K) (i : Fin 3) : State K :=
  if cfg.ENABLE_DUAL_PIDS then
    if ¬ (e.aux cfg.PID_SET_CHANGE ≠ 0) then
      gain_store s s.current_pid_term_pointer1 i (gain_array s s.current_pid_term_pointer i)
    else
      gain_store s s.current_pid_term_pointer2 i (gain_array s s.current_pid_term_pointer i)
  else
    gain_store s s.current_pid_term_pointer1 i (gain_array s s.current_pid_term_pointer i)

/-- Lines 626-665 of `change_pid_value`: the selected gain at index `a` is multiplied and
copied into a gain set; with `COMBINE_PITCH_ROLL_PID_TUNING` and roll selected the same
is done at index `a + 1`, which is then 1. -/
def change_pid_gains (cfg : Config K) (e : Ext K) (s : State K) (a : Fin 3) (multiplier : K) :
    State K :=
  let s := gain_store s s.current_pid_term_pointer a
    (gain_array s s.current_pid_term_pointer a * multiplier)
  -- dual PIDs code
  let s := dual_pids_copy cfg e s a
  if cfg.COMBINE_PITCH_ROLL_PID_TUNING then
    if s.current_pid_axis = 0 then
      let s := gain_store s s.current_pid_term_pointer 1
        (gain_array s s.current_pid_term_pointer 1 * multiplier)
      dual_pids_copy cfg e s 1
    else s
  else s

/-- The C function `change_pid_value`: the returned value and the state it leaves.  There
is no result when `current_pid_term` or `current_pid_axis` is not a valid index. -/
def change_pid_value (cfg : Config K) (e : Ext K) (s : State K) (increase : Int) :
    Option (Int × State K) :=
  match index3 s.current_pid_term, index3 s.current_pid_axis with
  | some t, some a =>
    let multiplier : K := 1.0 / PID_GESTURES_MULTI
    let n := s.number_of_increments t a
    let multiplier : K := if increase ≠ 0 then PID_GESTURES_MULTI else multiplier
    let s :=
      if increase ≠ 0 then
        { s with
          number_of_increments := Function.update s.number_of_increments t
            (Function.update (s.number_of_increments t) a (wrap_int (n + 1))) }
      else
        { s with
          number_of_increments := Function.update s.number_of_increments t
            (Function.update (s.number_of_increments t) a (wrap_int (n - 1))) }
    let s := change_pid_gains cfg e s a multiplier
    some (c_abs (s.number_of_increments t a), s)
  | _, _ => none

/-- The C function `increase_pid`. -/
def increase_pid (cfg : Config K) (e : Ext K) (s : State K) : Option (Int × State K) :=
  change_pid_value cfg e s 1

/-- The C function `decrease_pid`. -/
def decrease_pid (cfg : Config K) (e : Ext K) (s : State K) : Option (Int × State K) :=
  change_pid_value cfg e s 0

/-- A sequence of gesture calls, `true` for `increase_pid()` and `false` for
`decrease_pid()`: the state after the last call. -/
def gesture_run (cfg : Config K) (e : Ext K) : List Bool → State K → Option (State K)
  | [], s => some s
  | true :: cs, s =>
    match increase_pid cfg e s with
    | some r => gesture_run cfg e cs r.2
    | none => none
  | false :: cs, s =>
    match decrease_pid cfg e s with
    | some r => gesture_run cfg e cs r.2
    | none => none

/-- A battery voltage of 3.0 V, in the air, error 1 on roll, loop time 1 ms. -/
def exampleExtLow : Ext ℚ :=
  { exampleExt with vbattfilt := 3.0 }

/-- The initial state with roll gains `kp = 1` and `ki = 1`. -/
def exampleStateKpKi : State ℚ :=
  { initState exampleConfig with pidkp := ![1, 0, 0], pidki := ![1, 0, 0] }

/-- The state after `pid_precalc` at 3.0 V in the build with voltage compensation. -/
def exampleStateLow : State ℚ :=
  pid_precalc exampleConfigVC exampleExtLow exampleStateKpKi

/-- In level mode without race mode, on the ground. -/
def exampleExtLevelGround : Ext ℚ :=
  { exampleExt with onground := 1, aux := fun c => if c = 0 then 1 else 0 }

/-- The filter constant of `lpf2` as the claim names it:
`alpha = 1 - FILTERCALC(0.001, 1/DTERM_LPF_2ND_HZ)`, with the fallback 99 Hz of line 528. -/
def lpf2_alpha (cfg : Config K) : K :=
  1 - cfg.FILTERCALC 0.001 (1.0 / cfg.DTERM_LPF_2ND_HZ.getD 99)

/-- The outputs of consecutive calls `lpf2(in, num)` on one channel, one per input. -/
def lpf2_run (cfg : Config K) (num : Fin 3) : List K → State K → List K
  | [], _ => []
  | v :: vs, s => (lpf2 cfg s v num).1 :: lpf2_run cfg num vs (lpf2 cfg s v num).2

/-- The first-order filter in the spec's words: `y <- y + alpha * (x - y)`. -/
def first_order_step (alpha y x : K) : K :=
  y + alpha * (x - y)

/-- Two cascaded first-order filters in the spec's words, with the states `u` of the first
and `y` of the second: the first filters the input, the second filters the output of the
first; the result lists the outputs of the second. -/
def cascade_run (alpha : K) : List K → K → K → List K
  | [], _, _ => []
  | v :: vs, u, y =>
    first_order_step alpha y (first_order_step alpha u v)
      :: cascade_run alpha vs (first_order_step alpha u v)
          (first_order_step alpha y (first_order_step alpha u v))

/-- The build `exampleConfig` with a filter coefficient `FILTERCALC = 0.5`. -/
def exampleConfigFilter : Config ℚ :=
  { exampleConfig with FILTERCALC := fun _ _ => 0.5 }

/-- A tick of `pid(x)` on which the integral update is the bare integration rule: the
windup flag is not set, the clamp of line 347 is not reached, there is no decay, and the
analog-aux tuning rewrites no gain. -/
def quiet_tick (cfg : Config K) (e : Ext K) (s : State K) (x : Fin 3) : Prop :=
  pid_iwindup cfg e (pid_pre cfg e s x) x = false ∧
  |(pid_integrate cfg e (pid_pre cfg e s x) x).ierror x| ≤ integrallimit x ∧
  decay_cond cfg e = false ∧ analog_changed cfg e = false

/-- Consecutive ticks of `pid(x)` that are all quiet. -/
def quiet_run (cfg : Config K) (x : Fin 3) : List (Ext K) → State K → Prop
  | [], _ => True
  | e :: es, s => quiet_tick cfg e s x ∧ quiet_run cfg x es (pid cfg e s x).2

/-- The build `exampleConfig` (midpoint rule) switched to the rectangular rule. -/
def exampleConfigRect : Config ℚ :=
  { exampleConfig with MIDPOINT_RULE_INTEGRAL := false, RECTANGULAR_RULE_INTEGRAL := true }

/-- The inputs `exampleExt` with a zero error on the three axes. -/
def exampleExtZero : Ext ℚ :=
  { exampleExt with error := ![0, 0, 0] }

/-- Lines 410-416 of `pid`: the stick accelerator of the active profile. -/
def stick_accelerator (cfg : Config K) (e : Ext K) (s : State K) (x : Fin 3) : K :=
  if e.aux cfg.PIDPROFILE ≠ 0 then s.stickAcceleratorProfileB x
  else s.stickAcceleratorProfileA x

/-- Lines 410-416 of `pid`: the stick transition of the active profile. -/
def stick_transition (cfg : Config K) (e : Ext K) (s : State K) (x : Fin 3) : K :=
  if e.aux cfg.PIDPROFILE ≠ 0 then s.stickTransitionProfileB x
  else s.stickTransitionProfileA x

/-- Lines 417-421 of `pid`: the transition setpoint weight for the stick accelerator `a`,
the stick transition `t` and the stick position `r`. -/
def transition_weight (a t r : K) : K :=
  if a < 1 then (|r| * t) + (1 - t) else (|r| * (t / a)) + (1 - t)

/-- A build with the first-order D-term filter and the advanced controller. -/
def exampleConfigAdv : Config ℚ :=
  { exampleConfigFilter with DTERM_LPF_1ST_HZ := some 70, ADVANCED_PID_CONTROLLER := true }

/-- The state `exampleStatePID` with the stick accelerator 2 and the stick transition 0.5
on roll in profile A. -/
def exampleStateStick : State ℚ :=
  { exampleStatePID with
    stickAcceleratorProfileA := ![2, 0, 0], stickTransitionProfileA := ![0.5, 0, 0] }

/-- The inputs `exampleExt` at full roll stick deflection. -/
def exampleExtFullStick : Ext ℚ :=
  { exampleExt with rxcopy := ![1, 0, 0, 0] }

/-- The C function `next_pid_term`: the returned value and the state it leaves.  The
`switch` has no `default`: a value of `current_pid_term` other than 0, 1, 2 changes
nothing. -/
def next_pid_term (s : State K) : Int × State K :=
  let s :=
    if s.current_pid_term = 0 then
      { s with
        current_pid_term_pointer := GainArray.pidki
        current_pid_term_pointer1 := GainArray.pidki1
        current_pid_term_pointer2 := GainArray.pidki2
        current_pid_term := 1 }
    else if s.current_pid_term = 1 then
      { s with
        current_pid_term_pointer := GainArray.pidkd
        current_pid_term_pointer1 := GainArray.pidkd1
        current_pid_term_pointer2 := GainArray.pidkd2
        current_pid_term := 2 }
    else if s.current_pid_term = 2 then
      { s with
        current_pid_term_pointer := GainArray.pidkp
        current_pid_term_pointer1 := GainArray.pidkp1
        current_pid_term_pointer2 := GainArray.pidkp2
        current_pid_term := 0 }
    else s
  (wrap_int (s.current_pid_term + 1), s)

/-- The state after `n` consecutive calls of `next_pid_term()`. -/
def next_pid_term_run : ℕ → State K → State K
  | 0, s => s
  | n + 1, s => (next_pid_term (next_pid_term_run n s)).2

/-- The term selection is consistent: `current_pid_term` is 0, 1 or 2 and the three
tuning pointers point to the arrays of that term. -/
def TermSelected (s : State K) : Prop :=
  (s.current_pid_term = 0 ∧ s.current_pid_term_pointer = GainArray.pidkp ∧
    s.current_pid_term_pointer1 = GainArray.pidkp1 ∧
    s.current_pid_term_pointer2 = GainArray.pidkp2) ∨
  (s.current_pid_term = 1 ∧ s.current_pid_term_pointer = GainArray.pidki ∧
    s.current_pid_term_pointer1 = GainArray.pidki1 ∧
    s.current_pid_term_pointer2 = GainArray.pidki2) ∨
  (s.current_pid_term = 2 ∧ s.current_pid_term_pointer = GainArray.pidkd ∧
    s.current_pid_term_pointer1 = GainArray.pidkd1 ∧
    s.current_pid_term_pointer2 = GainArray.pidkd2)

/-- The claimed invariant of one axis-pair update of angle `theta`: the quadratic form
`y^2 + z^2 - theta * y * z` of the pair `(y, z)`. -/
def rot_form (theta y z : K) : K :=
  y ^ 2 + z ^ 2 - theta * y * z

/-- Consecutive ticks of `pid(x)` that all find the windup flag set. -/
def windup_run (cfg : Config K) (x : Fin 3) : List (Ext K) → State K → Prop
  | [], _ => True
  | e :: es, s =>
    pid_iwindup cfg e (pid_pre cfg e s x) x = true ∧ windup_run cfg x es (pid cfg e s x).2

/-- The inputs `exampleExt` with the roll error replaced by `v`. -/
def exampleExtError (v : ℚ) : Ext ℚ :=
  { exampleExt with error := ![v, 0, 0] }

/-- Roll gains `kp = 1`, `ki = 1` after a tick with error 1 that saturated the output:
`pidoutput[0] = outlimit[0]`, `lasterror[0] = 1`, `ierror[0] = 0.0005`. -/
def exampleStateWound : State ℚ :=
  { exampleStateKpKi with
    pidoutput := ![0.6, 0, 0], lasterror := ![1, 0, 0], ierror := ![0.0005, 0, 0] }

/-! ### Basic facts about the limits and the clamp -/

theorem outlimit_nonneg (x : Fin 3) : (0 : K) ≤ outlimit x := by
  fin_cases x <;> simp [outlimit] <;> norm_num

theorem integrallimit_nonneg (x : Fin 3) : (0 : K) ≤ integrallimit x := by
  fin_cases x <;> simp [integrallimit] <;> norm_num

theorem limitf_abs_le (v l : K) (hl : 0 ≤ l) : |limitf v l| ≤ l := by
  unfold limitf
  rw [abs_le]
  constructor
  · exact le_max_left _ _
  · exact max_le (by linarith) (min_le_right _ _)

theorem limitf_of_abs_le (v l : K) (h : |v| ≤ l) : limitf v l = v := by
  unfold limitf
  rw [abs_le] at h
  rw [min_eq_left h.2, max_eq_right h.1]

/-! ### Frame facts: which variables each part of `pid` writes -/

theorem gainsOnly_refl (s : State K) : GainsOnly s s := ⟨_, _, _, _, rfl⟩

theorem gainsOnly_trans {s t u : State K} (h1 : GainsOnly s t) (h2 : GainsOnly t u) :
    GainsOnly s u := by
  obtain ⟨kp, ki, kd, adj, rfl⟩ := h1
  obtain ⟨kp2, ki2, kd2, adj2, rfl⟩ := h2
  exact ⟨_, _, _, _, rfl⟩

theorem analog_block_gainsOnly (e : Ext K) (ch : Option Nat) (f : Nat → State K → State K)
    (hf : ∀ c s, GainsOnly s (f c s)) (s : State K) : GainsOnly s (analog_block e ch f s) := by
  unfold analog_block
  cases ch with
  | none => exact gainsOnly_refl s
  | some c =>
    simp only
    split
    · obtain ⟨kp, ki, kd, adj, h⟩ := hf c s
      rw [h]
      exact ⟨_, _, _, _, rfl⟩
    · exact gainsOnly_refl s

theorem apply_analog_gainsOnly (cfg : Config K) (e : Ext K) (s : State K) :
    GainsOnly s (apply_analog_aux_to_pids cfg e s) := by
  unfold apply_analog_aux_to_pids
  simp only
  repeat' (first
    | exact gainsOnly_refl _
    | (refine gainsOnly_trans ?_ (analog_block_gainsOnly e _ _ (fun c s => ⟨_, _, _, _, rfl⟩) _)))

theorem pid_analog_gainsOnly (cfg : Config K) (e : Ext K) (s : State K) :
    GainsOnly s (pid_analog cfg e s) := by
  unfold pid_analog
  split
  · exact apply_analog_gainsOnly cfg e s
  · exact gainsOnly_refl s

theorem pid_decay_eq (cfg : Config K) (e : Ext K) (s : State K) (x : Fin 3) :
    pid_decay cfg e s x
      = { s with ierror := Function.update s.ierror x (s.ierror x * decay_factor cfg e) } := by
  have hs : s = { s with ierror := Function.update s.ierror x (s.ierror x * 1) } := by
    rw [mul_one, Function.update_eq_self]
  unfold pid_decay decay_factor decay_cond
  by_cases h1 : e.aux cfg.LEVELMODE ≠ 0 ∧ ¬ (e.aux cfg.RACEMODE ≠ 0)
  · by_cases h2 : e.onground ≠ 0 ∨ e.in_air = 0
    · rw [if_pos h1, if_pos h2, if_pos h1, if_pos (decide_eq_true h2)]
    · rw [if_pos h1, if_neg h2, if_pos h1, if_neg (by simpa using h2)]
      exact hs
  · by_cases h2 : e.onground ≠ 0
    · rw [if_neg h1, if_pos h2, if_neg h1, if_pos (decide_eq_true h2)]
    · rw [if_neg h1, if_neg h2, if_neg h1, if_neg (by simpa using h2)]
      exact hs

theorem integralOnly_refl (s : State K) : IntegralOnly s s :=
  ⟨_, _, _, _, _, _, _, _, _, _, rfl⟩

theorem integralOnly_trans {s t u : State K} (h1 : IntegralOnly s t) (h2 : IntegralOnly t u) :
    IntegralOnly s u := by
  obtain ⟨_, _, _, _, _, _, _, _, _, _, rfl⟩ := h1
  obtain ⟨_, _, _, _, _, _, _, _, _, _, rfl⟩ := h2
  exact ⟨_, _, _, _, _, _, _, _, _, _, rfl⟩

theorem gainsOnly_integralOnly {s t : State K} (h : GainsOnly s t) : IntegralOnly s t := by
  obtain ⟨_, _, _, _, rfl⟩ := h
  exact ⟨_, _, _, _, _, _, _, _, _, _, rfl⟩

theorem pid_decay_integralOnly (cfg : Config K) (e : Ext K) (s : State K) (x : Fin 3) :
    IntegralOnly s (pid_decay cfg e s x) := by
  rw [pid_decay_eq]
  exact ⟨_, _, _, _, _, _, _, _, _, _, rfl⟩

theorem pid_transient_integralOnly (cfg : Config K) (e : Ext K) (s : State K) (x : Fin 3) :
    IntegralOnly s (pid_transient cfg e s x) := by
  unfold pid_transient
  dsimp only
  split_ifs <;> exact ⟨_, _, _, _, _, _, _, _, _, _, rfl⟩

theorem pid_integrate_integralOnly (cfg : Config K) (e : Ext K) (s : State K) (x : Fin 3) :
    IntegralOnly s (pid_integrate cfg e s x) := by
  unfold pid_integrate
  dsimp only
  split_ifs <;> exact ⟨_, _, _, _, _, _, _, _, _, _, rfl⟩

theorem pid_integral_integralOnly (cfg : Config K) (e : Ext K) (s : State K) (x : Fin 3) :
    IntegralOnly s (pid_integral cfg e s x) := by
  have h1 := pid_decay_integralOnly cfg e s x
  have h2 := gainsOnly_integralOnly (pid_analog_gainsOnly cfg e (pid_decay cfg e s x))
  have h3 := pid_transient_integralOnly cfg e (pid_analog cfg e (pid_decay cfg e s x)) x
  have h123 := integralOnly_trans (integralOnly_trans h1 h2) h3
  unfold pid_integral
  dsimp only
  split_ifs
  · exact integralOnly_trans (integralOnly_trans h123 (pid_integrate_integralOnly cfg e _ x))
      ⟨_, _, _, _, _, _, _, _, _, _, rfl⟩
  · exact integralOnly_trans h123 ⟨_, _, _, _, _, _, _, _, _, _, rfl⟩

theorem derivOnly_refl (s : State K) : DerivOnly s s := ⟨_, _, _, _, _, _, _, _, rfl⟩

theorem derivOnly_trans {s t u : State K} (h1 : DerivOnly s t) (h2 : DerivOnly t u) :
    DerivOnly s u := by
  obtain ⟨_, _, _, _, _, _, _, _, rfl⟩ := h1
  obtain ⟨_, _, _, _, _, _, _, _, rfl⟩ := h2
  exact ⟨_, _, _, _, _, _, _, _, rfl⟩

theorem lpf2_derivOnly (cfg : Config K) (s : State K) (v : K) (x : Fin 3) :
    DerivOnly s (lpf2 cfg s v x).2 := ⟨_, _, _, _, _, _, _, _, rfl⟩

theorem dterm_normal_derivOnly (cfg : Config K) (e : Ext K) (s : State K) (x : Fin 3) :
    DerivOnly s (dterm_normal cfg e s x) := by
  unfold dterm_normal
  dsimp only
  split_ifs <;> exact ⟨_, _, _, _, _, _, _, _, rfl⟩

theorem dterm_new_derivOnly (cfg : Config K) (e : Ext K) (s : State K) (x : Fin 3) :
    DerivOnly s (dterm_new cfg e s x) := by
  unfold dterm_new
  dsimp only
  split_ifs <;> exact ⟨_, _, _, _, _, _, _, _, rfl⟩

theorem dterm_max_flat_derivOnly (cfg : Config K) (e : Ext K) (s : State K) (x : Fin 3) :
    DerivOnly s (dterm_max_flat cfg e s x) := by
  unfold dterm_max_flat
  dsimp only
  split_ifs <;> exact ⟨_, _, _, _, _, _, _, _, rfl⟩

theorem dterm_lpf_1st_derivOnly (cfg : Config K) (e : Ext K) (s : State K) (x : Fin 3) :
    DerivOnly s (dterm_lpf_1st cfg e s x) := by
  unfold dterm_lpf_1st
  cases cfg.DTERM_LPF_1ST_HZ with
  | none => exact derivOnly_refl s
  | some hz =>
    dsimp only
    split_ifs <;> exact ⟨_, _, _, _, _, _, _, _, rfl⟩

theorem dterm_lpf_2nd_derivOnly (cfg : Config K) (e : Ext K) (s : State K) (x : Fin 3) :
    DerivOnly s (dterm_lpf_2nd cfg e s x) := by
  unfold dterm_lpf_2nd
  cases cfg.DTERM_LPF_2ND_HZ with
  | none => exact derivOnly_refl s
  | some hz =>
    dsimp only
    split_ifs <;> first
      | exact derivOnly_refl s
      | exact ⟨_, _, _, _, _, _, _, _, rfl⟩

theorem pid_dterm_derivOnly (cfg : Config K) (e : Ext K) (s : State K) (x : Fin 3) :
    DerivOnly s (pid_dterm cfg e s x) := by
  unfold pid_dterm
  exact derivOnly_trans (derivOnly_trans (derivOnly_trans (derivOnly_trans
    (dterm_normal_derivOnly cfg e s x) (dterm_new_derivOnly cfg e _ x))
    (dterm_max_flat_derivOnly cfg e _ x)) (dterm_lpf_1st_derivOnly cfg e _ x))
    (dterm_lpf_2nd_derivOnly cfg e _ x)

theorem pid_d_derivOnly (cfg : Config K) (e : Ext K) (s : State K) (x : Fin 3) :
    DerivOnly s (pid_d cfg e s x) := by
  unfold pid_d
  split_ifs
  · exact pid_dterm_derivOnly cfg e s x
  · exact derivOnly_refl s

theorem pid_pi_derivOnly (cfg : Config K) (e : Ext K) (s : State K) (x : Fin 3) :
    DerivOnly s (pid_pi cfg e s x) := ⟨_, _, _, _, _, _, _, _, rfl⟩

theorem pid_limit_derivOnly (cfg : Config K) (s : State K) (x : Fin 3) :
    DerivOnly s (pid_limit cfg s x) := by
  unfold pid_limit
  dsimp only
  split_ifs <;> exact ⟨_, _, _, _, _, _, _, _, rfl⟩

theorem pid_limit_pidoutput (cfg : Config K) (s : State K) (x : Fin 3) :
    (pid_limit cfg s x).pidoutput x
      = if cfg.PID_VOLTAGE_COMPENSATION then
          limitf (s.pidoutput x) (outlimit x) * s.v_compensation
        else limitf (s.pidoutput x) (outlimit x) := by
  unfold pid_limit
  dsimp only
  split_ifs <;> simp

/-! ### The evaluator `pid` -/

theorem pid_eq (cfg : Config K) (e : Ext K) (s : State K) (x : Fin 3) :
    pid cfg e s x
      = ((pid_limit cfg (pid_d cfg e (pid_pi cfg e (pid_integral cfg e s x) x) x) x).pidoutput x,
          pid_limit cfg (pid_d cfg e (pid_pi cfg e (pid_integral cfg e s x) x) x) x) := rfl

theorem integralOnly_v_compensation {s t : State K} (h : IntegralOnly s t) :
    t.v_compensation = s.v_compensation := by
  obtain ⟨_, _, _, _, _, _, _, _, _, _, rfl⟩ := h
  rfl

theorem derivOnly_v_compensation {s t : State K} (h : DerivOnly s t) :
    t.v_compensation = s.v_compensation := by
  obtain ⟨_, _, _, _, _, _, _, _, rfl⟩ := h
  rfl

theorem pid_d_v_compensation (cfg : Config K) (e : Ext K) (s : State K) (x : Fin 3) :
    (pid_d cfg e (pid_pi cfg e (pid_integral cfg e s x) x) x).v_compensation
      = s.v_compensation := by
  rw [derivOnly_v_compensation (pid_d_derivOnly cfg e _ x),
    derivOnly_v_compensation (pid_pi_derivOnly cfg e _ x),
    integralOnly_v_compensation (pid_integral_integralOnly cfg e s x)]

/-- C1: the value returned by `pid(x)` is the value stored in `pidoutput[x]`; its
magnitude is at most `outlimit[x]` when voltage compensation is compiled out, and at
most `outlimit[x] * v_compensation` when it is compiled in and `v_compensation` is not
negative. -/
theorem pid_output_bounded (cfg : Config K) (e : Ext K) (s : State K) (x : Fin 3) :
    (pid cfg e s x).1 = (pid cfg e s x).2.pidoutput x ∧
    (cfg.PID_VOLTAGE_COMPENSATION = false → |(pid cfg e s x).1| ≤ outlimit x) ∧
    (cfg.PID_VOLTAGE_COMPENSATION = true → 0 ≤ s.v_compensation →
      |(pid cfg e s x).1| ≤ outlimit x * s.v_compensation) := by
  refine ⟨rfl, ?_, ?_⟩
  · intro hvc
    rw [pid_eq, pid_limit_pidoutput, hvc]
    exact limitf_abs_le _ _ (outlimit_nonneg x)
  · intro hvc hv
    rw [pid_eq, pid_limit_pidoutput, hvc, pid_d_v_compensation]
    simp only [if_true]
    rw [abs_mul, abs_of_nonneg hv]
    exact mul_le_mul_of_nonneg_right (limitf_abs_le _ _ (outlimit_nonneg x)) hv

/-- Witness for C1: roll with `kp = 1`, error 1 and `v_compensation = 1.33`, with
voltage compensation compiled in. -/
theorem pid_output_bounded_witness :
    exampleConfigVC.PID_VOLTAGE_COMPENSATION = true ∧ 0 ≤ exampleStateVC.v_compensation ∧
    |(pid exampleConfigVC exampleExt exampleStateVC 0).1|
      ≤ outlimit 0 * exampleStateVC.v_compensation :=
  ⟨rfl, by norm_num [exampleStateVC],
    (pid_output_bounded exampleConfigVC exampleExt exampleStateVC 0).2.2 rfl
      (by norm_num [exampleStateVC])⟩

theorem pid_integral_eq (cfg : Config K) (e : Ext K) (s : State K) (x : Fin 3) :
    pid_integral cfg e s x
      = if pid_iwindup cfg e (pid_pre cfg e s x) x then
          { pid_pre cfg e s x with
            ierror := Function.update (pid_pre cfg e s x).ierror x
              (limitf ((pid_pre cfg e s x).ierror x) (integrallimit x)) }
        else
          { pid_integrate cfg e (pid_pre cfg e s x) x with
            ierror := Function.update (pid_integrate cfg e (pid_pre cfg e s x) x).ierror x
              (limitf ((pid_integrate cfg e (pid_pre cfg e s x) x).ierror x) (integrallimit x)) } := by
  unfold pid_integral pid_pre
  dsimp only
  cases pid_iwindup cfg e (pid_transient cfg e (pid_analog cfg e (pid_decay cfg e s x)) x) x <;> rfl

theorem gainsOnly_ierror {s t : State K} (h : GainsOnly s t) : t.ierror = s.ierror := by
  obtain ⟨_, _, _, _, rfl⟩ := h
  rfl

theorem integralOnly_pidoutput {s t : State K} (h : IntegralOnly s t) :
    t.pidoutput = s.pidoutput := by
  obtain ⟨_, _, _, _, _, _, _, _, _, _, rfl⟩ := h
  rfl

theorem derivOnly_ierror {s t : State K} (h : DerivOnly s t) : t.ierror = s.ierror := by
  obtain ⟨_, _, _, _, _, _, _, _, rfl⟩ := h
  rfl

theorem pid_transient_ierror (cfg : Config K) (e : Ext K) (s : State K) (x : Fin 3) :
    (pid_transient cfg e s x).ierror = s.ierror := by
  unfold pid_transient
  dsimp only
  split_ifs <;> rfl

theorem pid_pre_ierror (cfg : Config K) (e : Ext K) (s : State K) (x : Fin 3) :
    (pid_pre cfg e s x).ierror = Function.update s.ierror x (s.ierror x * decay_factor cfg e) := by
  unfold pid_pre
  rw [pid_transient_ierror, gainsOnly_ierror (pid_analog_gainsOnly cfg e _), pid_decay_eq]

theorem pid_pre_integralOnly (cfg : Config K) (e : Ext K) (s : State K) (x : Fin 3) :
    IntegralOnly s (pid_pre cfg e s x) :=
  integralOnly_trans (integralOnly_trans (pid_decay_integralOnly cfg e s x)
    (gainsOnly_integralOnly (pid_analog_gainsOnly cfg e _))) (pid_transient_integralOnly cfg e _ x)

theorem pid_pre_pidoutput (cfg : Config K) (e : Ext K) (s : State K) (x : Fin 3) :
    (pid_pre cfg e s x).pidoutput = s.pidoutput :=
  integralOnly_pidoutput (pid_pre_integralOnly cfg e s x)

theorem pid_ierror (cfg : Config K) (e : Ext K) (s : State K) (x : Fin 3) :
    (pid cfg e s x).2.ierror = (pid_integral cfg e s x).ierror := by
  rw [pid_eq]
  dsimp only
  rw [derivOnly_ierror (pid_limit_derivOnly cfg _ x), derivOnly_ierror (pid_d_derivOnly cfg e _ x),
    derivOnly_ierror (pid_pi_derivOnly cfg e _ x)]

theorem pid_integral_ierror_clamped (cfg : Config K) (e : Ext K) (s : State K) (x : Fin 3) :
    ∃ v, (pid_integral cfg e s x).ierror x = limitf v (integrallimit x) := by
  rw [pid_integral_eq]
  split_ifs
  · exact ⟨_, Function.update_same _ _ _⟩
  · exact ⟨_, Function.update_same _ _ _⟩

/-- C2: after `pid(x)` the integral `ierror[x]` is a value clamped by `limitf` to
`integrallimit[x]`, so its magnitude is at most `integrallimit[x]`, from every prior state;
and the value of `pidoutput[x]` after the I term is added (line 361) is the P term plus
this clamped integral. -/
theorem pid_ierror_bounded (cfg : Config K) (e : Ext K) (s : State K) (x : Fin 3) :
    (∃ v, (pid cfg e s x).2.ierror x = limitf v (integrallimit x)) ∧
    |(pid cfg e s x).2.ierror x| ≤ integrallimit x ∧
    (pid_pi cfg e (pid_integral cfg e s x) x).pidoutput x
      = pid_pterm cfg e (pid_integral cfg e s x) x + (pid cfg e s x).2.ierror x := by
  obtain ⟨v, hv⟩ := pid_integral_ierror_clamped cfg e s x
  rw [pid_ierror]
  refine ⟨⟨v, hv⟩, ?_, ?_⟩
  · rw [hv]
    exact limitf_abs_le _ _ (integrallimit_nonneg x)
  · simp [pid_pi]

/-- Amended C4: when the stored previous output `pidoutput[x]` equals `+outlimit[x]`
with `error[x] > 0`, or `-outlimit[x]` with `error[x] < 0`, and anti-windup is not
disabled, `pid(x)` leaves `ierror[x]` equal to the clamp of its decayed prior value:
the prior value times 0.98 when the decay condition of lines 279-284 holds, the prior
value itself otherwise.  Without decay and within the limit it is unchanged. -/
theorem pid_windup_freezes_integral (cfg : Config K) (e : Ext K) (s : State K) (x : Fin 3)
    (hdis : cfg.ANTI_WINDUP_DISABLE = false)
    (hsat : (s.pidoutput x = outlimit x ∧ e.error x > 0) ∨
      (s.pidoutput x = -outlimit x ∧ e.error x < 0)) :
    (pid cfg e s x).2.ierror x
        = limitf (s.ierror x * decay_factor cfg e) (integrallimit x) ∧
    (decay_cond cfg e = false → |s.ierror x| ≤ integrallimit x →
      (pid cfg e s x).2.ierror x = s.ierror x) := by
  have hw : pid_iwindup cfg e (pid_pre cfg e s x) x = true := by
    unfold pid_iwindup
    rw [pid_pre_pidoutput]
    rcases hsat with h | h
    · by_cases h2 : s.pidoutput x = -outlimit x ∧ e.error x < 0 <;>
        by_cases h3 : cfg.TRANSIENT_WINDUP_PROTECTION = true <;> simp [h, h2, h3, hdis]
    · by_cases h3 : cfg.TRANSIENT_WINDUP_PROTECTION = true <;> simp [h, h3, hdis]
  have h1 : (pid cfg e s x).2.ierror x
      = limitf (s.ierror x * decay_factor cfg e) (integrallimit x) := by
    rw [pid_ierror, pid_integral_eq, if_pos hw]
    simp [pid_pre_ierror]
  refine ⟨h1, fun hd hle => ?_⟩
  rw [h1]
  unfold decay_factor
  rw [hd]
  simp only [Bool.false_eq_true, if_false, mul_one]
  exact limitf_of_abs_le _ _ hle

/-- Witness for amended C4: on the ground with the roll output saturated and a positive
error, the integral 0.5 becomes 0.49. -/
theorem pid_windup_freezes_integral_witness :
    (pid exampleConfig exampleExtGround exampleStateSat 0).2.ierror 0
      = limitf (exampleStateSat.ierror 0 * decay_factor exampleConfig exampleExtGround)
          (integrallimit 0) :=
  (pid_windup_freezes_integral exampleConfig exampleExtGround exampleStateSat 0 rfl
    (Or.inl ⟨by norm_num [exampleStateSat, outlimit],
      by norm_num [exampleExtGround, exampleExt]⟩)).1

/-- Counterexample to C4 as stated: on the ground, with `pidoutput[0] = outlimit[0]`,
`error[0] > 0` and anti-windup not disabled, `pid(0)` changes `ierror[0]` from 0.5 to
0.49, although 0.5 is within the limit 0.6 and its clamp is 0.5. -/
theorem pid_windup_counterexample :
    exampleConfig.ANTI_WINDUP_DISABLE = false ∧
    exampleStateSat.pidoutput 0 = outlimit 0 ∧ exampleExtGround.error 0 > 0 ∧
    limitf (exampleStateSat.ierror 0) (integrallimit 0) = 0.5 ∧
    (pid exampleConfig exampleExtGround exampleStateSat 0).2.ierror 0 = 0.49 ∧
    (pid exampleConfig exampleExtGround exampleStateSat 0).2.ierror 0
      ≠ limitf (exampleStateSat.ierror 0) (integrallimit 0) := by
  have h : (pid exampleConfig exampleExtGround exampleStateSat 0).2.ierror 0 = 0.49 := by
    simp [pid, pid_limit, pid_d, pid_pi, pid_pterm, pid_integral, pid_decay, pid_analog,
      pid_transient, pid_iwindup, pid_integrate, exampleConfig, exampleExt, exampleExtGround,
      exampleStateP, exampleStateSat, initState, limitf, outlimit, integrallimit]
    norm_num
  have h5 : limitf (exampleStateSat.ierror 0) (integrallimit 0) = 0.5 := by
    simp [exampleStateSat, limitf, integrallimit]
    norm_num
  refine ⟨rfl, by norm_num [exampleStateSat, outlimit],
    by norm_num [exampleExtGround, exampleExt], h5, h, ?_⟩
  rw [h, h5]
  norm_num

/-! ### The rotation correction `rotateErrors` -/

theorem rotateErrors_ierror (e : Ext K) (s : State K) :
    (rotateErrors e s).ierror 0
        = (s.ierror 0 + ((s.ierror 2 + (s.ierror 1 - s.ierror 2 * e.gyro 0 * e.looptime)
              * e.gyro 0 * e.looptime) - s.ierror 0 * e.gyro 1 * e.looptime)
            * e.gyro 1 * e.looptime)
          - (s.ierror 1 - s.ierror 2 * e.gyro 0 * e.looptime) * e.gyro 2 * e.looptime ∧
    (rotateErrors e s).ierror 1
        = (s.ierror 1 - s.ierror 2 * e.gyro 0 * e.looptime)
          + (rotateErrors e s).ierror 0 * e.gyro 2 * e.looptime ∧
    (rotateErrors e s).ierror 2
        = (s.ierror 2 + (s.ierror 1 - s.ierror 2 * e.gyro 0 * e.looptime)
              * e.gyro 0 * e.looptime) - s.ierror 0 * e.gyro 1 * e.looptime := by
  simp [rotateErrors, Function.update]

/-- Amended C3: `rotateErrors()` does not clamp.  It keeps the bound
`|ierror[a]| ≤ integrallimit[a]` when `looptime` or the gyro vector is zero, and for
every gyro vector and looptime the bound holds again for axis `a` after the next
`pid(a)`. -/
theorem rotateErrors_bound_restored (e : Ext K) (s : State K)
    (hb : ∀ a, |s.ierror a| ≤ integrallimit a) :
    ((e.looptime = 0 ∨ e.gyro = 0) → ∀ a, |(rotateErrors e s).ierror a| ≤ integrallimit a) ∧
    (∀ (cfg : Config K) (e2 : Ext K) (a : Fin 3),
      |(pid cfg e2 (rotateErrors e s) a).2.ierror a| ≤ integrallimit a) := by
  constructor
  · intro h0 a
    obtain ⟨r0, r1, r2⟩ := rotateErrors_ierror e s
    have h : (rotateErrors e s).ierror a = s.ierror a := by
      rcases h0 with h | h
      · fin_cases a
        · simpa [h] using r0
        · rw [show ((⟨1, by decide⟩ : Fin 3)) = 1 from rfl, r1, r0]
          simp [h]
        · simpa [h] using r2
      · fin_cases a
        · simpa [h] using r0
        · rw [show ((⟨1, by decide⟩ : Fin 3)) = 1 from rfl, r1, r0]
          simp [h]
        · simpa [h] using r2
    rw [h]
    exact hb a
  · intro cfg e2 a
    obtain ⟨v, hv⟩ := pid_integral_ierror_clamped cfg e2 (rotateErrors e s) a
    rw [pid_ierror, hv]
    exact limitf_abs_le _ _ (integrallimit_nonneg a)

/-- Witness for amended C3: the integral `(0.6, 0.6, -0.3)` is within the limits,
`rotateErrors()` pushes the pitch integral above its limit, and `pid(1)` brings it back. -/
theorem rotateErrors_bound_restored_witness :
    |(pid exampleConfig exampleExt (rotateErrors exampleExtRot exampleStateRot) 1).2.ierror 1|
      ≤ integrallimit 1 :=
  (rotateErrors_bound_restored exampleExtRot exampleStateRot
    (fun a => by
      fin_cases a <;> simp [exampleStateRot, integrallimit] <;> norm_num [abs_le])).2
    exampleConfig exampleExt 1

/-- Counterexample to C3 as stated: with `ierror = (0.6, 0.6, -0.3)` the bound holds on
the three axes; after `rotateErrors()` with `gyro[0] * looptime = 0.001` the pitch
integral is 0.6003, above `integrallimit[1] = 0.6`. -/
theorem rotateErrors_counterexample :
    |exampleStateRot.ierror 0| ≤ integrallimit 0 ∧ |exampleStateRot.ierror 1| ≤ integrallimit 1 ∧
    |exampleStateRot.ierror 2| ≤ integrallimit 2 ∧
    (rotateErrors exampleExtRot exampleStateRot).ierror 1 = 0.6003 ∧
    integrallimit 1 < |(rotateErrors exampleExtRot exampleStateRot).ierror 1| := by
  have h : (rotateErrors exampleExtRot exampleStateRot).ierror 1 = 0.6003 := by
    rw [(rotateErrors_ierror _ _).2.1, (rotateErrors_ierror _ _).1]
    simp [exampleExtRot, exampleExt, exampleStateRot, initState]
    norm_num
  refine ⟨?_, ?_, ?_, h, ?_⟩
  · simp [exampleStateRot, integrallimit]
    norm_num [abs_le]
  · simp [exampleStateRot, integrallimit]
    norm_num [abs_le]
  · simp [exampleStateRot, integrallimit]
    norm_num [abs_le]
  · rw [h]
    simp [integrallimit]
    norm_num [lt_abs]

/-! ### The precomputation `pid_precalc` -/

theorem pid_precalc_v_compensation (cfg : Config K) (e : Ext K) (s : State K)
    (hvc : cfg.PID_VOLTAGE_COMPENSATION = true) (hatt : attenuation_active cfg e = false) :
    (pid_precalc cfg e s).v_compensation
      = max 1 (min (mapf e.vbattfilt 3 4 PID_VC_FACTOR 1) PID_VC_FACTOR) := by
  have h1 : (1 : K) ≤ PID_VC_FACTOR := by unfold PID_VC_FACTOR; norm_num
  unfold pid_precalc
  rw [hvc]
  simp only [if_true]
  have hm : (mapf e.vbattfilt 3.00 4.00 PID_VC_FACTOR 1.00 : K)
      = mapf e.vbattfilt 3 4 PID_VC_FACTOR 1 := by norm_num
  rw [hm]
  generalize mapf e.vbattfilt 3 4 PID_VC_FACTOR 1 = m
  have hone : (1.00 : K) = 1 := by norm_num
  rw [hone]
  unfold attenuation_active at hatt
  have key : ∀ t : State K, (match cfg.LEVELMODE_PID_ATTENUATION with
      | none => t
      | some a => if e.aux cfg.LEVELMODE ≠ 0 then { t with v_compensation := t.v_compensation * a }
        else t) = t := by
    intro t
    cases hc : cfg.LEVELMODE_PID_ATTENUATION with
    | none => rfl
    | some a =>
      rw [hc] at hatt
      simp only [Option.isSome_some, Bool.true_and, decide_eq_false_iff_not] at hatt
      simp only [if_neg hatt]
  rw [key]
  by_cases hgt : m > PID_VC_FACTOR
  · have h2 : ¬ (PID_VC_FACTOR : K) < 1 := not_lt.mpr h1
    simp only [hgt, if_true, h2, if_false]
    rw [min_eq_right (le_of_lt hgt), max_eq_right h1]
  · by_cases hlt : m < 1
    · simp only [hgt, if_false, hlt, if_true]
      rw [min_eq_left (not_lt.mp hgt), max_eq_left (le_of_lt hlt)]
    · simp only [hgt, if_false, hlt]
      rw [min_eq_left (not_lt.mp hgt), max_eq_right (not_lt.mp hlt)]

/-- C5: with voltage compensation compiled in and the level-mode attenuation inactive,
`pid_precalc` sets `v_compensation` to `PID_VC_FACTOR` for `vbattfilt ≤ 3.0`, to 1.0 for
`vbattfilt ≥ 4.0`, and to the linear interpolation `mapf(vbattfilt, 3, 4, PID_VC_FACTOR, 1)`
in between; the result always lies in `[1.0, PID_VC_FACTOR]`. -/
theorem pid_precalc_voltage (cfg : Config K) (e : Ext K) (s : State K)
    (hvc : cfg.PID_VOLTAGE_COMPENSATION = true) (hatt : attenuation_active cfg e = false) :
    (e.vbattfilt ≤ 3 → (pid_precalc cfg e s).v_compensation = PID_VC_FACTOR) ∧
    (4 ≤ e.vbattfilt → (pid_precalc cfg e s).v_compensation = 1) ∧
    (3 < e.vbattfilt → e.vbattfilt < 4 →
      (pid_precalc cfg e s).v_compensation = mapf e.vbattfilt 3 4 PID_VC_FACTOR 1 ∧
      (pid_precalc cfg e s).v_compensation
        = PID_VC_FACTOR + (e.vbattfilt - 3) * (1 - PID_VC_FACTOR)) ∧
    1 ≤ (pid_precalc cfg e s).v_compensation ∧
    (pid_precalc cfg e s).v_compensation ≤ PID_VC_FACTOR := by
  have h1 : (1 : K) ≤ PID_VC_FACTOR := by unfold PID_VC_FACTOR; norm_num
  have hm : mapf e.vbattfilt 3 4 PID_VC_FACTOR 1
      = PID_VC_FACTOR + (e.vbattfilt - 3) * (1 - PID_VC_FACTOR) := by
    unfold mapf
    norm_num
    ring
  rw [pid_precalc_v_compensation cfg e s hvc hatt, hm]
  have hF : (PID_VC_FACTOR : K) = 1.33 := rfl
  refine ⟨fun h => ?_, fun h => ?_, fun h3 h4 => ?_, le_max_left _ _,
    max_le h1 (min_le_right _ _)⟩
  · have : PID_VC_FACTOR ≤ PID_VC_FACTOR + (e.vbattfilt - 3) * (1 - PID_VC_FACTOR) := by
      rw [hF]
      nlinarith
    rw [min_eq_right this, max_eq_right h1]
  · have : PID_VC_FACTOR + (e.vbattfilt - 3) * (1 - PID_VC_FACTOR) ≤ 1 := by
      rw [hF]
      nlinarith
    rw [min_eq_left (le_trans this h1), max_eq_left this]
  · have ha : PID_VC_FACTOR + (e.vbattfilt - 3) * (1 - PID_VC_FACTOR) ≤ PID_VC_FACTOR := by
      rw [hF]
      nlinarith
    have hb : 1 ≤ PID_VC_FACTOR + (e.vbattfilt - 3) * (1 - PID_VC_FACTOR) := by
      rw [hF]
      nlinarith
    rw [min_eq_left ha, max_eq_right hb]
    exact ⟨rfl, rfl⟩

/-- Witness for C5: at 3.5 V the compensation is halfway between 1.33 and 1.0. -/
theorem pid_precalc_voltage_witness :
    (3 : ℚ) < exampleExtHalf.vbattfilt ∧ exampleExtHalf.vbattfilt < 4 ∧
    (pid_precalc exampleConfigVC exampleExtHalf (initState exampleConfigVC)).v_compensation
      = 1.165 := by
  have h3 : (3 : ℚ) < exampleExtHalf.vbattfilt := by norm_num [exampleExtHalf]
  have h4 : exampleExtHalf.vbattfilt < 4 := by norm_num [exampleExtHalf]
  refine ⟨h3, h4, ?_⟩
  rw [((pid_precalc_voltage exampleConfigVC exampleExtHalf (initState exampleConfigVC) rfl
    rfl).2.2.1 h3 h4).2]
  norm_num [exampleExtHalf, PID_VC_FACTOR]

theorem pid_precalc_timefactor_eq (cfg : Config K) (e : Ext K) (s : State K) :
    (pid_precalc cfg e s).timefactor = 0.0032 / e.looptime := by
  unfold pid_precalc
  dsimp only
  cases cfg.LEVELMODE_PID_ATTENUATION <;> dsimp only <;> split_ifs <;> rfl

/-- Amended C6: `pid_precalc` has no guard on `looptime`.  For every nonzero `looptime`,
negative values included, the value it stores in `timefactor` is the quotient
`0.0032 / looptime`. -/
theorem pid_precalc_timefactor (cfg : Config K) (e : Ext K) (s : State K)
    (h : e.looptime ≠ 0) :
    (pid_precalc cfg e s).timefactor = 0.0032 / e.looptime ∧
    (pid_precalc cfg e s).timefactor * e.looptime = 0.0032 := by
  rw [pid_precalc_timefactor_eq]
  exact ⟨rfl, div_mul_cancel₀ _ h⟩

/-- Witness for amended C6: a loop time of -0.001 gives the time factor -3.2. -/
theorem pid_precalc_timefactor_witness :
    exampleExtNeg.looptime ≠ 0 ∧
    (pid_precalc exampleConfig exampleExtNeg (initState exampleConfig)).timefactor
      * exampleExtNeg.looptime = 0.0032 :=
  ⟨by norm_num [exampleExtNeg],
    (pid_precalc_timefactor exampleConfig exampleExtNeg (initState exampleConfig)
      (by norm_num [exampleExtNeg])).2⟩

/-- Counterexample to C6 as stated: with `looptime = -0.001 ≤ 0` and `timefactor = 0`
before the call, `pid_precalc` stores `0.0032 / looptime = -3.2` into `timefactor`. -/
theorem pid_precalc_counterexample :
    exampleExtNeg.looptime ≤ 0 ∧
    (initState exampleConfig).timefactor = 0 ∧
    (pid_precalc exampleConfig exampleExtNeg (initState exampleConfig)).timefactor
      = 0.0032 / exampleExtNeg.looptime ∧
    (pid_precalc exampleConfig exampleExtNeg (initState exampleConfig)).timefactor = -3.2 := by
  refine ⟨by norm_num [exampleExtNeg], rfl, pid_precalc_timefactor_eq _ _ _, ?_⟩
  rw [pid_precalc_timefactor_eq]
  norm_num [exampleExtNeg]

/-! ### The D term is skipped without a positive D gain -/

theorem analog_block_withDerivHistory (e : Ext K) (ch : Option Nat)
    (f : Nat → State K → State K) (d : State K)
    (hf : ∀ c s, f c (withDerivHistory s d) = withDerivHistory (f c s) d) (s : State K) :
    analog_block e ch f (withDerivHistory s d) = withDerivHistory (analog_block e ch f s) d := by
  unfold analog_block
  cases ch with
  | none => rfl
  | some c =>
    dsimp only
    split_ifs
    · rw [hf]
      rfl
    · rfl

theorem apply_analog_withDerivHistory (cfg : Config K) (e : Ext K) (s d : State K) :
    apply_analog_aux_to_pids cfg e (withDerivHistory s d)
      = withDerivHistory (apply_analog_aux_to_pids cfg e s) d := by
  unfold apply_analog_aux_to_pids
  dsimp only
  repeat rw [analog_block_withDerivHistory e _ _ d (fun _ _ => rfl)]

theorem pid_integral_withDerivHistory (cfg : Config K) (e : Ext K) (s d : State K) (x : Fin 3) :
    pid_integral cfg e (withDerivHistory s d) x = withDerivHistory (pid_integral cfg e s x) d := by
  have h1 : pid_decay cfg e (withDerivHistory s d) x = withDerivHistory (pid_decay cfg e s x) d := by
    rw [pid_decay_eq, pid_decay_eq]
    rfl
  have h2 : ∀ t : State K, pid_analog cfg e (withDerivHistory t d)
      = withDerivHistory (pid_analog cfg e t) d := by
    intro t
    unfold pid_analog
    split_ifs
    · exact apply_analog_withDerivHistory cfg e t d
    · rfl
  have h3 : ∀ t : State K, pid_transient cfg e (withDerivHistory t d) x
      = withDerivHistory (pid_transient cfg e t x) d := by
    intro t
    unfold pid_transient withDerivHistory
    dsimp only
    split_ifs <;> rfl
  have h4 : ∀ t : State K, pid_integrate cfg e (withDerivHistory t d) x
      = withDerivHistory (pid_integrate cfg e t x) d := by
    intro t
    unfold pid_integrate
    dsimp only
    split_ifs <;> rfl
  have h5 : ∀ t : State K, pid_iwindup cfg e (withDerivHistory t d) x = pid_iwindup cfg e t x :=
    fun t => rfl
  have hpre : pid_pre cfg e (withDerivHistory s d) x = withDerivHistory (pid_pre cfg e s x) d := by
    unfold pid_pre
    rw [h1, h2, h3]
  rw [pid_integral_eq, pid_integral_eq, hpre, h5, h4]
  split_ifs <;> rfl

theorem pid_d_of_nonpos (cfg : Config K) (e : Ext K) (s : State K) (x : Fin 3)
    (h : s.pidkd x ≤ 0) : pid_d cfg e s x = s := by
  unfold pid_d
  rw [if_neg (not_lt.mpr h)]

theorem integralOnly_deriv_history {s t : State K} (h : IntegralOnly s t) :
    withDerivHistory t s = t := by
  obtain ⟨_, _, _, _, _, _, _, _, _, _, rfl⟩ := h
  rfl

theorem pid_output_of_kd_nonpos (cfg : Config K) (e : Ext K) (s : State K) (x : Fin 3)
    (hkd : (pid_integral cfg e s x).pidkd x ≤ 0) :
    (pid cfg e s x).1
      = (if cfg.PID_VOLTAGE_COMPENSATION then
          limitf (pid_pterm cfg e (pid_integral cfg e s x) x + (pid_integral cfg e s x).ierror x)
            (outlimit x) * s.v_compensation
        else
          limitf (pid_pterm cfg e (pid_integral cfg e s x) x + (pid_integral cfg e s x).ierror x)
            (outlimit x)) := by
  have hd : pid_d cfg e (pid_pi cfg e (pid_integral cfg e s x) x) x
      = pid_pi cfg e (pid_integral cfg e s x) x := pid_d_of_nonpos cfg e _ x hkd
  rw [pid_eq]
  dsimp only
  rw [pid_limit_pidoutput, hd]
  simp [pid_pi, integralOnly_v_compensation (pid_integral_integralOnly cfg e s x)]

/-- C7: when the D gain `pidkd[x]` read at line 365 is not positive, then in every build
`pid(x)` returns the clamp to `±outlimit[x]` of the P term plus the integral `ierror[x]`
(times `v_compensation` when voltage compensation is compiled in); the returned value does
not depend on the derivative history (`lastrate`, `lastratexx`, `lastsetpoint`, `dlpf`,
`last_out`, `last_out2`), and the call leaves that history unchanged. -/
theorem pid_without_dterm (cfg : Config K) (e : Ext K) (s : State K) (x : Fin 3)
    (hkd : (pid_integral cfg e s x).pidkd x ≤ 0) :
    (pid cfg e s x).1
        = (if cfg.PID_VOLTAGE_COMPENSATION then
            limitf (pid_pterm cfg e (pid_integral cfg e s x) x + (pid cfg e s x).2.ierror x)
              (outlimit x) * s.v_compensation
          else
            limitf (pid_pterm cfg e (pid_integral cfg e s x) x + (pid cfg e s x).2.ierror x)
              (outlimit x)) ∧
    (∀ d : State K, (pid cfg e (withDerivHistory s d) x).1 = (pid cfg e s x).1) ∧
    withDerivHistory (pid cfg e s x).2 s = (pid cfg e s x).2 := by
  have hpi : (pid_pi cfg e (pid_integral cfg e s x) x).pidkd x ≤ 0 := hkd
  have hd : pid_d cfg e (pid_pi cfg e (pid_integral cfg e s x) x) x
      = pid_pi cfg e (pid_integral cfg e s x) x := pid_d_of_nonpos cfg e _ x hpi
  have hio := integralOnly_deriv_history (pid_integral_integralOnly cfg e s x)
  refine ⟨?_, ?_, ?_⟩
  · rw [pid_ierror, pid_eq]
    dsimp only
    rw [pid_limit_pidoutput, hd]
    simp [pid_pi, integralOnly_v_compensation (pid_integral_integralOnly cfg e s x)]
  · intro d
    have hkd2 : (pid_pi cfg e (pid_integral cfg e (withDerivHistory s d) x) x).pidkd x ≤ 0 := by
      rw [pid_integral_withDerivHistory]
      exact hkd
    rw [pid_eq, pid_eq]
    dsimp only
    rw [pid_limit_pidoutput, pid_limit_pidoutput, hd, pid_d_of_nonpos cfg e _ x hkd2,
      pid_integral_withDerivHistory]
    rfl
  · rw [pid_eq]
    dsimp only
    rw [hd]
    conv_rhs => rw [← hio]
    unfold pid_limit pid_pi
    dsimp only
    split_ifs <;> rfl

/-- Witness for C7: roll without a D gain in a build with the measurement D term, the
second-order filter and voltage compensation. -/
theorem pid_without_dterm_witness :
    (pid_integral exampleConfigD exampleExt exampleStatePI 0).pidkd 0 ≤ 0 ∧
    withDerivHistory (pid exampleConfigD exampleExt exampleStatePI 0).2 exampleStatePI
      = (pid exampleConfigD exampleExt exampleStatePI 0).2 :=
  have h : (pid_integral exampleConfigD exampleExt exampleStatePI 0).pidkd 0 ≤ 0 := by
    simp [pid_integral, pid_decay, pid_analog, pid_transient, pid_iwindup, pid_integrate,
      exampleConfigD, exampleConfigVC, exampleConfig, exampleExt, exampleStatePI, initState,
      outlimit]
    norm_num
  ⟨h, (pid_without_dterm exampleConfigD exampleExt exampleStatePI 0 h).2.2⟩

/-! ### Ticks without analog tuning -/

theorem analog_block_of_unchanged (e : Ext K) (ch : Option Nat) (f : Nat → State K → State K)
    (s : State K) (h : channel_changed e ch = false) : analog_block e ch f s = s := by
  unfold analog_block
  cases ch with
  | none => rfl
  | some c =>
    simp only [channel_changed, decide_eq_false_iff_not] at h
    simp only [if_neg h]

theorem pid_analog_of_unchanged (cfg : Config K) (e : Ext K) (s : State K)
    (h : analog_changed cfg e = false) : pid_analog cfg e s = s := by
  unfold pid_analog
  cases hA : cfg.ANALOG_AUX_PIDS with
  | false => simp
  | true =>
    unfold analog_changed at h
    rw [hA] at h
    simp only [Bool.true_and, Bool.or_eq_false_iff] at h
    obtain ⟨⟨⟨⟨⟨⟨⟨⟨⟨⟨⟨⟨h1, h2⟩, h3⟩, h4⟩, h5⟩, h6⟩, h7⟩, h8⟩, h9⟩, h10⟩, h11⟩, h12⟩, h13⟩ := h
    simp only [if_true]
    unfold apply_analog_aux_to_pids
    dsimp only
    rw [analog_block_of_unchanged e _ _ _ h1, analog_block_of_unchanged e _ _ _ h2,
      analog_block_of_unchanged e _ _ _ h3, analog_block_of_unchanged e _ _ _ h4,
      analog_block_of_unchanged e _ _ _ h5, analog_block_of_unchanged e _ _ _ h6,
      analog_block_of_unchanged e _ _ _ h7, analog_block_of_unchanged e _ _ _ h8,
      analog_block_of_unchanged e _ _ _ h9, analog_block_of_unchanged e _ _ _ h10,
      analog_block_of_unchanged e _ _ _ h11, analog_block_of_unchanged e _ _ _ h12,
      analog_block_of_unchanged e _ _ _ h13]

theorem integratorOnly_trans {s t u : State K} (h1 : IntegratorOnly s t)
    (h2 : IntegratorOnly t u) : IntegratorOnly s u := by
  obtain ⟨_, _, _, _, _, _, rfl⟩ := h1
  obtain ⟨_, _, _, _, _, _, rfl⟩ := h2
  exact ⟨_, _, _, _, _, _, rfl⟩

theorem pid_pre_integratorOnly (cfg : Config K) (e : Ext K) (s : State K) (x : Fin 3)
    (h : analog_changed cfg e = false) : IntegratorOnly s (pid_pre cfg e s x) := by
  unfold pid_pre
  rw [pid_analog_of_unchanged cfg e _ h, pid_decay_eq]
  unfold pid_transient
  dsimp only
  split_ifs <;> exact ⟨_, _, _, _, _, _, rfl⟩

theorem pid_integrate_integratorOnly (cfg : Config K) (e : Ext K) (s : State K) (x : Fin 3) :
    IntegratorOnly s (pid_integrate cfg e s x) := by
  unfold pid_integrate
  dsimp only
  split_ifs <;> exact ⟨_, _, _, _, _, _, rfl⟩

theorem pid_integral_integratorOnly (cfg : Config K) (e : Ext K) (s : State K) (x : Fin 3)
    (h : analog_changed cfg e = false) : IntegratorOnly s (pid_integral cfg e s x) := by
  have hp := pid_pre_integratorOnly cfg e s x h
  rw [pid_integral_eq]
  split_ifs
  · exact integratorOnly_trans hp ⟨_, _, _, _, _, _, rfl⟩
  · exact integratorOnly_trans (integratorOnly_trans hp (pid_integrate_integratorOnly cfg e _ x))
      ⟨_, _, _, _, _, _, rfl⟩

theorem integratorOnly_gains {s t : State K} (h : IntegratorOnly s t) :
    t.pidkp = s.pidkp ∧ t.pidki = s.pidki ∧ t.pidkd = s.pidkd ∧ t.b = s.b ∧
    t.pidoutput = s.pidoutput ∧ t.v_compensation = s.v_compensation := by
  obtain ⟨_, _, _, _, _, _, rfl⟩ := h
  exact ⟨rfl, rfl, rfl, rfl, rfl, rfl⟩

theorem derivOnly_gains {s t : State K} (h : DerivOnly s t) :
    t.pidkp = s.pidkp ∧ t.pidki = s.pidki ∧ t.pidkd = s.pidkd ∧ t.b = s.b ∧
    t.lasterror = s.lasterror ∧ t.v_compensation = s.v_compensation := by
  obtain ⟨_, _, _, _, _, _, _, _, rfl⟩ := h
  exact ⟨rfl, rfl, rfl, rfl, rfl, rfl⟩

theorem pid_derivOnly (cfg : Config K) (e : Ext K) (s : State K) (x : Fin 3) :
    DerivOnly (pid_integral cfg e s x) (pid cfg e s x).2 := by
  rw [pid_eq]
  exact derivOnly_trans (derivOnly_trans (pid_pi_derivOnly cfg e _ x) (pid_d_derivOnly cfg e _ x))
    (pid_limit_derivOnly cfg _ x)

theorem pid_gains (cfg : Config K) (e : Ext K) (s : State K) (x : Fin 3)
    (h : analog_changed cfg e = false) :
    (pid cfg e s x).2.pidkp = s.pidkp ∧ (pid cfg e s x).2.pidki = s.pidki ∧
    (pid cfg e s x).2.pidkd = s.pidkd ∧ (pid cfg e s x).2.b = s.b ∧
    (pid cfg e s x).2.v_compensation = s.v_compensation := by
  obtain ⟨a1, a2, a3, a4, -, a6⟩ := derivOnly_gains (pid_derivOnly cfg e s x)
  obtain ⟨b1, b2, b3, b4, -, b6⟩ := integratorOnly_gains (pid_integral_integratorOnly cfg e s x h)
  exact ⟨a1.trans b1, a2.trans b2, a3.trans b3, a4.trans b4, a6.trans b6⟩

theorem pid_integrate_ierror_of_ki_zero (cfg : Config K) (e : Ext K) (s : State K) (x : Fin 3)
    (hki : s.pidki x = 0) : (pid_integrate cfg e s x).ierror x = s.ierror x := by
  unfold pid_integrate
  dsimp only
  split_ifs <;> simp [hki]

/-! ### The P-only scenario -/

theorem pid_p_only_step (cfg : Config K) (e : Ext K) (s : State K) (x : Fin 3)
    (hvc : cfg.PID_VOLTAGE_COMPENSATION = false) (ha : analog_changed cfg e = false)
    (hki : s.pidki x = 0) (hkd : s.pidkd x = 0) (hb : s.b x = 1) (hi : s.ierror x = 0) :
    (pid cfg e s x).1 = limitf (s.pidkp x * e.error x) (outlimit x) ∧
    (pid cfg e s x).2.ierror x = 0 := by
  obtain ⟨g1, g2, g3, g4, -, -⟩ := integratorOnly_gains (pid_integral_integratorOnly cfg e s x ha)
  obtain ⟨p1, p2, p3, p4, -, -⟩ := integratorOnly_gains (pid_pre_integratorOnly cfg e s x ha)
  have hpre : (pid_pre cfg e s x).ierror x = 0 := by
    rw [pid_pre_ierror]
    simp [hi]
  have hz : (pid_integral cfg e s x).ierror x = 0 := by
    rw [pid_integral_eq]
    have hl : limitf (0 : K) (integrallimit x) = 0 :=
      limitf_of_abs_le _ _ (by simpa using integrallimit_nonneg x)
    split_ifs
    · simp [hpre, hl]
    · simp [pid_integrate_ierror_of_ki_zero cfg e _ x (by rw [p2]; exact hki), hpre, hl]
  have hI : (pid cfg e s x).2.ierror x = 0 := by
    rw [pid_ierror]
    exact hz
  refine ⟨?_, hI⟩
  have hk : (pid_integral cfg e s x).pidkd x ≤ 0 := by
    rw [g3, hkd]
  have hP : pid_pterm cfg e (pid_integral cfg e s x) x = s.pidkp x * e.error x := by
    unfold pid_pterm
    rw [g1, g4, hb]
    split_ifs
    · norm_num
      ring
    · ring
  rw [pid_output_of_kd_nonpos cfg e s x hk, hvc, hz, hP]
  simp

theorem pid_run_p_only (cfg : Config K) (x : Fin 3) (es : List (Ext K)) (s : State K)
    (hvc : cfg.PID_VOLTAGE_COMPENSATION = false)
    (hes : ∀ e ∈ es, analog_changed cfg e = false)
    (hki : s.pidki x = 0) (hkd : s.pidkd x = 0) (hb : s.b x = 1) (hi : s.ierror x = 0) :
    (pid_run cfg x es s).pidkp x = s.pidkp x ∧ (pid_run cfg x es s).pidki x = 0 ∧
    (pid_run cfg x es s).pidkd x = 0 ∧ (pid_run cfg x es s).b x = 1 ∧
    (pid_run cfg x es s).ierror x = 0 := by
  induction es generalizing s with
  | nil => exact ⟨rfl, hki, hkd, hb, hi⟩
  | cons e es ih =>
    have ha := hes e (List.mem_cons_self e es)
    obtain ⟨g1, g2, g3, g4, -⟩ := pid_gains cfg e s x ha
    have hstep := (pid_p_only_step cfg e s x hvc ha hki hkd hb hi).2
    have := ih (pid cfg e s x).2 (fun e' he' => hes e' (List.mem_cons_of_mem e he'))
      (by rw [g2]; exact hki) (by rw [g3]; exact hkd) (by rw [g4]; exact hb) hstep
    rw [g1] at this
    exact this

/-- C8: from a state with `ki = 0`, `kd = 0`, `b = 1` and a zero integral on axis `x`
(the zero-initialised state with any `kp`), without voltage compensation and with the
error constant at `err`, every call `pid(x)`, after any number of earlier calls, returns
the clamp of `kp * err` to `±outlimit[x]` and leaves `ierror[x] = 0`, whether or not the
windup flag is set.  The gains stay as given: on no tick does the analog-aux tuning of
line 289 rewrite one (`analog_changed` is false, as in every build without
`ANALOG_AUX_PIDS`). -/
theorem pid_p_only_scenario (cfg : Config K) (x : Fin 3) (s0 : State K) (err : K)
    (es : List (Ext K)) (e : Ext K)
    (hvc : cfg.PID_VOLTAGE_COMPENSATION = false)
    (hki : s0.pidki x = 0) (hkd : s0.pidkd x = 0) (hb : s0.b x = 1) (hi : s0.ierror x = 0)
    (hes : ∀ e2 ∈ es, analog_changed cfg e2 = false)
    (he : e.error x = err ∧ analog_changed cfg e = false) :
    (pid cfg e (pid_run cfg x es s0) x).1 = limitf (s0.pidkp x * err) (outlimit x) ∧
    (pid cfg e (pid_run cfg x es s0) x).2.ierror x = 0 := by
  obtain ⟨r1, r2, r3, r4, r5⟩ := pid_run_p_only cfg x es s0 hvc hes hki hkd hb hi
  have h := pid_p_only_step cfg e (pid_run cfg x es s0) x hvc he.2 r2 r3 r4 r5
  rw [r1, he.1] at h
  exact h

/-- Witness for C8: roll, `kp = 1.0`, `outlimit = 0.6`, error 1.0: the output is 0.6 on
tick 1 and again on tick 2, where the windup flag is set, and the integral stays 0. -/
theorem pid_p_only_scenario_witness :
    (pid exampleConfig exampleExt exampleStateP 0).1 = 0.6 ∧
    (pid exampleConfig exampleExt (pid_run exampleConfig 0 [exampleExt] exampleStateP) 0).1 = 0.6 ∧
    (pid exampleConfig exampleExt (pid_run exampleConfig 0 [exampleExt] exampleStateP) 0).2.ierror 0
      = 0 := by
  have hk : exampleStateP.pidkp 0 = 1 := rfl
  have hl : limitf (1 * 1 : ℚ) (outlimit 0) = 0.6 := by
    simp [limitf, outlimit]
    norm_num
  have h1 := pid_p_only_scenario exampleConfig 0 exampleStateP 1 [] exampleExt rfl rfl rfl
    (by norm_num [exampleStateP, initState]) rfl (fun _ h => absurd h (List.not_mem_nil _))
    ⟨rfl, rfl⟩
  have h2 := pid_p_only_scenario exampleConfig 0 exampleStateP 1 [exampleExt] exampleExt rfl rfl
    rfl (by norm_num [exampleStateP, initState]) rfl
    (fun e2 h => by rw [List.mem_singleton.mp h]; rfl) ⟨rfl, rfl⟩
  rw [hk, hl] at h1 h2
  exact ⟨h1.1, h2.1, h2.2⟩

/-! ### The I-only scenario with the midpoint rule -/

theorem integrallimit_eq_outlimit (x : Fin 3) : (integrallimit x : K) = outlimit x := rfl

theorem outlimit_pos (x : Fin 3) : (0 : K) < outlimit x := by
  fin_cases x <;> simp [outlimit] <;> norm_num

theorem pid_pre_eq_self (cfg : Config K) (e : Ext K) (s : State K) (x : Fin 3)
    (hT : cfg.TRANSIENT_WINDUP_PROTECTION = false) (hdec : decay_cond cfg e = false)
    (ha : analog_changed cfg e = false) : pid_pre cfg e s x = s := by
  unfold pid_pre
  rw [pid_analog_of_unchanged cfg e _ ha, pid_decay_eq]
  unfold pid_transient decay_factor
  rw [hT, hdec]
  simp

theorem pid_integrate_midpoint (cfg : Config K) (e : Ext K) (s : State K) (x : Fin 3)
    (hM : cfg.MIDPOINT_RULE_INTEGRAL = true) (hR : cfg.RECTANGULAR_RULE_INTEGRAL = false)
    (hS : cfg.SIMPSON_RULE_INTEGRAL = false) :
    (pid_integrate cfg e s x).ierror x
        = s.ierror x + (e.error x + s.lasterror x) * 0.5 * s.pidki x * e.looptime ∧
    (pid_integrate cfg e s x).lasterror x = e.error x := by
  unfold pid_integrate
  rw [hM, hR, hS]
  simp

theorem midpoint_step (cfg : Config K) (e : Ext K) (s : State K) (x : Fin 3) (err ki dt : K)
    (m : ℕ)
    (hM : cfg.MIDPOINT_RULE_INTEGRAL = true) (hR : cfg.RECTANGULAR_RULE_INTEGRAL = false)
    (hS : cfg.SIMPSON_RULE_INTEGRAL = false) (hT : cfg.TRANSIENT_WINDUP_PROTECTION = false)
    (herr : e.error x = err) (hdt : e.looptime = dt) (hdec : decay_cond cfg e = false)
    (ha : analog_changed cfg e = false) (hinv : MidpointInv x err ki dt s m)
    (hbound : |err * ki * dt| * ((m + 1 : ℕ) : K) ≤ integrallimit x) :
    pid_iwindup cfg e (pid_pre cfg e s x) x = false ∧
    MidpointInv x err ki dt (pid cfg e s x).2 (m + 1) := by
  obtain ⟨ikp, ikd, iki, ivc, iout, iie, iabs, il0, il1⟩ := hinv
  have hpre := pid_pre_eq_self cfg e s x hT hdec ha
  have hL := outlimit_pos (K := K) x
  rw [integrallimit_eq_outlimit] at hbound
  push_cast at hbound
  have hc0 : 0 ≤ |err * ki * dt| := abs_nonneg _
  have hm0 : (0 : K) ≤ m := Nat.cast_nonneg m
  -- the previous output is strictly inside the output limit
  have hlt : |s.pidoutput x| < outlimit x := by
    rw [iout]
    rcases eq_or_lt_of_le hc0 with h | h
    · rw [← h, zero_mul] at iabs
      exact lt_of_le_of_lt iabs hL
    · nlinarith
  have hw : pid_iwindup cfg e (pid_pre cfg e s x) x = false := by
    rw [hpre]
    unfold pid_iwindup
    rw [abs_lt] at hlt
    have h1 : s.pidoutput x ≠ outlimit x := ne_of_lt hlt.2
    have h2 : s.pidoutput x ≠ -outlimit x := ne_of_gt hlt.1
    simp [h1, h2, hT]
  refine ⟨hw, ?_⟩
  obtain ⟨j1, j2⟩ := pid_integrate_midpoint cfg e s x hM hR hS
  -- the new integral before the clamp
  have hnew : s.ierror x + (e.error x + s.lasterror x) * 0.5 * s.pidki x * e.looptime
      = err * ki * dt * ((m : K) + 1 / 2) := by
    rw [herr, hdt, iki, iie]
    norm_num
    ring
  have hnabs : |err * ki * dt * ((m : K) + 1 / 2)| ≤ |err * ki * dt| * ((m : K) + 1) := by
    rw [abs_mul, abs_of_nonneg (by linarith : (0 : K) ≤ (m : K) + 1 / 2)]
    nlinarith
  have hI : (pid_integral cfg e s x).ierror x = err * ki * dt * ((m : K) + 1 / 2) := by
    rw [pid_integral_eq, hw, hpre]
    simp only [Bool.false_eq_true, if_false, Function.update_same]
    rw [j1, hnew, integrallimit_eq_outlimit]
    exact limitf_of_abs_le _ _ (le_trans hnabs hbound)
  have hle : (pid_integral cfg e s x).lasterror x = err := by
    rw [pid_integral_eq, hw, hpre]
    simp only [Bool.false_eq_true, if_false]
    rw [← herr]
    exact j2
  obtain ⟨g1, g2, g3, g4, g5⟩ := pid_gains cfg e s x ha
  obtain ⟨b1, b2, b3, b4, -, -⟩ := integratorOnly_gains (pid_integral_integratorOnly cfg e s x ha)
  have hP : pid_pterm cfg e (pid_integral cfg e s x) x = 0 := by
    unfold pid_pterm
    rw [b1, ikp]
    split_ifs <;> simp
  have hout : (pid cfg e s x).2.pidoutput x = err * ki * dt * ((m : K) + 1 / 2) := by
    have h := pid_output_of_kd_nonpos cfg e s x (by rw [b3, ikd])
    rw [hP, hI, ivc, zero_add, mul_one, limitf_of_abs_le _ _ (le_trans hnabs hbound)] at h
    simpa using h
  have hie : (pid cfg e s x).2.ierror x = err * ki * dt * ((m : K) + 1 / 2) := by
    rw [pid_ierror]
    exact hI
  have hlast : (pid cfg e s x).2.lasterror x = err := by
    rw [(derivOnly_gains (pid_derivOnly cfg e s x)).2.2.2.2.1]
    exact hle
  refine ⟨by rw [g1]; exact ikp, by rw [g3]; exact ikd, by rw [g2]; exact iki,
    by rw [g5]; exact ivc, by rw [hout, hie], ?_, ?_, fun h => absurd h (Nat.succ_ne_zero m),
    fun _ => hlast⟩
  · rw [hie, hlast]
    push_cast
    ring
  · rw [hie]
    push_cast
    exact hnabs

theorem midpoint_run (cfg : Config K) (x : Fin 3) (err ki dt : K) (es : List (Ext K))
    (s : State K) (m : ℕ)
    (hM : cfg.MIDPOINT_RULE_INTEGRAL = true) (hR : cfg.RECTANGULAR_RULE_INTEGRAL = false)
    (hS : cfg.SIMPSON_RULE_INTEGRAL = false) (hT : cfg.TRANSIENT_WINDUP_PROTECTION = false)
    (hes : ∀ e ∈ es, e.error x = err ∧ e.looptime = dt ∧ decay_cond cfg e = false ∧
      analog_changed cfg e = false)
    (hinv : MidpointInv x err ki dt s m)
    (hbound : |err * ki * dt| * ((m + es.length : ℕ) : K) ≤ integrallimit x) :
    MidpointInv x err ki dt (pid_run cfg x es s) (m + es.length) := by
  induction es generalizing s m with
  | nil => exact hinv
  | cons e es ih =>
    obtain ⟨h1, h2, h3, h4⟩ := hes e (List.mem_cons_self e es)
    have hc0 : 0 ≤ |err * ki * dt| := abs_nonneg _
    have hlen : m + (e :: es).length = (m + 1) + es.length := by
      simp only [List.length_cons]
      omega
    rw [hlen] at hbound ⊢
    have hb1 : |err * ki * dt| * ((m + 1 : ℕ) : K) ≤ integrallimit x := by
      refine le_trans (mul_le_mul_of_nonneg_left ?_ hc0) hbound
      exact_mod_cast Nat.le_add_right (m + 1) es.length
    have hstep := (midpoint_step cfg e s x err ki dt m hM hR hS hT h1 h2 h3 h4 hinv hb1).2
    exact ih (pid cfg e s x).2 (m + 1) (fun e' he' => hes e' (List.mem_cons_of_mem e he'))
      hstep hbound

theorem midpointInv_init (x : Fin 3) (err dt : K) (s0 : State K)
    (hkp : s0.pidkp x = 0) (hkd : s0.pidkd x = 0) (hvc : s0.v_compensation = 1)
    (hi : s0.ierror x = 0) (hle : s0.lasterror x = 0) (hout : s0.pidoutput x = 0) :
    MidpointInv x err (s0.pidki x) dt s0 0 := by
  refine ⟨hkp, hkd, rfl, hvc, by rw [hout, hi], ?_, ?_, fun _ => hle, fun h => absurd h (lt_irrefl 0)⟩
  · rw [hi, hle]
    simp
  · rw [hi]
    simp

/-- Amended C9: from a state with zero integral, zero last error and zero previous output
on axis `x`, no P and D gain and unit voltage compensation (the zero-initialised state with
any `ki`), in a build with the midpoint rule alone and without transient windup
protection, over `n ≥ 1` ticks without decay, with constant error `err` and loop time `dt`
and `|err * ki * dt| * n ≤ integrallimit[x]` (so that no windup is flagged and no clamp is
reached), `ierror[x]` ends at `err * ki * dt * (n - 1/2)`: the first tick averages `err`
with the zero last error and adds half an increment.  The gains stay as given
(`analog_changed` is false on every tick). -/
theorem pid_i_only_scenario (cfg : Config K) (x : Fin 3) (s0 : State K) (err dt : K)
    (es : List (Ext K))
    (hM : cfg.MIDPOINT_RULE_INTEGRAL = true) (hR : cfg.RECTANGULAR_RULE_INTEGRAL = false)
    (hS : cfg.SIMPSON_RULE_INTEGRAL = false) (hT : cfg.TRANSIENT_WINDUP_PROTECTION = false)
    (hkp : s0.pidkp x = 0) (hkd : s0.pidkd x = 0) (hvc : s0.v_compensation = 1)
    (hi : s0.ierror x = 0) (hle : s0.lasterror x = 0) (hout : s0.pidoutput x = 0)
    (hes : ∀ e ∈ es, e.error x = err ∧ e.looptime = dt ∧ decay_cond cfg e = false ∧
      analog_changed cfg e = false)
    (hne : es ≠ [])
    (hbound : |err * s0.pidki x * dt| * (es.length : K) ≤ integrallimit x) :
    (pid_run cfg x es s0).ierror x = err * s0.pidki x * dt * ((es.length : K) - 1 / 2) := by
  have h0 := midpointInv_init x err dt s0 hkp hkd hvc hi hle hout
  have hrun := midpoint_run cfg x err (s0.pidki x) dt es s0 0 hM hR hS hT hes h0
    (by rw [Nat.zero_add]; exact hbound)
  rw [Nat.zero_add] at hrun
  obtain ⟨-, -, -, -, -, hie, -, -, hlast⟩ := hrun
  rw [hie, hlast (List.length_pos.mpr hne)]
  ring

/-- Witness for amended C9: yaw, `ki = 1.0`, `dt = 0.001`, error 0.5: after 2 ticks the
integral is `0.5 * 1.0 * 0.001 * 1.5 = 0.00075`. -/
theorem pid_i_only_scenario_witness :
    (pid_run exampleConfig 2 [exampleExt, exampleExt] exampleStateI).ierror 2 = 0.00075 := by
  have h := pid_i_only_scenario exampleConfig 2 exampleStateI 0.5 0.001
    [exampleExt, exampleExt] rfl rfl rfl rfl rfl rfl (by norm_num [exampleStateI, initState])
    rfl rfl rfl
    (fun e he => by
      have : e = exampleExt := by simpa using he
      subst this
      exact ⟨by norm_num [exampleExt], by norm_num [exampleExt], by decide, rfl⟩)
    (by simp)
    (by
      have hc : |(0.5 : ℚ) * exampleStateI.pidki 2 * 0.001| = 1 / 2000 := by
        rw [abs_of_nonneg] <;> norm_num [exampleStateI, initState]
      rw [hc]
      simp [integrallimit]
      norm_num)
  rw [h]
  norm_num [exampleStateI, initState]

/-- Counterexample to C9 as stated: yaw, `ki = 1.0`, `dt = 0.001`, error 0.5, midpoint
rule, in the air, from the zero-initialised state.  On none of the 100 ticks is the windup
flag set, the integral stays strictly inside its limit, and after 100 ticks it is 0.04975,
not `0.5 * 1.0 * 0.001 * 100 = 0.05`. -/
theorem pid_i_only_counterexample :
    (∀ k, k < 100 →
      pid_iwindup exampleConfig exampleExt
        (pid_pre exampleConfig exampleExt
          (pid_run exampleConfig 2 (List.replicate k exampleExt) exampleStateI) 2) 2 = false) ∧
    (∀ k, k ≤ 100 →
      |(pid_run exampleConfig 2 (List.replicate k exampleExt) exampleStateI).ierror 2|
        < integrallimit 2) ∧
    (pid_run exampleConfig 2 (List.replicate 100 exampleExt) exampleStateI).ierror 2 = 0.04975 ∧
    (0.04975 : ℚ) ≠ 0.5 * 1.0 * 0.001 * 100 := by
  have hex : ∀ (k : ℕ), ∀ e ∈ List.replicate k exampleExt,
      e.error 2 = (0.5 : ℚ) ∧ e.looptime = 0.001 ∧ decay_cond exampleConfig e = false ∧
        analog_changed exampleConfig e = false := by
    intro k e he
    rw [List.eq_of_mem_replicate he]
    exact ⟨by norm_num [exampleExt], by norm_num [exampleExt], by decide, rfl⟩
  have h0 : MidpointInv 2 (0.5 : ℚ) 1 0.001 exampleStateI 0 :=
    midpointInv_init 2 0.5 0.001 exampleStateI rfl rfl (by norm_num [exampleStateI, initState])
      rfl rfl rfl
  have hb : ∀ k : ℕ, k ≤ 100 → |(0.5 : ℚ) * 1 * 0.001| * ((k : ℕ) : ℚ) ≤ integrallimit 2 := by
    intro k hk
    have : (k : ℚ) ≤ 100 := by exact_mod_cast hk
    simp [integrallimit]
    norm_num [abs_of_nonneg]
    linarith
  have hinv : ∀ k : ℕ, k ≤ 100 → MidpointInv 2 (0.5 : ℚ) 1 0.001
      (pid_run exampleConfig 2 (List.replicate k exampleExt) exampleStateI) k := by
    intro k hk
    have h := midpoint_run exampleConfig 2 0.5 1 0.001 (List.replicate k exampleExt)
      exampleStateI 0 rfl rfl rfl rfl (hex k) h0
      (by simpa using hb k hk)
    simpa using h
  refine ⟨fun k hk => ?_, fun k hk => ?_, ?_, by norm_num⟩
  · exact (midpoint_step exampleConfig exampleExt _ 2 0.5 1 0.001 k rfl rfl rfl rfl
      (by norm_num [exampleExt]) (by norm_num [exampleExt]) (by decide) rfl
      (hinv k (le_of_lt hk)) (hb (k + 1) hk)).1
  · obtain ⟨-, -, -, -, -, -, habs, -, -⟩ := hinv k hk
    refine lt_of_le_of_lt habs ?_
    have : (k : ℚ) ≤ 100 := by exact_mod_cast hk
    simp [integrallimit]
    norm_num [abs_of_nonneg]
    linarith
  · obtain ⟨-, -, -, -, -, hie, -, -, hlast⟩ := hinv 100 (le_refl _)
    rw [hie, hlast (by norm_num)]
    norm_num

/-! ### A full turn of the rotation correction -/

section FullTurn

open Real

theorem one_degree_bounds : (0.01745 : ℝ) < 2 * π / 360 ∧ 2 * π / 360 < (0.01746 : ℝ) := by
  have h1 := Real.pi_gt_d6
  have h2 := Real.pi_lt_d6
  constructor <;> norm_num at * <;> linarith

/-- Closed form of the iterated step, multiplied by `sin φ`: the step turns by the
angle `φ` with `cos φ = 1 - θ²/2` in suitable coordinates. -/
theorem rot_step_iterate_closed (θ φ : ℝ) (hc : cos φ = 1 - θ ^ 2 / 2)
    (hs : sin φ ^ 2 = θ ^ 2 * (1 - θ ^ 2 / 4)) (v : ℝ × ℝ) (n : ℕ) :
    sin φ * ((rot_step θ)^[n] v).1
        = sin φ * cos (n * φ) * v.1 + sin (n * φ) * (θ ^ 2 / 2 * v.1 - θ * v.2) ∧
    sin φ * ((rot_step θ)^[n] v).2
        = sin φ * cos (n * φ) * v.2 + sin (n * φ) * (θ * v.1 - θ ^ 2 / 2 * v.2) := by
  induction n with
  | zero => simp
  | succ n ih =>
    obtain ⟨ih1, ih2⟩ := ih
    rw [Function.iterate_succ_apply']
    have hcos : cos ((n + 1 : ℕ) * φ) = cos (n * φ) * cos φ - sin (n * φ) * sin φ := by
      push_cast
      rw [add_mul, one_mul, cos_add]
    have hsin : sin ((n + 1 : ℕ) * φ) = sin (n * φ) * cos φ + cos (n * φ) * sin φ := by
      push_cast
      rw [add_mul, one_mul, sin_add]
    rw [hcos, hsin, hc]
    simp only [rot_step]
    constructor
    · linear_combination ih1 - θ * ih2 + sin (n * φ) * v.1 * hs
    · linear_combination θ * ih1 + (1 - θ ^ 2) * ih2 + sin (n * φ) * v.2 * hs


/-- The angle `φ` by which a step of about one degree turns exceeds the step by less than
`5e-7`. -/
theorem step_angle (θ : ℝ) (h1 : 0.01745 < θ) (h2 : θ < 0.01746) :
    ∃ φ : ℝ, cos φ = 1 - θ ^ 2 / 2 ∧ sin φ ^ 2 = θ ^ 2 * (1 - θ ^ 2 / 4) ∧ 0 < sin φ ^ 2 ∧
      θ ≤ φ ∧ φ ≤ θ + 5e-7 := by
  have hpi := Real.pi_gt_d6
  have hθ2 : θ ^ 2 < 0.0004 := by nlinarith
  have hc1 : -1 ≤ 1 - θ ^ 2 / 2 := by nlinarith
  have hc2 : 1 - θ ^ 2 / 2 ≤ 1 := by nlinarith [sq_nonneg θ]
  refine ⟨arccos (1 - θ ^ 2 / 2), cos_arccos hc1 hc2, ?_, ?_, ?_, ?_⟩
  · rw [sin_arccos, Real.sq_sqrt (by nlinarith)]
    ring
  · rw [sin_arccos, Real.sq_sqrt (by nlinarith)]
    nlinarith
  · by_contra hlt
    push_neg at hlt
    have := cos_lt_cos_of_nonneg_of_le_pi (arccos_nonneg _) (by linarith : θ ≤ π) hlt
    rw [cos_arccos hc1 hc2] at this
    have := one_sub_sq_div_two_le_cos (x := θ)
    linarith
  · by_contra hlt
    push_neg at hlt
    have hu0 : (0 : ℝ) ≤ θ + 5e-7 := by linarith
    have := cos_lt_cos_of_nonneg_of_le_pi hu0 (arccos_le_pi _) hlt
    rw [cos_arccos hc1 hc2] at this
    have hu1 : |θ + 5e-7| ≤ 1 := by
      rw [abs_of_nonneg hu0]
      linarith
    have hb := (abs_le.mp (cos_bound hu1)).2
    rw [abs_of_nonneg hu0] at hb
    have hu : θ + 5e-7 ≤ 0.0175 := by linarith
    have hu4 : (θ + 5e-7) ^ 4 ≤ 0.0175 ^ 4 := pow_le_pow_left₀ hu0 hu 4
    nlinarith


theorem neg_two_mul_le_sq_add_sq (a b : ℝ) : -(2 * (a * b)) ≤ a ^ 2 + b ^ 2 := by
  have h := sq_nonneg (a + b)
  have e : (a + b) ^ 2 = a ^ 2 + b ^ 2 + 2 * (a * b) := by ring
  linarith

theorem sq_add_le_two_sq (a b : ℝ) : (a + b) ^ 2 ≤ 2 * a ^ 2 + 2 * b ^ 2 := by
  have h := sq_nonneg (a - b)
  have e1 : (a - b) ^ 2 = a ^ 2 + b ^ 2 - 2 * (a * b) := by ring
  have e2 : (a + b) ^ 2 = a ^ 2 + b ^ 2 + 2 * (a * b) := by ring
  linarith

/-- The algebra behind the full turn: with `σ d = σ α v + β N v` componentwise, a small
`α` and `β` give a small `d`. -/
theorem full_turn_algebra (θ σ α β v1 v2 d1 d2 : ℝ) (hθ1 : 0.01745 < θ) (hθ2 : θ < 0.01746)
    (hs : σ ^ 2 = θ ^ 2 * (1 - θ ^ 2 / 4)) (hspos : 0 < σ ^ 2)
    (hA : α ^ 2 ≤ 1e-14) (hB : β ^ 2 ≤ 3.24e-8)
    (e1 : σ * d1 = σ * α * v1 + β * (θ ^ 2 / 2 * v1 - θ * v2))
    (e2 : σ * d2 = σ * α * v2 + β * (θ * v1 - θ ^ 2 / 2 * v2)) :
    d1 ^ 2 + d2 ^ 2 ≤ 1e-6 * (v1 ^ 2 + v2 ^ 2) := by
  have hθ0 : 0 ≤ θ := by linarith
  have hθsq : θ ^ 2 ≤ 0.0004 := by
    have := pow_le_pow_left₀ hθ0 (le_of_lt hθ2) 2
    norm_num at this ⊢
    linarith
  have hS : 0 ≤ v1 ^ 2 + v2 ^ 2 := add_nonneg (sq_nonneg _) (sq_nonneg _)
  have hσ0 : 0 ≤ σ ^ 2 := le_of_lt hspos
  -- the two components, multiplied by `σ`
  have hX : (σ * d1) ^ 2
      ≤ 2 * (σ * α * v1) ^ 2 + 2 * (β * (θ ^ 2 / 2 * v1 - θ * v2)) ^ 2 := by
    rw [e1]
    exact sq_add_le_two_sq _ _
  have hY : (σ * d2) ^ 2
      ≤ 2 * (σ * α * v2) ^ 2 + 2 * (β * (θ * v1 - θ ^ 2 / 2 * v2)) ^ 2 := by
    rw [e2]
    exact sq_add_le_two_sq _ _
  -- the size of the skew part
  have hN : (θ ^ 2 / 2 * v1 - θ * v2) ^ 2 + (θ * v1 - θ ^ 2 / 2 * v2) ^ 2
      ≤ θ ^ 2 * (1.02 * (v1 ^ 2 + v2 ^ 2)) := by
    have h1 : (θ ^ 2 / 2 * v1 - θ * v2) ^ 2 + (θ * v1 - θ ^ 2 / 2 * v2) ^ 2
        = θ ^ 2 * ((1 + θ ^ 2 / 4) * (v1 ^ 2 + v2 ^ 2) + θ * (-(2 * (v1 * v2)))) := by ring
    rw [h1]
    refine mul_le_mul_of_nonneg_left ?_ (sq_nonneg θ)
    have h2 : θ * (-(2 * (v1 * v2))) ≤ θ * (v1 ^ 2 + v2 ^ 2) :=
      mul_le_mul_of_nonneg_left (neg_two_mul_le_sq_add_sq v1 v2) hθ0
    have h3 : (1 + θ ^ 2 / 4 + θ) * (v1 ^ 2 + v2 ^ 2) ≤ 1.02 * (v1 ^ 2 + v2 ^ 2) :=
      mul_le_mul_of_nonneg_right (by norm_num at hθsq ⊢; linarith) hS
    linarith
  have hθσ : θ ^ 2 ≤ 1.001 * σ ^ 2 := by
    have h4 : θ ^ 2 * θ ^ 2 ≤ θ ^ 2 * 0.0004 := mul_le_mul_of_nonneg_left hθsq (sq_nonneg θ)
    rw [hs]
    norm_num at h4 ⊢
    linarith
  have h1 : σ ^ 2 * α ^ 2 * (v1 ^ 2 + v2 ^ 2) ≤ σ ^ 2 * 1e-14 * (v1 ^ 2 + v2 ^ 2) :=
    mul_le_mul_of_nonneg_right (mul_le_mul_of_nonneg_left hA hσ0) hS
  have h2 : β ^ 2 * ((θ ^ 2 / 2 * v1 - θ * v2) ^ 2 + (θ * v1 - θ ^ 2 / 2 * v2) ^ 2)
      ≤ 3.24e-8 * (θ ^ 2 * (1.02 * (v1 ^ 2 + v2 ^ 2))) :=
    mul_le_mul hB hN (add_nonneg (sq_nonneg _) (sq_nonneg _)) (by norm_num)
  have h3 : θ ^ 2 * (v1 ^ 2 + v2 ^ 2) ≤ 1.001 * σ ^ 2 * (v1 ^ 2 + v2 ^ 2) :=
    mul_le_mul_of_nonneg_right hθσ hS
  have hσS : 0 ≤ σ ^ 2 * (v1 ^ 2 + v2 ^ 2) := mul_nonneg hσ0 hS
  have hfin : σ ^ 2 * (d1 ^ 2 + d2 ^ 2) ≤ σ ^ 2 * (1e-6 * (v1 ^ 2 + v2 ^ 2)) := by
    have e : σ ^ 2 * (d1 ^ 2 + d2 ^ 2) = (σ * d1) ^ 2 + (σ * d2) ^ 2 := by ring
    have ex : (σ * α * v1) ^ 2 + (σ * α * v2) ^ 2 = σ ^ 2 * α ^ 2 * (v1 ^ 2 + v2 ^ 2) := by ring
    have ey : (β * (θ ^ 2 / 2 * v1 - θ * v2)) ^ 2 + (β * (θ * v1 - θ ^ 2 / 2 * v2)) ^ 2
        = β ^ 2 * ((θ ^ 2 / 2 * v1 - θ * v2) ^ 2 + (θ * v1 - θ ^ 2 / 2 * v2) ^ 2) := by ring
    rw [e]
    norm_num at h1 h2 h3 ⊢
    linarith
  exact le_of_mul_le_mul_left hfin hspos

/-- After 360 steps of one degree a pair is back within one part in a thousand. -/
theorem rot_step_full_turn (θ : ℝ) (hθ : θ = 2 * π / 360) (v : ℝ × ℝ) :
    (((rot_step θ)^[360] v).1 - v.1) ^ 2 + (((rot_step θ)^[360] v).2 - v.2) ^ 2
      ≤ 1e-6 * (v.1 ^ 2 + v.2 ^ 2) := by
  obtain ⟨hθ1, hθ2⟩ := one_degree_bounds
  rw [← hθ] at hθ1 hθ2
  obtain ⟨φ, hc, hs, hspos, hlo, hhi⟩ := step_angle θ hθ1 hθ2
  obtain ⟨e1, e2⟩ := rot_step_iterate_closed θ φ hc hs v 360
  -- the angle after 360 steps exceeds a full turn by `δ`
  have hturn : ((360 : ℕ) : ℝ) * φ = (360 * φ - 2 * π) + 2 * π := by
    push_cast
    ring
  rw [hturn, cos_add_two_pi, sin_add_two_pi] at e1 e2
  have hδ0 : 0 ≤ 360 * φ - 2 * π := by
    rw [hθ] at hlo
    linarith
  have hδ1 : 360 * φ - 2 * π ≤ 1.8e-4 := by
    rw [hθ] at hhi
    norm_num at hhi ⊢
    linarith
  generalize 360 * φ - 2 * π = δ at e1 e2 hδ0 hδ1
  have hδsq : δ ^ 2 ≤ 3.24e-8 := by
    have := pow_le_pow_left₀ hδ0 hδ1 2
    norm_num at this ⊢
    linarith
  have hα1 : cos δ - 1 ≤ 0 := by linarith [cos_le_one δ]
  have hα2 : -(δ ^ 2 / 2) ≤ cos δ - 1 := by linarith [one_sub_sq_div_two_le_cos (x := δ)]
  have hA : (cos δ - 1) ^ 2 ≤ 1e-14 := by
    have h0 : 0 ≤ -(cos δ - 1) := by linarith
    have h1 : -(cos δ - 1) ≤ 1.62e-8 := by
      norm_num at hδsq ⊢
      linarith
    have := pow_le_pow_left₀ h0 h1 2
    norm_num at this ⊢
    linarith
  have hB : sin δ ^ 2 ≤ 3.24e-8 := le_trans sin_sq_le_sq hδsq
  exact full_turn_algebra θ (sin φ) (cos δ - 1) (sin δ) v.1 v.2 _ _ hθ1 hθ2 hs hspos hA hB
    (by linear_combination e1) (by linear_combination e2)

theorem rotateErrors_x_axis (e : Ext K) (s : State K) (hy : e.gyro 1 = 0) (hz : e.gyro 2 = 0) :
    (rotateErrors e s).ierror 0 = s.ierror 0 ∧
    ((rotateErrors e s).ierror 1, (rotateErrors e s).ierror 2)
      = rot_step (e.gyro 0 * e.looptime) (s.ierror 1, s.ierror 2) := by
  obtain ⟨r0, r1, r2⟩ := rotateErrors_ierror e s
  have h0 : (rotateErrors e s).ierror 0 = s.ierror 0 := by
    rw [r0, hy, hz]
    ring
  refine ⟨h0, ?_⟩
  rw [r1, r2, h0, hy, hz]
  simp only [rot_step, Prod.mk.injEq]
  constructor <;> ring

theorem rotateErrors_y_axis (e : Ext K) (s : State K) (hx : e.gyro 0 = 0) (hz : e.gyro 2 = 0) :
    (rotateErrors e s).ierror 1 = s.ierror 1 ∧
    ((rotateErrors e s).ierror 2, (rotateErrors e s).ierror 0)
      = rot_step (e.gyro 1 * e.looptime) (s.ierror 2, s.ierror 0) := by
  obtain ⟨r0, r1, r2⟩ := rotateErrors_ierror e s
  refine ⟨?_, ?_⟩
  · rw [r1, hx, hz]
    ring
  · rw [r0, r2, hx, hz]
    simp only [rot_step, Prod.mk.injEq]
    constructor <;> ring

theorem rotateErrors_z_axis (e : Ext K) (s : State K) (hx : e.gyro 0 = 0) (hy : e.gyro 1 = 0) :
    (rotateErrors e s).ierror 2 = s.ierror 2 ∧
    ((rotateErrors e s).ierror 0, (rotateErrors e s).ierror 1)
      = rot_step (e.gyro 2 * e.looptime) (s.ierror 0, s.ierror 1) := by
  obtain ⟨r0, r1, r2⟩ := rotateErrors_ierror e s
  refine ⟨?_, ?_⟩
  · rw [r2, hx, hy]
    ring
  · rw [r1, r0, hx, hy]
    simp only [rot_step, Prod.mk.injEq]
    constructor <;> ring

theorem rotateErrors_iterate_x (e : Ext K) (hy : e.gyro 1 = 0) (hz : e.gyro 2 = 0) (n : ℕ)
    (s : State K) :
    ((rotateErrors e)^[n] s).ierror 0 = s.ierror 0 ∧
    (((rotateErrors e)^[n] s).ierror 1, ((rotateErrors e)^[n] s).ierror 2)
      = (rot_step (e.gyro 0 * e.looptime))^[n] (s.ierror 1, s.ierror 2) := by
  induction n with
  | zero => exact ⟨rfl, rfl⟩
  | succ n ih =>
    rw [Function.iterate_succ_apply', Function.iterate_succ_apply']
    obtain ⟨a, b⟩ := rotateErrors_x_axis e ((rotateErrors e)^[n] s) hy hz
    rw [a, b, ih.1, ih.2]
    exact ⟨rfl, rfl⟩

theorem rotateErrors_iterate_y (e : Ext K) (hx : e.gyro 0 = 0) (hz : e.gyro 2 = 0) (n : ℕ)
    (s : State K) :
    ((rotateErrors e)^[n] s).ierror 1 = s.ierror 1 ∧
    (((rotateErrors e)^[n] s).ierror 2, ((rotateErrors e)^[n] s).ierror 0)
      = (rot_step (e.gyro 1 * e.looptime))^[n] (s.ierror 2, s.ierror 0) := by
  induction n with
  | zero => exact ⟨rfl, rfl⟩
  | succ n ih =>
    rw [Function.iterate_succ_apply', Function.iterate_succ_apply']
    obtain ⟨a, b⟩ := rotateErrors_y_axis e ((rotateErrors e)^[n] s) hx hz
    rw [a, b, ih.1, ih.2]
    exact ⟨rfl, rfl⟩

theorem rotateErrors_iterate_z (e : Ext K) (hx : e.gyro 0 = 0) (hy : e.gyro 1 = 0) (n : ℕ)
    (s : State K) :
    ((rotateErrors e)^[n] s).ierror 2 = s.ierror 2 ∧
    (((rotateErrors e)^[n] s).ierror 0, ((rotateErrors e)^[n] s).ierror 1)
      = (rot_step (e.gyro 2 * e.looptime))^[n] (s.ierror 0, s.ierror 1) := by
  induction n with
  | zero => exact ⟨rfl, rfl⟩
  | succ n ih =>
    rw [Function.iterate_succ_apply', Function.iterate_succ_apply']
    obtain ⟨a, b⟩ := rotateErrors_z_axis e ((rotateErrors e)^[n] s) hx hy
    rw [a, b, ih.1, ih.2]
    exact ⟨rfl, rfl⟩

theorem sqrt_le_of_sq_le (d n : ℝ) (hn : 0 ≤ n) (h : d ≤ 1e-6 * n) :
    Real.sqrt d ≤ 1e-3 * Real.sqrt n := by
  rw [Real.sqrt_le_iff]
  refine ⟨mul_nonneg (by norm_num) (Real.sqrt_nonneg n), ?_⟩
  rw [mul_pow, Real.sq_sqrt hn]
  norm_num at h ⊢
  linarith

/-- C10: with the rate on one axis alone and `gyro * looptime` equal to one degree
(`2π/360` rad) per call, 360 consecutive calls of `rotateErrors()` bring every integral
vector `v` back to within `1e-3 * |v|` of `v` in Euclidean norm; for rotation about the
x axis, the y axis or the z axis.  Stated over the reals, in exact arithmetic. -/
theorem rotateErrors_full_turn (e : Ext ℝ) (s : State ℝ)
    (h : (e.gyro 0 * e.looptime = 2 * Real.pi / 360 ∧ e.gyro 1 = 0 ∧ e.gyro 2 = 0) ∨
      (e.gyro 1 * e.looptime = 2 * Real.pi / 360 ∧ e.gyro 0 = 0 ∧ e.gyro 2 = 0) ∨
      (e.gyro 2 * e.looptime = 2 * Real.pi / 360 ∧ e.gyro 0 = 0 ∧ e.gyro 1 = 0)) :
    Real.sqrt ((((rotateErrors e)^[360] s).ierror 0 - s.ierror 0) ^ 2
        + (((rotateErrors e)^[360] s).ierror 1 - s.ierror 1) ^ 2
        + (((rotateErrors e)^[360] s).ierror 2 - s.ierror 2) ^ 2)
      ≤ 1e-3 * Real.sqrt (s.ierror 0 ^ 2 + s.ierror 1 ^ 2 + s.ierror 2 ^ 2) := by
  apply sqrt_le_of_sq_le _ _ (by positivity)
  rcases h with ⟨hθ, h1, h2⟩ | ⟨hθ, h1, h2⟩ | ⟨hθ, h1, h2⟩
  · obtain ⟨a, b⟩ := rotateErrors_iterate_x e h1 h2 360 s
    have hb1 := congrArg Prod.fst b
    have hb2 := congrArg Prod.snd b
    simp only at hb1 hb2
    have key := rot_step_full_turn _ hθ (s.ierror 1, s.ierror 2)
    rw [← hb1, ← hb2] at key
    simp only at key
    rw [a]
    nlinarith [sq_nonneg (s.ierror 0)]
  · obtain ⟨a, b⟩ := rotateErrors_iterate_y e h1 h2 360 s
    have hb1 := congrArg Prod.fst b
    have hb2 := congrArg Prod.snd b
    simp only at hb1 hb2
    have key := rot_step_full_turn _ hθ (s.ierror 2, s.ierror 0)
    rw [← hb1, ← hb2] at key
    simp only at key
    rw [a]
    nlinarith [sq_nonneg (s.ierror 1)]
  · obtain ⟨a, b⟩ := rotateErrors_iterate_z e h1 h2 360 s
    have hb1 := congrArg Prod.fst b
    have hb2 := congrArg Prod.snd b
    simp only at hb1 hb2
    have key := rot_step_full_turn _ hθ (s.ierror 0, s.ierror 1)
    rw [← hb1, ← hb2] at key
    simp only at key
    rw [a]
    nlinarith [sq_nonneg (s.ierror 2)]

/-- Witness for C10: a roll rate of one degree per call, applied 360 times to the
integral vector `(0.1, 0.2, 0.3)`. -/
theorem rotateErrors_full_turn_witness :
    Real.sqrt
        ((((rotateErrors (exampleExtTurn (2 * Real.pi / 360)))^[360] exampleStateTurn).ierror 0
            - (exampleStateTurn : State ℝ).ierror 0) ^ 2
        + (((rotateErrors (exampleExtTurn (2 * Real.pi / 360)))^[360] exampleStateTurn).ierror 1
            - (exampleStateTurn : State ℝ).ierror 1) ^ 2
        + (((rotateErrors (exampleExtTurn (2 * Real.pi / 360)))^[360] exampleStateTurn).ierror 2
            - (exampleStateTurn : State ℝ).ierror 2) ^ 2)
      ≤ 1e-3 * Real.sqrt ((exampleStateTurn : State ℝ).ierror 0 ^ 2
          + (exampleStateTurn : State ℝ).ierror 1 ^ 2 + (exampleStateTurn : State ℝ).ierror 2 ^ 2) :=
  rotateErrors_full_turn (exampleExtTurn (2 * Real.pi / 360)) exampleStateTurn
    (Or.inl ⟨by simp [exampleExtTurn], by simp [exampleExtTurn], by simp [exampleExtTurn]⟩)

end FullTurn

/-! ### The rotation correction as a linear map -/

theorem rot_x_det (t : K) : (rot_x t).det = 1 := by
  simp [rot_x, Matrix.det_fin_three]

theorem rot_y_det (t : K) : (rot_y t).det = 1 := by
  simp [rot_y, Matrix.det_fin_three]

theorem rot_z_det (t : K) : (rot_z t).det = 1 := by
  simp [rot_z, Matrix.det_fin_three]

theorem rot_x_zero : rot_x (0 : K) = 1 := by
  simp [rot_x, Matrix.one_fin_three]

theorem rot_y_zero : rot_y (0 : K) = 1 := by
  simp [rot_y, Matrix.one_fin_three]

theorem rot_z_zero : rot_z (0 : K) = 1 := by
  simp [rot_z, Matrix.one_fin_three]

theorem rotateErrors_mulVec (e : Ext K) (s : State K) :
    (rotateErrors e s).ierror = Matrix.mulVec (rotate_matrix e) s.ierror := by
  obtain ⟨r0, r1, r2⟩ := rotateErrors_ierror e s
  funext i
  fin_cases i
  · show (rotateErrors e s).ierror 0 = _
    rw [r0]
    simp [rotate_matrix, rot_x, rot_y, rot_z, Matrix.mulVec, Matrix.dotProduct, Fin.sum_univ_three,
      Matrix.mul_apply]
    ring
  · show (rotateErrors e s).ierror 1 = _
    rw [r1, r0]
    simp [rotate_matrix, rot_x, rot_y, rot_z, Matrix.mulVec, Matrix.dotProduct, Fin.sum_univ_three,
      Matrix.mul_apply]
    ring
  · show (rotateErrors e s).ierror 2 = _
    rw [r2]
    simp [rotate_matrix, rot_x, rot_y, rot_z, Matrix.mulVec, Matrix.dotProduct, Fin.sum_univ_three,
      Matrix.mul_apply]
    ring

/-- C11: for every gyro vector and looptime `rotateErrors()` acts on the integral vector as
the linear map with matrix `rotate_matrix`, the product of the three axis-pair updates; each
factor and the product have determinant exactly 1; and the map is the identity when
`looptime = 0` or `gyro = 0`. -/
theorem rotateErrors_linear_det_one (e : Ext K) :
    (∀ s : State K, (rotateErrors e s).ierror = Matrix.mulVec (rotate_matrix e) s.ierror) ∧
    (rot_x (e.gyro 0 * e.looptime)).det = 1 ∧ (rot_y (e.gyro 1 * e.looptime)).det = 1 ∧
    (rot_z (e.gyro 2 * e.looptime)).det = 1 ∧ (rotate_matrix e).det = 1 ∧
    rotate_matrix { e with looptime := 0 } = 1 ∧ rotate_matrix { e with gyro := 0 } = 1 ∧
    (∀ s : State K, (rotateErrors { e with looptime := 0 } s).ierror = s.ierror) ∧
    (∀ s : State K, (rotateErrors { e with gyro := 0 } s).ierror = s.ierror) := by
  have hl : rotate_matrix { e with looptime := 0 } = 1 := by
    simp [rotate_matrix, rot_x_zero, rot_y_zero, rot_z_zero]
  have hg : rotate_matrix { e with gyro := 0 } = 1 := by
    simp [rotate_matrix, rot_x_zero, rot_y_zero, rot_z_zero]
  refine ⟨rotateErrors_mulVec e, rot_x_det _, rot_y_det _, rot_z_det _, ?_, hl, hg, ?_, ?_⟩
  · unfold rotate_matrix
    rw [Matrix.det_mul, Matrix.det_mul, rot_x_det, rot_y_det, rot_z_det]
    norm_num
  · intro s
    rw [rotateErrors_mulVec, hl, Matrix.one_mulVec]
  · intro s
    rw [rotateErrors_mulVec, hg, Matrix.one_mulVec]

/-! ### Setpoint weighting with `b = 1` -/

theorem integralOnly_b {s t : State K} (h : IntegralOnly s t) : t.b = s.b := by
  obtain ⟨_, _, _, _, _, _, _, _, _, _, rfl⟩ := h
  rfl

theorem pid_pterm_of_b_one (cfg : Config K) (e : Ext K) (s : State K) (x : Fin 3)
    (hb : s.b x = 1) : pid_pterm cfg e s x = e.error x * s.pidkp x := by
  unfold pid_pterm
  rw [hb]
  split_ifs
  · norm_num
  · rfl

theorem pid_d_limit_weighting (cfg : Config K) (e : Ext K) (s : State K) (x : Fin 3) :
    pid_limit { cfg with ENABLE_SETPOINT_WEIGHTING := true }
        (pid_d { cfg with ENABLE_SETPOINT_WEIGHTING := true } e s x) x
      = pid_limit { cfg with ENABLE_SETPOINT_WEIGHTING := false }
        (pid_d { cfg with ENABLE_SETPOINT_WEIGHTING := false } e s x) x := by
  have h1 : ∀ t : State K, dterm_normal { cfg with ENABLE_SETPOINT_WEIGHTING := true } e t x
      = dterm_normal { cfg with ENABLE_SETPOINT_WEIGHTING := false } e t x := fun _ => rfl
  have h2 : ∀ t : State K, dterm_new { cfg with ENABLE_SETPOINT_WEIGHTING := true } e t x
      = dterm_new { cfg with ENABLE_SETPOINT_WEIGHTING := false } e t x := fun _ => rfl
  have h3 : ∀ t : State K, dterm_max_flat { cfg with ENABLE_SETPOINT_WEIGHTING := true } e t x
      = dterm_max_flat { cfg with ENABLE_SETPOINT_WEIGHTING := false } e t x := fun _ => rfl
  have h4 : ∀ t : State K, dterm_lpf_1st { cfg with ENABLE_SETPOINT_WEIGHTING := true } e t x
      = dterm_lpf_1st { cfg with ENABLE_SETPOINT_WEIGHTING := false } e t x := fun _ => rfl
  have h5 : ∀ t : State K, dterm_lpf_2nd { cfg with ENABLE_SETPOINT_WEIGHTING := true } e t x
      = dterm_lpf_2nd { cfg with ENABLE_SETPOINT_WEIGHTING := false } e t x := fun _ => rfl
  have h6 : ∀ t : State K, pid_limit { cfg with ENABLE_SETPOINT_WEIGHTING := true } t x
      = pid_limit { cfg with ENABLE_SETPOINT_WEIGHTING := false } t x := fun _ => rfl
  have hd : ∀ t : State K, pid_dterm { cfg with ENABLE_SETPOINT_WEIGHTING := true } e t x
      = pid_dterm { cfg with ENABLE_SETPOINT_WEIGHTING := false } e t x := by
    intro t
    unfold pid_dterm
    dsimp only
    rw [h1, h2, h3, h4, h5]
  unfold pid_d
  rw [h6, hd]

/-- C12: with `b[x] = 1` the build with `ENABLE_SETPOINT_WEIGHTING` computes the P term
`error[x] * pidkp[x]`, and `pid(x)` returns the same value and leaves the same state as
the build without setpoint weighting, for every state, input and other switches. -/
theorem pid_setpoint_weight_one (cfg : Config K) (e : Ext K) (s : State K) (x : Fin 3)
    (hb : s.b x = 1) :
    pid_pterm { cfg with ENABLE_SETPOINT_WEIGHTING := true } e
        (pid_integral { cfg with ENABLE_SETPOINT_WEIGHTING := true } e s x) x
      = e.error x * (pid_integral { cfg with ENABLE_SETPOINT_WEIGHTING := true } e s x).pidkp x ∧
    pid { cfg with ENABLE_SETPOINT_WEIGHTING := true } e s x
      = pid { cfg with ENABLE_SETPOINT_WEIGHTING := false } e s x := by
  have hI : pid_integral { cfg with ENABLE_SETPOINT_WEIGHTING := true } e s x
      = pid_integral { cfg with ENABLE_SETPOINT_WEIGHTING := false } e s x := rfl
  have hbI : (pid_integral { cfg with ENABLE_SETPOINT_WEIGHTING := true } e s x).b x = 1 := by
    rw [integralOnly_b (pid_integral_integralOnly _ e s x)]
    exact hb
  have hP := pid_pterm_of_b_one { cfg with ENABLE_SETPOINT_WEIGHTING := true } e _ x hbI
  refine ⟨hP, ?_⟩
  have hP2 := pid_pterm_of_b_one { cfg with ENABLE_SETPOINT_WEIGHTING := false } e _ x hbI
  have hpi : pid_pi { cfg with ENABLE_SETPOINT_WEIGHTING := true } e
        (pid_integral { cfg with ENABLE_SETPOINT_WEIGHTING := true } e s x) x
      = pid_pi { cfg with ENABLE_SETPOINT_WEIGHTING := false } e
        (pid_integral { cfg with ENABLE_SETPOINT_WEIGHTING := true } e s x) x := by
    unfold pid_pi
    rw [hP, hP2]
  rw [pid_eq, pid_eq, hpi, ← hI, pid_d_limit_weighting]

/-- Witness for C12: roll with `b = 1`, all gains set, in a build with the measurement D
term, the second-order filter and voltage compensation. -/
theorem pid_setpoint_weight_one_witness :
    exampleStatePID.b 0 = 1 ∧
    pid { exampleConfigD with ENABLE_SETPOINT_WEIGHTING := true } exampleExt exampleStatePID 0
      = pid { exampleConfigD with ENABLE_SETPOINT_WEIGHTING := false } exampleExt
          exampleStatePID 0 :=
  have hb : exampleStatePID.b 0 = 1 := by norm_num [exampleStatePID, initState]
  ⟨hb, (pid_setpoint_weight_one exampleConfigD exampleExt exampleStatePID 0 hb).2⟩

/-! ### Analog-aux tuning -/

/-- The code at the failing input of C13: with the roll P gain mapped to an analog channel
that is flagged as changed, and a saved initial gain of 1, `apply_analog_aux_to_pids` sets
the working gain to 0.5 for the channel value 0 (not to 0) and to 1.5 for the channel value
1 (not to 2): the multiplier is `aux_analog + 0.5`. -/
theorem apply_analog_scaling_values :
    exampleStateAnalog.pidkp_init 0 = 1 ∧
    (∀ v : ℚ, (apply_analog_aux_to_pids exampleConfigAnalog (exampleExtAnalog v)
      exampleStateAnalog).pidkp 0 = exampleStateAnalog.pidkp_init 0 * (v + 0.5)) ∧
    (apply_analog_aux_to_pids exampleConfigAnalog (exampleExtAnalog 0)
      exampleStateAnalog).pidkp 0 = 0.5 ∧
    (apply_analog_aux_to_pids exampleConfigAnalog (exampleExtAnalog 1)
      exampleStateAnalog).pidkp 0 = 1.5 := by
  have h : ∀ v : ℚ, (apply_analog_aux_to_pids exampleConfigAnalog (exampleExtAnalog v)
      exampleStateAnalog).pidkp 0 = exampleStateAnalog.pidkp_init 0 * (v + 0.5) := by
    intro v
    simp [apply_analog_aux_to_pids, analog_block, exampleConfigAnalog, exampleConfig,
      exampleExtAnalog, exampleExt, exampleStateAnalog, initState]
  have h1 : exampleStateAnalog.pidkp_init 0 = 1 := rfl
  refine ⟨h1, h, ?_, ?_⟩
  · rw [h, h1]
    norm_num
  · rw [h, h1]
    norm_num

/-! ### Gesture tuning -/

theorem gain_store_frame (s : State K) (p : GainArray) (i : Fin 3) (v : K) :
    (gain_store s p i v).number_of_increments = s.number_of_increments ∧
    (gain_store s p i v).current_pid_term = s.current_pid_term ∧
    (gain_store s p i v).current_pid_axis = s.current_pid_axis := by
  cases p <;> exact ⟨rfl, rfl, rfl⟩

theorem dual_pids_copy_frame (cfg : Config K) (e : Ext K) (s : State K) (i : Fin 3) :
    (dual_pids_copy cfg e s i).number_of_increments = s.number_of_increments ∧
    (dual_pids_copy cfg e s i).current_pid_term = s.current_pid_term ∧
    (dual_pids_copy cfg e s i).current_pid_axis = s.current_pid_axis := by
  unfold dual_pids_copy
  split_ifs <;> exact gain_store_frame _ _ _ _

theorem change_pid_gains_frame (cfg : Config K) (e : Ext K) (s : State K) (a : Fin 3)
    (m : K) :
    (change_pid_gains cfg e s a m).number_of_increments = s.number_of_increments ∧
    (change_pid_gains cfg e s a m).current_pid_term = s.current_pid_term ∧
    (change_pid_gains cfg e s a m).current_pid_axis = s.current_pid_axis := by
  have h1 := gain_store_frame s s.current_pid_term_pointer a
    (gain_array s s.current_pid_term_pointer a * m)
  have h2 := dual_pids_copy_frame cfg e (gain_store s s.current_pid_term_pointer a
    (gain_array s s.current_pid_term_pointer a * m)) a
  have h12 : (dual_pids_copy cfg e (gain_store s s.current_pid_term_pointer a
      (gain_array s s.current_pid_term_pointer a * m)) a).number_of_increments
        = s.number_of_increments ∧
      (dual_pids_copy cfg e (gain_store s s.current_pid_term_pointer a
        (gain_array s s.current_pid_term_pointer a * m)) a).current_pid_term
        = s.current_pid_term ∧
      (dual_pids_copy cfg e (gain_store s s.current_pid_term_pointer a
        (gain_array s s.current_pid_term_pointer a * m)) a).current_pid_axis
        = s.current_pid_axis :=
    ⟨h2.1.trans h1.1, h2.2.1.trans h1.2.1, h2.2.2.trans h1.2.2⟩
  unfold change_pid_gains
  dsimp only
  split_ifs
  · have h3 := gain_store_frame (dual_pids_copy cfg e (gain_store s s.current_pid_term_pointer a
      (gain_array s s.current_pid_term_pointer a * m)) a)
      (dual_pids_copy cfg e (gain_store s s.current_pid_term_pointer a
        (gain_array s s.current_pid_term_pointer a * m)) a).current_pid_term_pointer 1
      (gain_array (dual_pids_copy cfg e (gain_store s s.current_pid_term_pointer a
        (gain_array s s.current_pid_term_pointer a * m)) a)
        (dual_pids_copy cfg e (gain_store s s.current_pid_term_pointer a
          (gain_array s s.current_pid_term_pointer a * m)) a).current_pid_term_pointer 1 * m)
    have h4 := dual_pids_copy_frame cfg e (gain_store (dual_pids_copy cfg e
      (gain_store s s.current_pid_term_pointer a
        (gain_array s s.current_pid_term_pointer a * m)) a)
      (dual_pids_copy cfg e (gain_store s s.current_pid_term_pointer a
        (gain_array s s.current_pid_term_pointer a * m)) a).current_pid_term_pointer 1
      (gain_array (dual_pids_copy cfg e (gain_store s s.current_pid_term_pointer a
        (gain_array s s.current_pid_term_pointer a * m)) a)
        (dual_pids_copy cfg e (gain_store s s.current_pid_term_pointer a
          (gain_array s s.current_pid_term_pointer a * m)) a).current_pid_term_pointer 1 * m)) 1
    exact ⟨(h4.1.trans h3.1).trans h12.1, (h4.2.1.trans h3.2.1).trans h12.2.1,
      (h4.2.2.trans h3.2.2).trans h12.2.2⟩
  · exact h12
  · exact h12

theorem change_pid_value_spec (cfg : Config K) (e : Ext K) (s : State K) (increase : Int)
    (t a : Fin 3) (ht : index3 s.current_pid_term = some t)
    (ha : index3 s.current_pid_axis = some a) :
    ∃ r, change_pid_value cfg e s increase = some r ∧
      r.1 = c_abs (wrap_int (s.number_of_increments t a + (if increase ≠ 0 then 1 else -1))) ∧
      r.2.number_of_increments = Function.update s.number_of_increments t
        (Function.update (s.number_of_increments t) a
          (wrap_int (s.number_of_increments t a + (if increase ≠ 0 then 1 else -1)))) ∧
      r.2.current_pid_term = s.current_pid_term ∧ r.2.current_pid_axis = s.current_pid_axis := by
  unfold change_pid_value
  rw [ht, ha]
  dsimp only
  refine ⟨_, rfl, ?_⟩
  dsimp only
  by_cases hi : increase ≠ 0
  · simp only [if_pos hi]
    obtain ⟨f1, f2, f3⟩ := change_pid_gains_frame cfg e
      { s with
        number_of_increments := Function.update s.number_of_increments t
          (Function.update (s.number_of_increments t) a
            (wrap_int (s.number_of_increments t a + 1))) } a PID_GESTURES_MULTI
    rw [f1, f2, f3]
    simp
  · simp only [if_neg hi]
    obtain ⟨f1, f2, f3⟩ := change_pid_gains_frame cfg e
      { s with
        number_of_increments := Function.update s.number_of_increments t
          (Function.update (s.number_of_increments t) a
            (wrap_int (s.number_of_increments t a - 1))) } a (1.0 / PID_GESTURES_MULTI)
    rw [f1, f2, f3]
    simp [sub_eq_add_neg]

theorem wrap_int_of_small (n : Int) (h1 : -2147483648 ≤ n) (h2 : n < 2147483648) :
    wrap_int n = n := by
  unfold wrap_int
  omega

theorem c_abs_of_small (n : Int) (h : |n| < 2147483648) : c_abs n = |n| := by
  have h' := abs_lt.mp h
  unfold c_abs
  split_ifs with hn
  · rw [wrap_int_of_small _ (by omega) (by omega), abs_of_neg hn]
  · rw [abs_of_nonneg (by omega)]

theorem gesture_run_counter (cfg : Config K) (e : Ext K) (t a : Fin 3) (cs : List Bool)
    (s : State K) (ht : index3 s.current_pid_term = some t)
    (ha : index3 s.current_pid_axis = some a)
    (hlen : |s.number_of_increments t a| + (cs.length : Int) < 2147483648) :
    ∃ s2, gesture_run cfg e cs s = some s2 ∧
      s2.current_pid_term = s.current_pid_term ∧ s2.current_pid_axis = s.current_pid_axis ∧
      s2.number_of_increments t a
        = s.number_of_increments t a + (cs.count true : Int) - (cs.count false : Int) ∧
      ∀ t2 a2, ¬ (t2 = t ∧ a2 = a) →
        s2.number_of_increments t2 a2 = s.number_of_increments t2 a2 := by
  induction cs generalizing s with
  | nil => exact ⟨s, rfl, rfl, rfl, by simp, fun _ _ _ => rfl⟩
  | cons c cs ih =>
    have hn := abs_lt.mp (lt_of_le_of_lt (le_add_of_nonneg_right (Int.natCast_nonneg _)) hlen)
    have hl : ((c :: cs).length : Int) = (cs.length : Int) + 1 := by
      simp
    rw [hl] at hlen
    have habs := abs_le.mp (le_refl |s.number_of_increments t a|)
    cases c with
    | true =>
      obtain ⟨r, hr, -, hnoi, hterm, haxis⟩ := change_pid_value_spec cfg e s 1 t a ht ha
      have hw : wrap_int (s.number_of_increments t a + 1) = s.number_of_increments t a + 1 :=
        wrap_int_of_small _ (by omega) (by omega)
      have hcount : r.2.number_of_increments t a = s.number_of_increments t a + 1 := by
        rw [hnoi]
        simp [hw]
      obtain ⟨s2, h1, h2, h3, h4, h5⟩ := ih r.2 (by rw [hterm]; exact ht)
        (by rw [haxis]; exact ha)
        (by
          rw [hcount]
          have := abs_add (s.number_of_increments t a) 1
          simp only [abs_one] at this
          omega)
      refine ⟨s2, ?_, h2.trans hterm, h3.trans haxis, ?_, ?_⟩
      · show (match increase_pid cfg e s with
          | some r => gesture_run cfg e cs r.2
          | none => none) = some s2
        unfold increase_pid
        rw [hr]
        exact h1
      · rw [h4, hcount]
        simp [List.count_cons]
        ring
      · intro t2 a2 hne
        rw [h5 t2 a2 hne, hnoi]
        by_cases h : t2 = t
        · subst h
          have : a2 ≠ a := fun h' => hne ⟨rfl, h'⟩
          simp [this]
        · simp [h]
    | false =>
      obtain ⟨r, hr, -, hnoi, hterm, haxis⟩ := change_pid_value_spec cfg e s 0 t a ht ha
      have hw : wrap_int (s.number_of_increments t a + -1) = s.number_of_increments t a - 1 :=
        wrap_int_of_small _ (by omega) (by omega)
      have hcount : r.2.number_of_increments t a = s.number_of_increments t a - 1 := by
        rw [hnoi]
        simp [hw]
      obtain ⟨s2, h1, h2, h3, h4, h5⟩ := ih r.2 (by rw [hterm]; exact ht)
        (by rw [haxis]; exact ha)
        (by
          rw [hcount]
          have := abs_sub (s.number_of_increments t a) 1
          simp only [abs_one] at this
          omega)
      refine ⟨s2, ?_, h2.trans hterm, h3.trans haxis, ?_, ?_⟩
      · show (match decrease_pid cfg e s with
          | some r => gesture_run cfg e cs r.2
          | none => none) = some s2
        unfold decrease_pid
        rw [hr]
        exact h1
      · rw [h4, hcount]
        simp [List.count_cons]
        ring
      · intro t2 a2 hne
        rw [h5 t2 a2 hne, hnoi]
        by_cases h : t2 = t
        · subst h
          have : a2 ≠ a := fun h' => hne ⟨rfl, h'⟩
          simp [this]
        · simp [h]

/-- C14: with a valid selected term `t` and axis `a` whose counter is zero (as in the
initial state), after any sequence of `increase_pid()` / `decrease_pid()` calls, of fewer
than `2^31` calls so that the `int` counter cannot overflow, every call returns a value, the
value returned by the last call is the absolute value of the number of increases minus the
number of decreases, and the counters of the other term/axis pairs are unchanged. -/
theorem gesture_counter (cfg : Config K) (e : Ext K) (s0 : State K) (t a : Fin 3)
    (cs : List Bool) (c : Bool)
    (ht : index3 s0.current_pid_term = some t) (ha : index3 s0.current_pid_axis = some a)
    (h0 : s0.number_of_increments t a = 0)
    (hlen : ((cs ++ [c]).length : Int) < 2147483648) :
    ∃ s r, gesture_run cfg e cs s0 = some s ∧
      (if c then increase_pid cfg e s else decrease_pid cfg e s) = some r ∧
      r.1 = |((cs ++ [c]).count true : Int) - ((cs ++ [c]).count false : Int)| ∧
      ∀ t2 a2, ¬ (t2 = t ∧ a2 = a) →
        r.2.number_of_increments t2 a2 = s0.number_of_increments t2 a2 := by
  have hl : ((cs ++ [c]).length : Int) = (cs.length : Int) + 1 := by simp
  rw [hl] at hlen
  obtain ⟨s, h1, h2, h3, h4, h5⟩ := gesture_run_counter cfg e t a cs s0 ht ha
    (by rw [h0]; simp; omega)
  rw [h0, zero_add] at h4
  have hc1 : (cs.count true : Int) ≤ cs.length := by exact_mod_cast List.count_le_length true cs
  have hc2 : (cs.count false : Int) ≤ cs.length := by
    exact_mod_cast List.count_le_length false cs
  have hc3 : (0 : Int) ≤ cs.count true := Int.natCast_nonneg _
  have hc4 : (0 : Int) ≤ cs.count false := Int.natCast_nonneg _
  cases c with
  | true =>
    obtain ⟨r, hr, hret, hnoi, -, -⟩ := change_pid_value_spec cfg e s 1 t a
      (by rw [h2]; exact ht) (by rw [h3]; exact ha)
    refine ⟨s, r, h1, by simpa [increase_pid] using hr, ?_, ?_⟩
    · rw [hret, h4]
      simp only [List.count_append, List.count_singleton, Nat.cast_add]
      have hw : wrap_int ((cs.count true : Int) - (cs.count false : Int)
          + (if (1 : Int) ≠ 0 then 1 else -1))
          = (cs.count true : Int) - (cs.count false : Int) + 1 := by
        rw [if_pos (by norm_num)]
        exact wrap_int_of_small _ (by omega) (by omega)
      rw [hw, c_abs_of_small _ (abs_lt.mpr ⟨by omega, by omega⟩)]
      congr 1
      simp
      ring
    · intro t2 a2 hne
      rw [hnoi, ← h5 t2 a2 hne]
      by_cases h : t2 = t
      · subst h
        have : a2 ≠ a := fun h' => hne ⟨rfl, h'⟩
        simp [this]
      · simp [h]
  | false =>
    obtain ⟨r, hr, hret, hnoi, -, -⟩ := change_pid_value_spec cfg e s 0 t a
      (by rw [h2]; exact ht) (by rw [h3]; exact ha)
    refine ⟨s, r, h1, by simpa [decrease_pid] using hr, ?_, ?_⟩
    · rw [hret, h4]
      simp only [List.count_append, List.count_singleton, Nat.cast_add]
      have hw : wrap_int ((cs.count true : Int) - (cs.count false : Int)
          + (if (0 : Int) ≠ 0 then 1 else -1))
          = (cs.count true : Int) - (cs.count false : Int) - 1 := by
        rw [if_neg (by norm_num)]
        exact wrap_int_of_small _ (by omega) (by omega)
      rw [hw, c_abs_of_small _ (abs_lt.mpr ⟨by omega, by omega⟩)]
      congr 1
      simp
      ring
    · intro t2 a2 hne
      rw [hnoi, ← h5 t2 a2 hne]
      by_cases h : t2 = t
      · subst h
        have : a2 ≠ a := fun h' => hne ⟨rfl, h'⟩
        simp [this]
      · simp [h]

/-- Witness for C14: from the initial state (P term, roll axis) two increases followed by
three decreases return 1. -/
theorem gesture_counter_witness :
    ∃ s r, gesture_run exampleConfig exampleExt [true, true, false, false]
        (initState exampleConfig) = some s ∧
      decrease_pid exampleConfig exampleExt s = some r ∧ r.1 = 1 := by
  obtain ⟨s, r, h1, h2, h3, -⟩ := gesture_counter exampleConfig exampleExt
    (initState exampleConfig) 0 0 [true, true, false, false] false rfl rfl rfl (by norm_num)
  refine ⟨s, r, h1, by simpa using h2, ?_⟩
  rw [h3]
  decide

/-! ### Windup detection with voltage compensation -/

/-- The code at the failing input of C15: voltage compensation compiled in, battery at
3.0 V so that `pid_precalc` gives `v_compensation = 1.33`, roll gains `kp = ki = 1`,
error 1.  The first `pid(0)` saturates: its sum before the limit is 1.0005, above
`outlimit[0] = 0.6`, and it stores and returns `0.6 * 1.33 = 0.798`.  On the next `pid(0)`
with `error[0] = 1 > 0` the windup flag is not set, because 0.798 is not `outlimit[0]`, and
the integral is updated from 0.0005 to 0.0015. -/
theorem pid_windup_voltage_values :
    exampleStateLow.v_compensation = 1.33 ∧
    (pid_d exampleConfigVC exampleExtLow
      (pid_pi exampleConfigVC exampleExtLow
        (pid_integral exampleConfigVC exampleExtLow exampleStateLow 0) 0) 0).pidoutput 0
      = 1.0005 ∧
    (pid exampleConfigVC exampleExtLow exampleStateLow 0).1 = 0.798 ∧
    (pid exampleConfigVC exampleExtLow exampleStateLow 0).2.ierror 0 = 0.0005 ∧
    exampleExtLow.error 0 > 0 ∧
    pid_iwindup exampleConfigVC exampleExtLow
      (pid_pre exampleConfigVC exampleExtLow
        (pid exampleConfigVC exampleExtLow exampleStateLow 0).2 0) 0 = false ∧
    (pid exampleConfigVC exampleExtLow
      (pid exampleConfigVC exampleExtLow exampleStateLow 0).2 0).2.ierror 0 = 0.0015 := by
  refine ⟨?_, ?_, ?_, ?_, ?_, ?_, ?_⟩
  · simp [exampleStateLow, pid_precalc, exampleConfigVC, exampleConfig, exampleExtLow, exampleExt,
      exampleStateKpKi, initState, mapf, PID_VC_FACTOR]
    norm_num
  · simp [pid_limit, pid_d, pid_pi, pid_pterm, pid_integral, pid_decay, pid_analog,
      pid_transient, pid_iwindup, pid_integrate, exampleStateLow, pid_precalc, exampleConfigVC,
      exampleConfig, exampleExtLow, exampleExt, exampleStateKpKi, initState, mapf, PID_VC_FACTOR,
      limitf, outlimit, integrallimit]
    norm_num
  · simp [pid, pid_limit, pid_d, pid_pi, pid_pterm, pid_integral, pid_decay, pid_analog,
      pid_transient, pid_iwindup, pid_integrate, exampleStateLow, pid_precalc, exampleConfigVC,
      exampleConfig, exampleExtLow, exampleExt, exampleStateKpKi, initState, mapf, PID_VC_FACTOR,
      limitf, outlimit, integrallimit]
    norm_num
  · simp [pid, pid_limit, pid_d, pid_pi, pid_pterm, pid_integral, pid_decay, pid_analog,
      pid_transient, pid_iwindup, pid_integrate, exampleStateLow, pid_precalc, exampleConfigVC,
      exampleConfig, exampleExtLow, exampleExt, exampleStateKpKi, initState, mapf, PID_VC_FACTOR,
      limitf, outlimit, integrallimit]
    norm_num
  · norm_num [exampleExtLow, exampleExt]
  · simp [pid, pid_pre, pid_limit, pid_d, pid_pi, pid_pterm, pid_integral, pid_decay, pid_analog,
      pid_transient, pid_iwindup, pid_integrate, exampleStateLow, pid_precalc, exampleConfigVC,
      exampleConfig, exampleExtLow, exampleExt, exampleStateKpKi, initState, mapf, PID_VC_FACTOR,
      limitf, outlimit, integrallimit]
    norm_num
  · simp [pid, pid_limit, pid_d, pid_pi, pid_pterm, pid_integral, pid_decay, pid_analog,
      pid_transient, pid_iwindup, pid_integrate, exampleStateLow, pid_precalc, exampleConfigVC,
      exampleConfig, exampleExtLow, exampleExt, exampleStateKpKi, initState, mapf, PID_VC_FACTOR,
      limitf, outlimit, integrallimit]
    norm_num

/-! ### The integral step of the midpoint build -/

theorem gainsOnly_lasterror {s t : State K} (h : GainsOnly s t) :
    t.lasterror = s.lasterror := by
  obtain ⟨_, _, _, _, rfl⟩ := h
  rfl

theorem pid_pre_lasterror (cfg : Config K) (e : Ext K) (s : State K) (x : Fin 3) :
    (pid_pre cfg e s x).lasterror = s.lasterror := by
  have h3 : ∀ t : State K, (pid_transient cfg e t x).lasterror = t.lasterror := by
    intro t
    unfold pid_transient
    dsimp only
    split_ifs <;> rfl
  unfold pid_pre
  rw [h3, gainsOnly_lasterror (pid_analog_gainsOnly cfg e _), pid_decay_eq]

theorem decay_factor_of_onground (cfg : Config K) (e : Ext K) (h : e.onground ≠ 0) :
    decay_cond cfg e = true ∧ decay_factor cfg e = 0.98 := by
  have hc : decay_cond cfg e = true := by
    unfold decay_cond
    split_ifs <;> simp [h]
  exact ⟨hc, by unfold decay_factor; rw [hc]; simp⟩

/-- C16: in the build with the midpoint rule alone, when the windup flag is not set,
`pid(x)` leaves `ierror[x]` equal to the clamp to `±integrallimit[x]` of
`d * I + 0.5 * (error[x] + lasterror[x]) * pidki[x] * looptime`, where `I` is the prior
integral, `d` is 0.98 under the decay condition and 1 otherwise, and `pidki[x]` is the gain
read at line 330 (the prior gain unless the analog-aux tuning rewrites it); it sets
`lasterror[x] = error[x]`; and the decay applies whenever `onground` is set, in either
mode. -/
theorem pid_midpoint_integral_step (cfg : Config K) (e : Ext K) (s : State K) (x : Fin 3)
    (hM : cfg.MIDPOINT_RULE_INTEGRAL = true) (hR : cfg.RECTANGULAR_RULE_INTEGRAL = false)
    (hS : cfg.SIMPSON_RULE_INTEGRAL = false)
    (hw : pid_iwindup cfg e (pid_pre cfg e s x) x = false) :
    (pid cfg e s x).2.ierror x
        = limitf (decay_factor cfg e * s.ierror x
            + 0.5 * (e.error x + s.lasterror x) * (pid_pre cfg e s x).pidki x * e.looptime)
          (integrallimit x) ∧
    (pid cfg e s x).2.lasterror x = e.error x ∧
    (analog_changed cfg e = false → (pid_pre cfg e s x).pidki x = s.pidki x) ∧
    decay_factor cfg e = (if decay_cond cfg e then 0.98 else 1) ∧
    decay_cond cfg e
      = (if e.aux cfg.LEVELMODE ≠ 0 ∧ ¬ (e.aux cfg.RACEMODE ≠ 0) then
          decide (e.onground ≠ 0 ∨ e.in_air = 0)
        else decide (e.onground ≠ 0)) ∧
    (e.onground ≠ 0 → decay_factor cfg e = 0.98) := by
  obtain ⟨j1, j2⟩ := pid_integrate_midpoint cfg e (pid_pre cfg e s x) x hM hR hS
  refine ⟨?_, ?_, ?_, rfl, rfl, fun h => (decay_factor_of_onground cfg e h).2⟩
  · rw [pid_ierror, pid_integral_eq, hw]
    simp only [Bool.false_eq_true, if_false, Function.update_same]
    rw [j1, pid_pre_ierror, pid_pre_lasterror, Function.update_same]
    congr 1
    ring
  · rw [(derivOnly_gains (pid_derivOnly cfg e s x)).2.2.2.2.1, pid_integral_eq, hw]
    simp only [Bool.false_eq_true, if_false]
    exact j2
  · intro ha
    rw [(integratorOnly_gains (pid_pre_integratorOnly cfg e s x ha)).2.1]

/-- Witness for C16: roll on the ground in level mode, prior integral 0.1, `ki = 2`,
error 1, loop time 1 ms: the integral becomes `0.98 * 0.1 + 0.5 * 1 * 2 * 0.001 = 0.099`. -/
theorem pid_midpoint_integral_step_witness :
    pid_iwindup exampleConfig exampleExtLevelGround
      (pid_pre exampleConfig exampleExtLevelGround exampleStatePI 0) 0 = false ∧
    (pid exampleConfig exampleExtLevelGround exampleStatePI 0).2.ierror 0 = 0.099 := by
  have hw : pid_iwindup exampleConfig exampleExtLevelGround
      (pid_pre exampleConfig exampleExtLevelGround exampleStatePI 0) 0 = false := by
    simp [pid_iwindup, pid_pre, pid_decay, pid_analog, pid_transient, exampleConfig,
      exampleExtLevelGround, exampleExt, exampleStatePI, initState, outlimit]
    norm_num
  have h := (pid_midpoint_integral_step exampleConfig exampleExtLevelGround exampleStatePI 0
    rfl rfl rfl hw).1
  refine ⟨hw, ?_⟩
  rw [h]
  simp [decay_factor, decay_cond, pid_pre, pid_decay, pid_analog, pid_transient, exampleConfig,
    exampleExtLevelGround, exampleExt, exampleStatePI, initState, limitf, integrallimit]
  norm_num

/-! ### The second-order filter as a cascade -/

theorem lpf2_value (cfg : Config K) (s : State K) (v : K) (num : Fin 3) :
    (lpf2 cfg s v num).1
        = v * lpf2_alpha cfg ^ 2 + 2 * (1 - lpf2_alpha cfg) * s.last_out num
          - (1 - lpf2_alpha cfg) ^ 2 * s.last_out2 num ∧
    (lpf2 cfg s v num).2.last_out num = (lpf2 cfg s v num).1 ∧
    (lpf2 cfg s v num).2.last_out2 num = s.last_out num := by
  refine ⟨?_, ?_, ?_⟩
  · simp only [lpf2, lpf2_alpha]
    ring
  · simp [lpf2]
  · simp [lpf2]

theorem lpf2_run_cascade (cfg : Config K) (num : Fin 3) (xs : List K) (s : State K) (u : K)
    (h : lpf2_alpha cfg * u
      = s.last_out num - (1 - lpf2_alpha cfg) * s.last_out2 num) :
    lpf2_run cfg num xs s = cascade_run (lpf2_alpha cfg) xs u (s.last_out num) := by
  induction xs generalizing s u with
  | nil => rfl
  | cons v vs ih =>
    obtain ⟨h1, h2, h3⟩ := lpf2_value cfg s v num
    have hy : (lpf2 cfg s v num).1
        = first_order_step (lpf2_alpha cfg) (s.last_out num)
            (first_order_step (lpf2_alpha cfg) u v) := by
      rw [h1]
      unfold first_order_step
      linear_combination -(1 - lpf2_alpha cfg) * h
    have hnext := ih (lpf2 cfg s v num).2 (first_order_step (lpf2_alpha cfg) u v) (by
      rw [h2, h3, hy]
      unfold first_order_step
      ring)
    show (lpf2 cfg s v num).1 :: lpf2_run cfg num vs (lpf2 cfg s v num).2 = _
    rw [hnext, h2, hy]
    rfl

/-- C17: `lpf2` computes `y = x*alpha^2 + 2*(1-alpha)*y_prev - (1-alpha)^2*y_prev2` with
`alpha = 1 - FILTERCALC(0.001, 1/DTERM_LPF_2ND_HZ)`, and from the zero state of a channel
its outputs, for every input sequence, are the outputs of two cascaded first-order
filters `y <- y + alpha*(x - y)`, each starting from zero. -/
theorem lpf2_is_cascade (cfg : Config K) (num : Fin 3) (s : State K) (xs : List K)
    (h1 : s.last_out num = 0) (h2 : s.last_out2 num = 0) :
    (∀ (t : State K) (v : K), (lpf2 cfg t v num).1
      = v * lpf2_alpha cfg ^ 2 + 2 * (1 - lpf2_alpha cfg) * t.last_out num
        - (1 - lpf2_alpha cfg) ^ 2 * t.last_out2 num) ∧
    lpf2_run cfg num xs s = cascade_run (lpf2_alpha cfg) xs 0 0 := by
  refine ⟨fun t v => (lpf2_value cfg t v num).1, ?_⟩
  have h := lpf2_run_cascade cfg num xs s 0 (by rw [h1, h2]; ring)
  rw [h1] at h
  exact h

/-- Witness for C17: with `alpha = 0.5` the inputs 1, 2, 3 give the outputs 0.25, 0.75 and
1.4375 from `lpf2` and from the cascade. -/
theorem lpf2_is_cascade_witness :
    lpf2_run exampleConfigFilter 0 [1, 2, 3] (initState exampleConfigFilter)
      = cascade_run (lpf2_alpha exampleConfigFilter) [1, 2, 3] 0 0 ∧
    lpf2_run exampleConfigFilter 0 [1, 2, 3] (initState exampleConfigFilter)
      = [0.25, 0.75, 1.4375] := by
  have h := (lpf2_is_cascade exampleConfigFilter 0 (initState exampleConfigFilter) [1, 2, 3]
    rfl rfl).2
  refine ⟨h, ?_⟩
  rw [h]
  simp [cascade_run, first_order_step, lpf2_alpha, exampleConfigFilter]
  norm_num

/-! ### Midpoint and rectangular rule on a step input -/

theorem pid_run_append (cfg : Config K) (x : Fin 3) (es fs : List (Ext K)) (s : State K) :
    pid_run cfg x (es ++ fs) s = pid_run cfg x fs (pid_run cfg x es s) := by
  induction es generalizing s with
  | nil => rfl
  | cons e es ih => exact ih _

theorem quiet_run_append (cfg : Config K) (x : Fin 3) (es fs : List (Ext K)) (s : State K)
    (h : quiet_run cfg x (es ++ fs) s) :
    quiet_run cfg x es s ∧ quiet_run cfg x fs (pid_run cfg x es s) := by
  induction es generalizing s with
  | nil => exact ⟨trivial, h⟩
  | cons e es ih =>
    obtain ⟨h1, h2⟩ := h
    obtain ⟨h3, h4⟩ := ih _ h2
    exact ⟨⟨h1, h3⟩, h4⟩

theorem pid_integrate_rectangular (cfg : Config K) (e : Ext K) (s : State K) (x : Fin 3)
    (hM : cfg.MIDPOINT_RULE_INTEGRAL = false) (hR : cfg.RECTANGULAR_RULE_INTEGRAL = true)
    (hS : cfg.SIMPSON_RULE_INTEGRAL = false) :
    (pid_integrate cfg e s x).ierror x = s.ierror x + e.error x * s.pidki x * e.looptime ∧
    (pid_integrate cfg e s x).lasterror x = e.error x := by
  unfold pid_integrate
  rw [hM, hR, hS]
  simp

theorem quiet_tick_pre (cfg : Config K) (e : Ext K) (s : State K) (x : Fin 3)
    (hq : quiet_tick cfg e s x) :
    (pid_pre cfg e s x).ierror x = s.ierror x ∧ (pid_pre cfg e s x).lasterror x = s.lasterror x ∧
    (pid_pre cfg e s x).pidki x = s.pidki x := by
  obtain ⟨-, -, hd, ha⟩ := hq
  refine ⟨?_, ?_, ?_⟩
  · rw [pid_pre_ierror, Function.update_same]
    unfold decay_factor
    rw [hd]
    simp
  · rw [pid_pre_lasterror]
  · rw [(integratorOnly_gains (pid_pre_integratorOnly cfg e s x ha)).2.1]

theorem quiet_tick_result (cfg : Config K) (e : Ext K) (s : State K) (x : Fin 3)
    (hq : quiet_tick cfg e s x) :
    (pid cfg e s x).2.ierror x = (pid_integrate cfg e (pid_pre cfg e s x) x).ierror x ∧
    (pid cfg e s x).2.lasterror x = (pid_integrate cfg e (pid_pre cfg e s x) x).lasterror x ∧
    (pid cfg e s x).2.pidki x = s.pidki x := by
  obtain ⟨hw, hc, hd, ha⟩ := hq
  refine ⟨?_, ?_, ?_⟩
  · rw [pid_ierror, pid_integral_eq, hw]
    simp only [Bool.false_eq_true, if_false, Function.update_same]
    exact limitf_of_abs_le _ _ hc
  · rw [(derivOnly_gains (pid_derivOnly cfg e s x)).2.2.2.2.1, pid_integral_eq, hw]
    simp only [Bool.false_eq_true, if_false]
  · rw [(pid_gains cfg e s x ha).2.1]

theorem quiet_tick_midpoint (cfg : Config K) (e : Ext K) (s : State K) (x : Fin 3)
    (hM : cfg.MIDPOINT_RULE_INTEGRAL = true) (hR : cfg.RECTANGULAR_RULE_INTEGRAL = false)
    (hS : cfg.SIMPSON_RULE_INTEGRAL = false) (hq : quiet_tick cfg e s x) :
    (pid cfg e s x).2.ierror x
        = s.ierror x + (e.error x + s.lasterror x) * 0.5 * s.pidki x * e.looptime ∧
    (pid cfg e s x).2.lasterror x = e.error x ∧ (pid cfg e s x).2.pidki x = s.pidki x := by
  obtain ⟨r1, r2, r3⟩ := quiet_tick_result cfg e s x hq
  obtain ⟨p1, p2, p3⟩ := quiet_tick_pre cfg e s x hq
  obtain ⟨j1, j2⟩ := pid_integrate_midpoint cfg e (pid_pre cfg e s x) x hM hR hS
  exact ⟨by rw [r1, j1, p1, p2, p3], by rw [r2, j2], r3⟩

theorem quiet_tick_rectangular (cfg : Config K) (e : Ext K) (s : State K) (x : Fin 3)
    (hM : cfg.MIDPOINT_RULE_INTEGRAL = false) (hR : cfg.RECTANGULAR_RULE_INTEGRAL = true)
    (hS : cfg.SIMPSON_RULE_INTEGRAL = false) (hq : quiet_tick cfg e s x) :
    (pid cfg e s x).2.ierror x = s.ierror x + e.error x * s.pidki x * e.looptime ∧
    (pid cfg e s x).2.lasterror x = e.error x ∧ (pid cfg e s x).2.pidki x = s.pidki x := by
  obtain ⟨r1, r2, r3⟩ := quiet_tick_result cfg e s x hq
  obtain ⟨p1, p2, p3⟩ := quiet_tick_pre cfg e s x hq
  obtain ⟨j1, j2⟩ := pid_integrate_rectangular cfg e (pid_pre cfg e s x) x hM hR hS
  exact ⟨by rw [r1, j1, p1, p3], by rw [r2, j2], r3⟩

/-- After a quiet run in a build with the midpoint rule alone or the rectangular rule
alone, the gain `pidki[x]` is the initial one and `lasterror[x]` is the error of the last
tick (the initial `lasterror[x]` after no tick), provided all ticks have the error `err`
and the initial `lasterror[x]` is `err` when there is no tick. -/
theorem quiet_run_lasterror (cfg : Config K) (x : Fin 3) (err : K) (es : List (Ext K))
    (s : State K)
    (hrule : (cfg.MIDPOINT_RULE_INTEGRAL = true ∧ cfg.RECTANGULAR_RULE_INTEGRAL = false) ∨
      (cfg.MIDPOINT_RULE_INTEGRAL = false ∧ cfg.RECTANGULAR_RULE_INTEGRAL = true))
    (hS : cfg.SIMPSON_RULE_INTEGRAL = false)
    (hes : ∀ e ∈ es, e.error x = err) (hq : quiet_run cfg x es s)
    (h0 : es = [] → s.lasterror x = err) :
    (pid_run cfg x es s).lasterror x = err ∧ (pid_run cfg x es s).pidki x = s.pidki x := by
  induction es generalizing s with
  | nil => exact ⟨h0 rfl, rfl⟩
  | cons e es ih =>
    obtain ⟨hq1, hq2⟩ := hq
    have he := hes e (List.mem_cons_self e es)
    have hstep : (pid cfg e s x).2.lasterror x = err ∧ (pid cfg e s x).2.pidki x = s.pidki x := by
      rcases hrule with ⟨hM, hR⟩ | ⟨hM, hR⟩
      · obtain ⟨-, a2, a3⟩ := quiet_tick_midpoint cfg e s x hM hR hS hq1
        exact ⟨a2.trans he, a3⟩
      · obtain ⟨-, a2, a3⟩ := quiet_tick_rectangular cfg e s x hM hR hS hq1
        exact ⟨a2.trans he, a3⟩
    obtain ⟨i1, i2⟩ := ih (pid cfg e s x).2 (fun e' he' => hes e' (List.mem_cons_of_mem e he'))
      hq2 (fun _ => hstep.1)
    exact ⟨i1, i2.trans hstep.2⟩

/-- C18: the builds with the midpoint rule alone (`cfgM`) and with the rectangular rule
alone (`cfgR`) run from a state with zero `lasterror[x]` on the same inputs: first ticks
with error 0, then ticks with the constant error `err ≠ 0`, with `ki ≠ 0` and the loop time
`dt` on the tick considered, all ticks quiet in both builds (no windup, no clamp reached, no
decay).  The rectangular increment of `ierror[x]` on a tick of the step is `err * ki * dt`;
on the first tick of the step the midpoint increment is half of it, and differs from it
(for a loop time that is not zero); on every later tick the two increments are equal. -/
theorem integral_rules_on_step (cfgM cfgR : Config K) (x : Fin 3) (s0 : State K)
    (err ki dt : K) (es0 pre : List (Ext K)) (e : Ext K)
    (hM1 : cfgM.MIDPOINT_RULE_INTEGRAL = true) (hM2 : cfgM.RECTANGULAR_RULE_INTEGRAL = false)
    (hM3 : cfgM.SIMPSON_RULE_INTEGRAL = false)
    (hR1 : cfgR.MIDPOINT_RULE_INTEGRAL = false) (hR2 : cfgR.RECTANGULAR_RULE_INTEGRAL = true)
    (hR3 : cfgR.SIMPSON_RULE_INTEGRAL = false)
    (hl0 : s0.lasterror x = 0) (hki : s0.pidki x = ki)
    (hes0 : ∀ e2 ∈ es0, e2.error x = 0) (hpre : ∀ e2 ∈ pre, e2.error x = err)
    (he : e.error x = err) (hdt : e.looptime = dt)
    (hqM : quiet_run cfgM x (es0 ++ pre ++ [e]) s0)
    (hqR : quiet_run cfgR x (es0 ++ pre ++ [e]) s0)
    (herr : err ≠ 0) (hk : ki ≠ 0) :
    (pid cfgR e (pid_run cfgR x (es0 ++ pre) s0) x).2.ierror x
        - (pid_run cfgR x (es0 ++ pre) s0).ierror x = err * ki * dt ∧
    (pre = [] →
      (pid cfgM e (pid_run cfgM x (es0 ++ pre) s0) x).2.ierror x
          - (pid_run cfgM x (es0 ++ pre) s0).ierror x = err * ki * dt / 2 ∧
      (dt ≠ 0 →
        (pid cfgM e (pid_run cfgM x (es0 ++ pre) s0) x).2.ierror x
            - (pid_run cfgM x (es0 ++ pre) s0).ierror x
          ≠ (pid cfgR e (pid_run cfgR x (es0 ++ pre) s0) x).2.ierror x
            - (pid_run cfgR x (es0 ++ pre) s0).ierror x)) ∧
    (pre ≠ [] →
      (pid cfgM e (pid_run cfgM x (es0 ++ pre) s0) x).2.ierror x
          - (pid_run cfgM x (es0 ++ pre) s0).ierror x
        = (pid cfgR e (pid_run cfgR x (es0 ++ pre) s0) x).2.ierror x
          - (pid_run cfgR x (es0 ++ pre) s0).ierror x) := by
  -- split the quiet runs
  obtain ⟨hqM1, hqMe⟩ := quiet_run_append cfgM x (es0 ++ pre) [e] s0 hqM
  obtain ⟨hqR1, hqRe⟩ := quiet_run_append cfgR x (es0 ++ pre) [e] s0 hqR
  obtain ⟨hqM0, hqMp⟩ := quiet_run_append cfgM x es0 pre s0 hqM1
  obtain ⟨hqR0, hqRp⟩ := quiet_run_append cfgR x es0 pre s0 hqR1
  -- the state before the step
  obtain ⟨aM1, aM2⟩ := quiet_run_lasterror cfgM x 0 es0 s0 (Or.inl ⟨hM1, hM2⟩) hM3 hes0 hqM0
    (fun _ => hl0)
  obtain ⟨aR1, aR2⟩ := quiet_run_lasterror cfgR x 0 es0 s0 (Or.inr ⟨hR1, hR2⟩) hR3 hes0 hqR0
    (fun _ => hl0)
  -- the two increments on the tick considered
  obtain ⟨m1, -, -⟩ := quiet_tick_midpoint cfgM e _ x hM1 hM2 hM3 hqMe.1
  obtain ⟨r1, -, -⟩ := quiet_tick_rectangular cfgR e _ x hR1 hR2 hR3 hqRe.1
  have hkiM : (pid_run cfgM x (es0 ++ pre) s0).pidki x = ki := by
    rw [pid_run_append]
    by_cases hp : pre = []
    · subst hp
      exact aM2.trans hki
    · exact ((quiet_run_lasterror cfgM x err pre _ (Or.inl ⟨hM1, hM2⟩) hM3 hpre hqMp
        (fun h => absurd h hp)).2.trans aM2).trans hki
  have hkiR : (pid_run cfgR x (es0 ++ pre) s0).pidki x = ki := by
    rw [pid_run_append]
    by_cases hp : pre = []
    · subst hp
      exact aR2.trans hki
    · exact ((quiet_run_lasterror cfgR x err pre _ (Or.inr ⟨hR1, hR2⟩) hR3 hpre hqRp
        (fun h => absurd h hp)).2.trans aR2).trans hki
  have hincR : (pid cfgR e (pid_run cfgR x (es0 ++ pre) s0) x).2.ierror x
      - (pid_run cfgR x (es0 ++ pre) s0).ierror x = err * ki * dt := by
    rw [r1, hkiR, he, hdt]
    ring
  have hincM : (pid cfgM e (pid_run cfgM x (es0 ++ pre) s0) x).2.ierror x
      - (pid_run cfgM x (es0 ++ pre) s0).ierror x
      = (err + (pid_run cfgM x (es0 ++ pre) s0).lasterror x) * 0.5 * ki * dt := by
    rw [m1, hkiM, he, hdt]
    ring
  refine ⟨hincR, fun hp => ?_, fun hp => ?_⟩
  · have hl : (pid_run cfgM x (es0 ++ pre) s0).lasterror x = 0 := by
      subst hp
      rw [List.append_nil]
      exact aM1
    have h2 : (pid cfgM e (pid_run cfgM x (es0 ++ pre) s0) x).2.ierror x
        - (pid_run cfgM x (es0 ++ pre) s0).ierror x = err * ki * dt / 2 := by
      rw [hincM, hl]
      norm_num
      ring
    refine ⟨h2, fun hdt0 => ?_⟩
    rw [h2, hincR]
    intro heq
    have hc : err * ki * dt ≠ 0 := mul_ne_zero (mul_ne_zero herr hk) hdt0
    apply hc
    linarith
  · have hl : (pid_run cfgM x (es0 ++ pre) s0).lasterror x = err := by
      rw [pid_run_append]
      exact (quiet_run_lasterror cfgM x err pre _ (Or.inl ⟨hM1, hM2⟩) hM3 hpre hqMp
        (fun h => absurd h hp)).1
    rw [hincM, hincR, hl]
    have h5 : (0.5 : K) = 1 / 2 := by norm_num
    rw [h5]
    ring

theorem example_quiet_midpoint :
    quiet_run exampleConfig 2 ([exampleExtZero] ++ [] ++ [exampleExt]) exampleStateI := by
  simp [quiet_run, quiet_tick, pid, pid_pre, pid_limit, pid_d, pid_pi, pid_pterm, pid_integral,
    pid_decay, pid_analog, pid_transient, pid_iwindup, pid_integrate, decay_cond, analog_changed,
    exampleConfig, exampleExtZero, exampleExt, exampleStateI, initState, limitf, outlimit,
    integrallimit]
  norm_num [abs_le]

theorem example_quiet_rectangular :
    quiet_run exampleConfigRect 2 ([exampleExtZero] ++ [] ++ [exampleExt]) exampleStateI := by
  simp [quiet_run, quiet_tick, pid, pid_pre, pid_limit, pid_d, pid_pi, pid_pterm, pid_integral,
    pid_decay, pid_analog, pid_transient, pid_iwindup, pid_integrate, decay_cond, analog_changed,
    exampleConfigRect, exampleConfig, exampleExtZero, exampleExt, exampleStateI, initState,
    limitf, outlimit, integrallimit]
  norm_num [abs_le]

/-- Witness for C18: yaw, `ki = 1.0`, `dt = 0.001`, one tick with error 0 and then the first
tick with error 0.5: the rectangular rule adds 0.0005 and the midpoint rule adds 0.00025. -/
theorem integral_rules_on_step_witness :
    (pid exampleConfigRect exampleExt
        (pid_run exampleConfigRect 2 ([exampleExtZero] ++ []) exampleStateI) 2).2.ierror 2
      - (pid_run exampleConfigRect 2 ([exampleExtZero] ++ []) exampleStateI).ierror 2 = 0.0005 ∧
    (pid exampleConfig exampleExt
        (pid_run exampleConfig 2 ([exampleExtZero] ++ []) exampleStateI) 2).2.ierror 2
      - (pid_run exampleConfig 2 ([exampleExtZero] ++ []) exampleStateI).ierror 2 = 0.00025 := by
  have h := integral_rules_on_step exampleConfig exampleConfigRect 2 exampleStateI 0.5 1 0.001
    [exampleExtZero] [] exampleExt rfl rfl rfl rfl rfl rfl rfl
    (by norm_num [exampleStateI, initState])
    (fun e2 h2 => by
      have : e2 = exampleExtZero := by simpa using h2
      subst this
      norm_num [exampleExtZero])
    (fun e2 h2 => absurd h2 (List.not_mem_nil _))
    (by norm_num [exampleExt]) (by norm_num [exampleExt])
    example_quiet_midpoint example_quiet_rectangular (by norm_num) (by norm_num)
  refine ⟨?_, ?_⟩
  · rw [h.1]
    norm_num
  · rw [(h.2.1 rfl).1]
    norm_num

/-! ### Stick accelerator and stick transition -/

theorem stick_weight_eq (cfg : Config K) (e : Ext K) (s : State K) (x : Fin 3) :
    stick_weight cfg e s x
      = (stick_accelerator cfg e s x,
          transition_weight (stick_accelerator cfg e s x) (stick_transition cfg e s x)
            (e.rxcopy x.castSucc)) := rfl

theorem transition_weight_zero (a r : K) : transition_weight a 0 r = 1 := by
  unfold transition_weight
  split_ifs <;> simp

theorem advanced_dterm_of_transition_zero (cfg : Config K) (e : Ext K) (s : State K)
    (x : Fin 3) (ht : stick_transition cfg e s x = 0) :
    advanced_dterm cfg e s x
      = s.pidkd x * s.timefactor * (stick_accelerator cfg e s x
          * (e.setpoint x - s.lastsetpoint x) - (e.gyro x - s.lastrate_lpf x)) := by
  unfold advanced_dterm
  rw [stick_weight_eq]
  dsimp only
  rw [ht, transition_weight_zero]
  ring

/-- C19: in a build with `ADVANCED_PID_CONTROLLER`, with `pidkd[x] > 0`, the stick
transition of the active profile 0 and its stick accelerator `a`, the raw D term is
`pidkd[x] * timefactor * (a * (setpoint[x] - lastsetpoint[x]) - (gyro[x] - lastrate[x]))`,
for every `a` and every stick position, and it is the value handed to the first-order
filter `lpf` and to the second-order filter `lpf2`.  For `a = 0` it is the measurement-based
D term of the build without `ADVANCED_PID_CONTROLLER`, which computes the same filtered
value and the same output; for `a = 1` it is `(error - previous error) * pidkd[x] * timefactor` with
`error = setpoint - gyro`. -/
theorem advanced_dterm_meaning (cfg : Config K) (e : Ext K) (s : State K) (x : Fin 3) (a : K)
    (hadv : cfg.ADVANCED_PID_CONTROLLER = true) (hkd : s.pidkd x > 0)
    (ha : stick_accelerator cfg e s x = a) (ht : stick_transition cfg e s x = 0) :
    advanced_dterm cfg e s x
        = s.pidkd x * s.timefactor
          * (a * (e.setpoint x - s.lastsetpoint x) - (e.gyro x - s.lastrate_lpf x)) ∧
    (∀ hz, cfg.DTERM_LPF_1ST_HZ = some hz →
      (dterm_lpf_1st cfg e s x).dlpf x
        = lpf (s.dlpf x) (s.pidkd x * s.timefactor
            * (a * (e.setpoint x - s.lastsetpoint x) - (e.gyro x - s.lastrate_lpf x)))
          (cfg.FILTERCALC 0.001 (1.0 / hz))) ∧
    (∀ hz, cfg.DTERM_LPF_2ND_HZ = some hz →
      (dterm_lpf_2nd cfg e s x).last_out x
        = (lpf2 cfg s (s.pidkd x * s.timefactor
            * (a * (e.setpoint x - s.lastsetpoint x) - (e.gyro x - s.lastrate_lpf x))) x).1) ∧
    (a = 0 →
      advanced_dterm cfg e s x = -(e.gyro x - s.lastrate_lpf x) * s.pidkd x * s.timefactor ∧
      (dterm_lpf_1st cfg e s x).dlpf x
        = (dterm_lpf_1st { cfg with ADVANCED_PID_CONTROLLER := false } e s x).dlpf x ∧
      (dterm_lpf_1st cfg e s x).pidoutput x
        = (dterm_lpf_1st { cfg with ADVANCED_PID_CONTROLLER := false } e s x).pidoutput x ∧
      (dterm_lpf_2nd cfg e s x).pidoutput x
        = (dterm_lpf_2nd { cfg with ADVANCED_PID_CONTROLLER := false } e s x).pidoutput x) ∧
    (a = 1 →
      advanced_dterm cfg e s x
        = ((e.setpoint x - e.gyro x) - (s.lastsetpoint x - s.lastrate_lpf x))
          * s.pidkd x * s.timefactor) := by
  have h1 := advanced_dterm_of_transition_zero cfg e s x ht
  rw [ha] at h1
  have hL1 : ∀ hz, cfg.DTERM_LPF_1ST_HZ = some hz →
      (dterm_lpf_1st cfg e s x).dlpf x
        = lpf (s.dlpf x) (advanced_dterm cfg e s x) (cfg.FILTERCALC 0.001 (1.0 / hz)) ∧
      (dterm_lpf_1st cfg e s x).pidoutput x
        = s.pidoutput x
          + lpf (s.dlpf x) (advanced_dterm cfg e s x) (cfg.FILTERCALC 0.001 (1.0 / hz)) := by
    intro hz h
    unfold dterm_lpf_1st
    rw [h]
    simp [hadv, hkd]
  have hL2 : ∀ hz, cfg.DTERM_LPF_2ND_HZ = some hz →
      (dterm_lpf_2nd cfg e s x).last_out x = (lpf2 cfg s (advanced_dterm cfg e s x) x).1 ∧
      (dterm_lpf_2nd cfg e s x).pidoutput x
        = s.pidoutput x + (lpf2 cfg s (advanced_dterm cfg e s x) x).1 := by
    intro hz h
    unfold dterm_lpf_2nd
    rw [h]
    simp [hadv, hkd, lpf2]
  refine ⟨h1, fun hz h => ?_, fun hz h => ?_, fun ha0 => ?_, fun ha1 => ?_⟩
  · rw [(hL1 hz h).1, h1]
  · rw [(hL2 hz h).1, h1]
  · have hraw : advanced_dterm cfg e s x
        = -(e.gyro x - s.lastrate_lpf x) * s.pidkd x * s.timefactor := by
      rw [h1, ha0]
      ring
    refine ⟨hraw, ?_, ?_, ?_⟩
    · cases h : cfg.DTERM_LPF_1ST_HZ with
      | none => simp [dterm_lpf_1st, h]
      | some hz =>
        rw [(hL1 hz h).1, hraw]
        simp [dterm_lpf_1st, h]
    · cases h : cfg.DTERM_LPF_1ST_HZ with
      | none => simp [dterm_lpf_1st, h]
      | some hz =>
        rw [(hL1 hz h).2, hraw]
        simp [dterm_lpf_1st, h]
    · cases h : cfg.DTERM_LPF_2ND_HZ with
      | none => simp [dterm_lpf_2nd, h]
      | some hz =>
        rw [(hL2 hz h).2, hraw]
        simp [dterm_lpf_2nd, h, hkd, lpf2]
  · rw [h1, ha1]
    ring

/-- Witness for C19: roll with `pidkd = 0.5`, `timefactor = 1`, profile A with accelerator 0
and transition 0, gyro 0 and previous rate 7: the raw D term is `0.5 * 1 * 7 = 3.5`. -/
theorem advanced_dterm_meaning_witness :
    exampleStatePID.pidkd 0 > 0 ∧
    stick_transition exampleConfigAdv exampleExt exampleStatePID 0 = 0 ∧
    advanced_dterm exampleConfigAdv exampleExt exampleStatePID 0 = 3.5 := by
  have hkd : exampleStatePID.pidkd 0 > 0 := by norm_num [exampleStatePID]
  have ha : stick_accelerator exampleConfigAdv exampleExt exampleStatePID 0 = 0 := by
    simp [stick_accelerator, exampleExt, exampleStatePID, initState]
    norm_num
  have ht : stick_transition exampleConfigAdv exampleExt exampleStatePID 0 = 0 := by
    simp [stick_transition, exampleExt, exampleStatePID, initState]
    norm_num
  refine ⟨hkd, ht, ?_⟩
  rw [(advanced_dterm_meaning exampleConfigAdv exampleExt exampleStatePID 0 0 rfl hkd ha ht).1]
  norm_num [exampleExt, exampleStatePID]

/-- Amended C20: for the stick accelerator `a ≥ 0` and the stick transition `t` in `(0, 1]`,
the effective stick acceleration `a * transitionSetpointWeight` is `a * (1 - t)` at stick
centre and is largest at full stick deflection, where it equals `a` when `a ≤ 1` and
`a - t * (a - 1)` when `a ≥ 1`; the weight is that of lines 417-421 of `pid`. -/
theorem stick_transition_meaning (a t : K) (ha : 0 ≤ a) (ht0 : 0 < t) (ht1 : t ≤ 1) :
    (∀ (cfg : Config K) (e : Ext K) (s : State K) (x : Fin 3),
      stick_accelerator cfg e s x = a → stick_transition cfg e s x = t →
      (stick_weight cfg e s x).2 = transition_weight a t (e.rxcopy x.castSucc)) ∧
    a * transition_weight a t 0 = a * (1 - t) ∧
    (∀ r : K, |r| = 1 → a ≤ 1 → a * transition_weight a t r = a) ∧
    (∀ r : K, |r| = 1 → 1 ≤ a → a * transition_weight a t r = a - t * (a - 1)) ∧
    (∀ r1 r2 : K, |r1| ≤ |r2| → a * transition_weight a t r1 ≤ a * transition_weight a t r2) := by
  refine ⟨?_, ?_, ?_, ?_, ?_⟩
  · intro cfg e s x h1 h2
    rw [stick_weight_eq, h1, h2]
  · unfold transition_weight
    split_ifs <;> simp
  · intro r hr ha1
    unfold transition_weight
    rw [hr]
    split_ifs with h
    · ring
    · have : a = 1 := le_antisymm ha1 (not_lt.mp h)
      subst this
      ring
  · intro r hr ha1
    unfold transition_weight
    rw [hr, if_neg (not_lt.mpr ha1)]
    have : a ≠ 0 := by
      intro h
      rw [h] at ha1
      exact absurd ha1 (by norm_num)
    field_simp
    ring
  · intro r1 r2 hr
    refine mul_le_mul_of_nonneg_left ?_ ha
    unfold transition_weight
    split_ifs with h
    · have := mul_le_mul_of_nonneg_right hr (le_of_lt ht0)
      linarith
    · have h1 : 0 ≤ t / a := div_nonneg (le_of_lt ht0) ha
      have := mul_le_mul_of_nonneg_right hr h1
      linarith

/-- Witness for amended C20: `a = 2`, `t = 0.5`: the effective acceleration is 1 at stick
centre and 1.5 at full stick. -/
theorem stick_transition_meaning_witness :
    (2 : ℚ) * transition_weight 2 0.5 0 = 1 ∧ (2 : ℚ) * transition_weight 2 0.5 1 = 1.5 := by
  obtain ⟨-, h2, -, h4, -⟩ := stick_transition_meaning (2 : ℚ) 0.5 (by norm_num) (by norm_num)
    (by norm_num)
  refine ⟨?_, ?_⟩
  · rw [h2]
    norm_num
  · rw [h4 1 (by norm_num) (by norm_num)]
    norm_num

/-- Counterexample to C20 as stated: with the stick accelerator `a = 2` in `[0, 2.5]` and the
stick transition `t = 0.5` in `(0, 1]` on roll, at full stick deflection `|rxcopy[0]| = 1`
the effective stick acceleration `a * transitionSetpointWeight` is 1.5, not `a = 2`. -/
theorem stick_transition_counterexample :
    stick_accelerator exampleConfigAdv exampleExtFullStick exampleStateStick 0 = 2 ∧
    stick_transition exampleConfigAdv exampleExtFullStick exampleStateStick 0 = 0.5 ∧
    |exampleExtFullStick.rxcopy 0| = 1 ∧
    (stick_weight exampleConfigAdv exampleExtFullStick exampleStateStick 0).1
      * (stick_weight exampleConfigAdv exampleExtFullStick exampleStateStick 0).2 = 1.5 ∧
    (stick_weight exampleConfigAdv exampleExtFullStick exampleStateStick 0).1
      * (stick_weight exampleConfigAdv exampleExtFullStick exampleStateStick 0).2
      ≠ stick_accelerator exampleConfigAdv exampleExtFullStick exampleStateStick 0 := by
  have ha : stick_accelerator exampleConfigAdv exampleExtFullStick exampleStateStick 0 = 2 := by
    simp [stick_accelerator, exampleExtFullStick, exampleExt, exampleStateStick]
  have ht : stick_transition exampleConfigAdv exampleExtFullStick exampleStateStick 0 = 0.5 := by
    simp [stick_transition, exampleExtFullStick, exampleExt, exampleStateStick]
  have hr : |exampleExtFullStick.rxcopy 0| = 1 := by
    simp [exampleExtFullStick]
  have hw : (stick_weight exampleConfigAdv exampleExtFullStick exampleStateStick 0).1
      * (stick_weight exampleConfigAdv exampleExtFullStick exampleStateStick 0).2 = 1.5 := by
    rw [stick_weight_eq]
    dsimp only
    rw [ha, ht]
    have : exampleExtFullStick.rxcopy (0 : Fin 3).castSucc = 1 := by
      simp [exampleExtFullStick]
    rw [this]
    unfold transition_weight
    norm_num
  refine ⟨ha, ht, hr, hw, ?_⟩
  rw [hw, ha]
  norm_num

/-! ### The term selection of the gesture tuning -/

theorem termSelected_init (cfg : Config K) : TermSelected (initState cfg) :=
  Or.inl ⟨rfl, rfl, rfl, rfl⟩

theorem next_pid_term_step (s : State K) (h : TermSelected s) :
    TermSelected (next_pid_term s).2 ∧
    (next_pid_term s).2.current_pid_term = (s.current_pid_term + 1) % 3 ∧
    (next_pid_term s).1 = (next_pid_term s).2.current_pid_term + 1 ∧
    (next_pid_term s).1 = (s.current_pid_term + 1) % 3 + 1 := by
  rcases h with ⟨h0, h1, h2, h3⟩ | ⟨h0, h1, h2, h3⟩ | ⟨h0, h1, h2, h3⟩ <;>
    simp [next_pid_term, TermSelected, h0, wrap_int]

theorem next_pid_term_three (s : State K) (h : TermSelected s) :
    next_pid_term_run 3 s = s := by
  cases s
  rcases h with ⟨h0, h1, h2, h3⟩ | ⟨h0, h1, h2, h3⟩ | ⟨h0, h1, h2, h3⟩ <;>
    simp only at h0 h1 h2 h3 <;> subst h0 h1 h2 h3 <;>
    simp [next_pid_term_run, next_pid_term]

theorem next_pid_term_run_selected (cfg : Config K) (n : ℕ) :
    TermSelected (next_pid_term_run n (initState cfg)) ∧
    (next_pid_term_run n (initState cfg)).current_pid_term = ((n % 3 : ℕ) : Int) := by
  induction n with
  | zero => exact ⟨termSelected_init cfg, rfl⟩
  | succ n ih =>
    obtain ⟨a, b, _, _⟩ := next_pid_term_step _ ih.1
    refine ⟨a, ?_⟩
    show (next_pid_term (next_pid_term_run n (initState cfg))).2.current_pid_term = _
    rw [b, ih.2]
    omega

/-- C21: in every state reached from the initial state by `n` calls of
`next_pid_term()`, `current_pid_term` is 0, 1 or 2 (it is `n mod 3`) and the three tuning
pointers point to the arrays of that term (0: `pidkp`/`pidkp1`/`pidkp2`, 1:
`pidki`/`pidki1`/`pidki2`, 2: `pidkd`/`pidkd1`/`pidkd2`); the next call returns the newly
selected term number `current_pid_term + 1`, which follows the cyclic order
1 -> 2 -> 3 -> 1; and three consecutive calls restore the state. -/
theorem next_pid_term_cycle (cfg : Config K) (n : ℕ) :
    let s := next_pid_term_run n (initState cfg)
    ((s.current_pid_term = 0 ∧ s.current_pid_term_pointer = GainArray.pidkp ∧
        s.current_pid_term_pointer1 = GainArray.pidkp1 ∧
        s.current_pid_term_pointer2 = GainArray.pidkp2) ∨
      (s.current_pid_term = 1 ∧ s.current_pid_term_pointer = GainArray.pidki ∧
        s.current_pid_term_pointer1 = GainArray.pidki1 ∧
        s.current_pid_term_pointer2 = GainArray.pidki2) ∨
      (s.current_pid_term = 2 ∧ s.current_pid_term_pointer = GainArray.pidkd ∧
        s.current_pid_term_pointer1 = GainArray.pidkd1 ∧
        s.current_pid_term_pointer2 = GainArray.pidkd2)) ∧
    s.current_pid_term = ((n % 3 : ℕ) : Int) ∧
    (next_pid_term s).1 = (next_pid_term s).2.current_pid_term + 1 ∧
    (next_pid_term s).2.current_pid_term = (s.current_pid_term + 1) % 3 ∧
    (next_pid_term s).1 = (((n + 1) % 3 : ℕ) : Int) + 1 ∧
    next_pid_term_run 3 s = s ∧
    (next_pid_term (initState cfg)).1 = 2 ∧
    (next_pid_term (next_pid_term_run 1 (initState cfg))).1 = 3 ∧
    (next_pid_term (next_pid_term_run 2 (initState cfg))).1 = 1 := by
  intro s
  obtain ⟨hs, hn⟩ := next_pid_term_run_selected cfg n
  obtain ⟨_, b, c, d⟩ := next_pid_term_step s hs
  refine ⟨hs, hn, c, b, ?_, next_pid_term_three s hs, ?_, ?_, ?_⟩
  · rw [d, hn]
    omega
  · simp [next_pid_term, initState, wrap_int]
  · simp [next_pid_term_run, next_pid_term, initState, wrap_int]
  · simp [next_pid_term_run, next_pid_term, initState, wrap_int]

/-! ### The exact invariant of a single-axis rotation step -/

theorem rot_form_step (e : Ext K) (s : State K) (hy : e.gyro 1 = 0) (hz : e.gyro 2 = 0) :
    (rotateErrors e s).ierror 0 = s.ierror 0 ∧
    rot_form (e.gyro 0 * e.looptime) ((rotateErrors e s).ierror 1) ((rotateErrors e s).ierror 2)
      = rot_form (e.gyro 0 * e.looptime) (s.ierror 1) (s.ierror 2) := by
  obtain ⟨a, b⟩ := rotateErrors_x_axis e s hy hz
  have hb1 := congrArg Prod.fst b
  have hb2 := congrArg Prod.snd b
  simp only [rot_step] at hb1 hb2
  refine ⟨a, ?_⟩
  rw [hb1, hb2]
  unfold rot_form
  ring

theorem rot_form_iterate (e : Ext K) (s : State K) (hy : e.gyro 1 = 0) (hz : e.gyro 2 = 0)
    (n : ℕ) :
    ((rotateErrors e)^[n] s).ierror 0 = s.ierror 0 ∧
    rot_form (e.gyro 0 * e.looptime) (((rotateErrors e)^[n] s).ierror 1)
        (((rotateErrors e)^[n] s).ierror 2)
      = rot_form (e.gyro 0 * e.looptime) (s.ierror 1) (s.ierror 2) := by
  induction n with
  | zero => exact ⟨rfl, rfl⟩
  | succ n ih =>
    rw [Function.iterate_succ_apply']
    obtain ⟨a, b⟩ := rot_form_step e ((rotateErrors e)^[n] s) hy hz
    exact ⟨a.trans ih.1, b.trans ih.2⟩

theorem two_mul_le_abs_mul (t y z : K) :
    2 * (t * y * z) ≤ |t| * (y ^ 2 + z ^ 2) ∧ -(2 * (t * y * z)) ≤ |t| * (y ^ 2 + z ^ 2) := by
  rcases le_total 0 t with h | h
  · rw [abs_of_nonneg h]
    constructor
    · nlinarith [mul_nonneg h (sq_nonneg (y - z))]
    · nlinarith [mul_nonneg h (sq_nonneg (y + z))]
  · rw [abs_of_nonpos h]
    have h2 : 0 ≤ -t := by linarith
    constructor
    · nlinarith [mul_nonneg h2 (sq_nonneg (y + z))]
    · nlinarith [mul_nonneg h2 (sq_nonneg (y - z))]

theorem rot_form_bound (t y z y0 z0 : K) (ht : |t| < 2)
    (h : rot_form t y z = rot_form t y0 z0) :
    y ^ 2 + z ^ 2 ≤ (2 + |t|) / (2 - |t|) * (y0 ^ 2 + z0 ^ 2) := by
  have hpos : 0 < 2 - |t| := by linarith
  obtain ⟨a1, _⟩ := two_mul_le_abs_mul t y z
  obtain ⟨_, b2⟩ := two_mul_le_abs_mul t y0 z0
  unfold rot_form at h
  rw [div_mul_eq_mul_div, le_div_iff₀ hpos]
  nlinarith

/-- C22: with `gyro[1] = gyro[2] = 0` and `theta = gyro[0] * looptime`, every call of
`rotateErrors()` leaves `ierror[0]` unchanged and preserves the quadratic form
`ierror[1]^2 + ierror[2]^2 - theta * ierror[1] * ierror[2]` exactly, and so does every
number of calls with the same `theta`; hence for `|theta| < 2` the integral vector stays
bounded over any number of steps:
`ierror[1]^2 + ierror[2]^2` never exceeds `(2 + |theta|) / (2 - |theta|)` times its
initial value. -/
theorem rotateErrors_quadratic_invariant (e : Ext K) (s : State K)
    (hy : e.gyro 1 = 0) (hz : e.gyro 2 = 0) :
    (rotateErrors e s).ierror 0 = s.ierror 0 ∧
    rot_form (e.gyro 0 * e.looptime) ((rotateErrors e s).ierror 1) ((rotateErrors e s).ierror 2)
      = rot_form (e.gyro 0 * e.looptime) (s.ierror 1) (s.ierror 2) ∧
    (∀ n : ℕ, ((rotateErrors e)^[n] s).ierror 0 = s.ierror 0 ∧
      rot_form (e.gyro 0 * e.looptime) (((rotateErrors e)^[n] s).ierror 1)
          (((rotateErrors e)^[n] s).ierror 2)
        = rot_form (e.gyro 0 * e.looptime) (s.ierror 1) (s.ierror 2)) ∧
    (|e.gyro 0 * e.looptime| < 2 → ∀ n : ℕ,
      ((rotateErrors e)^[n] s).ierror 1 ^ 2 + ((rotateErrors e)^[n] s).ierror 2 ^ 2
        ≤ (2 + |e.gyro 0 * e.looptime|) / (2 - |e.gyro 0 * e.looptime|)
            * (s.ierror 1 ^ 2 + s.ierror 2 ^ 2)) := by
  obtain ⟨a, b⟩ := rot_form_step e s hy hz
  exact ⟨a, b, fun n => rot_form_iterate e s hy hz n,
    fun ht n => rot_form_bound _ _ _ _ _ ht (rot_form_iterate e s hy hz n).2⟩

/-- Witness for C22: a roll rate of 1 rad/s over a loop time of one second (`theta = 1`)
applied to the integral vector `(0.1, 0.2, 0.3)`: the quadratic form keeps its value
0.07 in one call, and after five calls `ierror[1]^2 + ierror[2]^2` is at most
`3 * 0.13 = 0.39`. -/
theorem rotateErrors_quadratic_invariant_witness :
    (exampleExtTurn (1 : ℚ)).gyro 1 = 0 ∧ (exampleExtTurn (1 : ℚ)).gyro 2 = 0 ∧
    |(exampleExtTurn (1 : ℚ)).gyro 0 * (exampleExtTurn (1 : ℚ)).looptime| < 2 ∧
    rot_form 1 ((rotateErrors (exampleExtTurn (1 : ℚ)) exampleStateTurn).ierror 1)
        ((rotateErrors (exampleExtTurn (1 : ℚ)) exampleStateTurn).ierror 2) = 0.07 ∧
    ((rotateErrors (exampleExtTurn (1 : ℚ)))^[5] exampleStateTurn).ierror 1 ^ 2
        + ((rotateErrors (exampleExtTurn (1 : ℚ)))^[5] exampleStateTurn).ierror 2 ^ 2
      ≤ 0.39 := by
  have hy : (exampleExtTurn (1 : ℚ)).gyro 1 = 0 := by simp [exampleExtTurn]
  have hz : (exampleExtTurn (1 : ℚ)).gyro 2 = 0 := by simp [exampleExtTurn]
  have ht : (exampleExtTurn (1 : ℚ)).gyro 0 * (exampleExtTurn (1 : ℚ)).looptime = 1 := by
    simp [exampleExtTurn]
  have hlt : |(exampleExtTurn (1 : ℚ)).gyro 0 * (exampleExtTurn (1 : ℚ)).looptime| < 2 := by
    rw [ht]
    norm_num
  obtain ⟨_, h2, _, h4⟩ :=
    rotateErrors_quadratic_invariant (exampleExtTurn (1 : ℚ)) exampleStateTurn hy hz
  refine ⟨hy, hz, hlt, ?_, ?_⟩
  · rw [ht] at h2
    rw [h2]
    simp [rot_form, exampleStateTurn, initState]
    norm_num
  · have h5 := h4 hlt 5
    rw [ht] at h5
    refine le_trans h5 ?_
    simp [exampleStateTurn, initState]
    norm_num

/-! ### The error history during windup -/

theorem derivOnly_history {s t : State K} (h : DerivOnly s t) :
    t.lasterror = s.lasterror ∧ t.lasterror2 = s.lasterror2 := by
  obtain ⟨_, _, _, _, _, _, _, _, rfl⟩ := h
  exact ⟨rfl, rfl⟩

theorem gainsOnly_lasterror2 {s t : State K} (h : GainsOnly s t) :
    t.lasterror2 = s.lasterror2 := by
  obtain ⟨_, _, _, _, rfl⟩ := h
  rfl

theorem pid_pre_lasterror2 (cfg : Config K) (e : Ext K) (s : State K) (x : Fin 3) :
    (pid_pre cfg e s x).lasterror2 = s.lasterror2 := by
  have h3 : ∀ t : State K, (pid_transient cfg e t x).lasterror2 = t.lasterror2 := by
    intro t
    unfold pid_transient
    dsimp only
    split_ifs <;> rfl
  unfold pid_pre
  rw [h3, gainsOnly_lasterror2 (pid_analog_gainsOnly cfg e _), pid_decay_eq]

theorem pid_history_of_windup (cfg : Config K) (e : Ext K) (s : State K) (x : Fin 3)
    (hw : pid_iwindup cfg e (pid_pre cfg e s x) x = true) :
    (pid cfg e s x).2.lasterror = s.lasterror ∧
    (pid cfg e s x).2.lasterror2 = s.lasterror2 := by
  obtain ⟨a, b⟩ := derivOnly_history (pid_derivOnly cfg e s x)
  rw [a, b, pid_integral_eq, if_pos hw]
  exact ⟨pid_pre_lasterror cfg e s x, pid_pre_lasterror2 cfg e s x⟩

theorem pid_run_history_of_windup (cfg : Config K) (x : Fin 3) (es : List (Ext K))
    (s : State K) (h : windup_run cfg x es s) :
    (pid_run cfg x es s).lasterror = s.lasterror ∧
    (pid_run cfg x es s).lasterror2 = s.lasterror2 := by
  induction es generalizing s with
  | nil => exact ⟨rfl, rfl⟩
  | cons e es ih =>
    obtain ⟨h1, h2⟩ := h
    obtain ⟨a, b⟩ := ih _ h2
    obtain ⟨c, d⟩ := pid_history_of_windup cfg e s x h1
    exact ⟨a.trans c, b.trans d⟩

theorem midpoint_tick_ierror (cfg : Config K) (e : Ext K) (s : State K) (x : Fin 3)
    (hM : cfg.MIDPOINT_RULE_INTEGRAL = true) (hR : cfg.RECTANGULAR_RULE_INTEGRAL = false)
    (hS : cfg.SIMPSON_RULE_INTEGRAL = false)
    (hw : pid_iwindup cfg e (pid_pre cfg e s x) x = false) :
    (pid cfg e s x).2.ierror x
        = limitf (decay_factor cfg e * s.ierror x
            + 0.5 * (e.error x + s.lasterror x) * (pid_pre cfg e s x).pidki x * e.looptime)
          (integrallimit x) ∧
    (pid cfg e s x).2.lasterror x = e.error x := by
  obtain ⟨j1, j2⟩ := pid_integrate_midpoint cfg e (pid_pre cfg e s x) x hM hR hS
  constructor
  · rw [pid_ierror, pid_integral_eq, hw]
    simp only [Bool.false_eq_true, if_false, Function.update_same]
    rw [j1, pid_pre_ierror, pid_pre_lasterror, Function.update_same]
    congr 1
    ring
  · rw [(derivOnly_history (pid_derivOnly cfg e s x)).1, pid_integral_eq, hw]
    simp only [Bool.false_eq_true, if_false]
    exact j2

/-- C23: in a state in which the windup flag is set, `pid(x)` leaves `lasterror` and
`lasterror2` unchanged (in every build, on every axis), and so does every further tick
that finds the flag set.  In the build with the midpoint rule alone, the first tick `f`
after the windup ticks that finds the flag clear therefore updates the integral with
`0.5 * (error[x] + l) * pidki[x] * looptime`, where `l` is `lasterror[x]` from before the
windup ticks, and not the error of the previous tick; `l` is the error of the last tick
that found the flag clear, since such a tick sets `lasterror[x] = error[x]`. -/
theorem pid_windup_freezes_history (cfg : Config K) (e : Ext K) (s : State K) (x : Fin 3)
    (hw : pid_iwindup cfg e (pid_pre cfg e s x) x = true) :
    (pid cfg e s x).2.lasterror x = s.lasterror x ∧
    (pid cfg e s x).2.lasterror2 x = s.lasterror2 x ∧
    (pid cfg e s x).2.lasterror = s.lasterror ∧
    (pid cfg e s x).2.lasterror2 = s.lasterror2 ∧
    (∀ es : List (Ext K), windup_run cfg x es (pid cfg e s x).2 →
      (pid_run cfg x (e :: es) s).lasterror = s.lasterror ∧
      (pid_run cfg x (e :: es) s).lasterror2 = s.lasterror2) ∧
    (cfg.MIDPOINT_RULE_INTEGRAL = true → cfg.RECTANGULAR_RULE_INTEGRAL = false →
      cfg.SIMPSON_RULE_INTEGRAL = false →
      (∀ (es : List (Ext K)) (f : Ext K), windup_run cfg x es (pid cfg e s x).2 →
        pid_iwindup cfg f (pid_pre cfg f (pid_run cfg x (e :: es) s) x) x = false →
        (pid cfg f (pid_run cfg x (e :: es) s) x).2.ierror x
          = limitf (decay_factor cfg f * (pid_run cfg x (e :: es) s).ierror x
              + 0.5 * (f.error x + s.lasterror x)
                * (pid_pre cfg f (pid_run cfg x (e :: es) s) x).pidki x * f.looptime)
            (integrallimit x)) ∧
      (∀ (e0 : Ext K) (s0 : State K), pid_iwindup cfg e0 (pid_pre cfg e0 s0 x) x = false →
        s = (pid cfg e0 s0 x).2 → s.lasterror x = e0.error x)) := by
  obtain ⟨a, b⟩ := pid_history_of_windup cfg e s x hw
  have hrun : ∀ es : List (Ext K), windup_run cfg x es (pid cfg e s x).2 →
      (pid_run cfg x (e :: es) s).lasterror = s.lasterror ∧
      (pid_run cfg x (e :: es) s).lasterror2 = s.lasterror2 :=
    fun es h => pid_run_history_of_windup cfg x (e :: es) s ⟨hw, h⟩
  refine ⟨congrFun a x, congrFun b x, a, b, hrun, fun hM hR hS => ⟨?_, ?_⟩⟩
  · intro es f h hf
    rw [(midpoint_tick_ierror cfg f _ x hM hR hS hf).1, (hrun es h).1]
  · intro e0 s0 h0 hs
    rw [hs]
    exact (midpoint_tick_ierror cfg e0 s0 x hM hR hS h0).2

/-- Witness for C23: roll with `kp = ki = 1`, the output saturated at 0.6 and
`lasterror[0] = 1`.  Two ticks with error 2 find the windup flag set and leave
`lasterror[0] = 1`; the next tick, with error -0.5, finds the flag clear and moves the
integral from 0.0005 to `0.0005 + 0.5 * (-0.5 + 1) * 0.001 = 0.00075`, not to the
`0.0005 + 0.5 * (-0.5 + 2) * 0.001 = 0.00125` that the error of the previous tick would
give. -/
theorem pid_windup_freezes_history_witness :
    pid_iwindup exampleConfig (exampleExtError 2)
      (pid_pre exampleConfig (exampleExtError 2) exampleStateWound 0) 0 = true ∧
    windup_run exampleConfig 0 [exampleExtError 2]
      (pid exampleConfig (exampleExtError 2) exampleStateWound 0).2 ∧
    (pid_run exampleConfig 0 [exampleExtError 2, exampleExtError 2]
      exampleStateWound).lasterror 0 = 1 ∧
    (pid exampleConfig (exampleExtError (-0.5))
      (pid_run exampleConfig 0 [exampleExtError 2, exampleExtError 2] exampleStateWound)
      0).2.ierror 0 = 0.00075 := by
  have hw : pid_iwindup exampleConfig (exampleExtError 2)
      (pid_pre exampleConfig (exampleExtError 2) exampleStateWound 0) 0 = true := by
    simp [pid_iwindup, pid_pre, pid_decay, pid_analog, pid_transient, exampleConfig,
      exampleExtError, exampleExt, exampleStateWound, exampleStateKpKi, initState, outlimit]
  have hrun : windup_run exampleConfig 0 [exampleExtError 2]
      (pid exampleConfig (exampleExtError 2) exampleStateWound 0).2 := by
    simp [windup_run, pid, pid_pre, pid_limit, pid_d, pid_pi, pid_pterm, pid_integral,
      pid_decay, pid_analog, pid_transient, pid_iwindup, pid_integrate, exampleConfig,
      exampleExtError, exampleExt, exampleStateWound, exampleStateKpKi, initState, limitf,
      outlimit, integrallimit]
    norm_num
  have hf : pid_iwindup exampleConfig (exampleExtError (-0.5))
      (pid_pre exampleConfig (exampleExtError (-0.5))
        (pid_run exampleConfig 0 [exampleExtError 2, exampleExtError 2] exampleStateWound) 0)
      0 = false := by
    simp [pid_run, pid, pid_pre, pid_limit, pid_d, pid_pi, pid_pterm, pid_integral,
      pid_decay, pid_analog, pid_transient, pid_iwindup, pid_integrate, exampleConfig,
      exampleExtError, exampleExt, exampleStateWound, exampleStateKpKi, initState, limitf,
      outlimit, integrallimit]
    norm_num
  obtain ⟨_, _, _, _, h5, h6⟩ :=
    pid_windup_freezes_history exampleConfig (exampleExtError 2) exampleStateWound 0 hw
  refine ⟨hw, hrun, ?_, ?_⟩
  · rw [(h5 _ hrun).1]
    simp [exampleStateWound]
  · rw [(h6 rfl rfl rfl).1 _ _ hrun hf]
    simp [pid_run, pid, pid_pre, pid_limit, pid_d, pid_pi, pid_pterm, pid_integral,
      pid_decay, pid_analog, pid_transient, pid_iwindup, pid_integrate, decay_factor,
      decay_cond, exampleConfig, exampleExtError, exampleExt, exampleStateWound,
      exampleStateKpKi, initState, limitf, outlimit, integrallimit]
    norm_num

end Silverware
